import Mathlib

/-!
# SnowHoudini MPM kernel: `SIM_SnowSolver::solveGasSubclass`

A shallow embedding of the substep loop of `src/SnowHoudini/SIM_SnowSolver.c`.

* `float` values are rationals (`ℚ`): every statement is about exact arithmetic.
  Division is the total division of `ℚ` (`x / 0 = 0`); the source divides by a node
  mass only at active nodes.
* The eight voxel arrays that are rebuilt every substep (`g_mass`, `g_active`,
  `g_ovelX/Y/Z`, `g_nvelX/Y/Z`) are resized with the same arguments and therefore
  share one resolution `grid_divs`; they are modelled as one array of records
  (`Grid`), the three components of a vector field being a `Vec3`.
* `setValue` outside the resolution is ignored, as `UT_VoxelArray::setValue` does.
* The items of the header `SIM_SnowSolver.h` and of the libraries that the source
  file only uses (`EPSILON`, `bspline`, `bsplineSlope`, `sqrt`, `exp`, Eigen's
  `JacobiSVD`) are fields of `Host`.
-/

namespace SnowSolver

/-- `UT_Vector3`: component `i` is `v i`. -/
abbrev Vec3 := Fin 3 → ℚ

/-- `UT_Matrix3` / `Eigen::Matrix3f`. -/
abbrev Mat3 := Matrix (Fin 3) (Fin 3) ℚ

/-- A voxel index `(x, y, z)`. -/
abbrev Node := Int × Int × Int

/-- What the source file takes from its header and from libraries. -/
structure Host where
  EPSILON : ℚ
  bspline : ℚ → ℚ
  bsplineSlope : ℚ → ℚ
  sqrt : ℚ → ℚ
  exp : ℚ → ℚ
  svd : Mat3 → Mat3 × Vec3 × Mat3

/-- The constants read from the `mpm_solver` node (STEP #0). -/
structure Params where
  particle_mass : ℚ
  YOUNGS_MODULUS : ℚ
  POISSONS_RATIO : ℚ
  CRIT_COMPRESS : ℚ
  CRIT_STRETCH : ℚ
  FLIP_PERCENT : ℚ
  HARDENING : ℚ
  GRAVITY : Vec3
  CFL : ℚ
  COF : ℚ
  division_size : ℚ
  MAX_TIMESTEP : ℚ
  bbox_min_limit : Vec3
  bbox_max_limit : Vec3

/-- The point attributes `P`, `p_vel`, `p_vol`, `p_d`, `p_fe`, `p_fp`. -/
structure Particle where
  position : Vec3
  velocity : Vec3
  volume : ℚ
  density : ℚ
  Fe : Mat3
  Fp : Mat3

/-- The values of `g_mass`, `g_active`, `g_ovel`, `g_nvel` at one voxel. -/
structure NodeData where
  g_mass : ℚ
  g_active : ℚ
  g_ovel : Vec3
  g_nvel : Vec3

/-- The rebuilt voxel arrays: `g n` holds what `getValue` returns at index `n`. -/
abbrev Grid := Node → NodeData

/-- The index test of `UT_VoxelArray::setValue` for resolution `grid_divs`. -/
def isValidIndex (grid_divs n : Node) : Prop :=
  (0 ≤ n.1 ∧ n.1 < grid_divs.1) ∧ (0 ≤ n.2.1 ∧ n.2.1 < grid_divs.2.1) ∧
    (0 ≤ n.2.2 ∧ n.2.2 < grid_divs.2.2)

instance (grid_divs n : Node) : Decidable (isValidIndex grid_divs n) := by
  unfold isValidIndex; infer_instance

/-- A `setValue` at `n`: the record at `n` becomes `f (g n)` when `n` is a valid index. -/
def Grid.modify (grid_divs : Node) (g : Grid) (n : Node) (f : NodeData → NodeData) : Grid :=
  if isValidIndex grid_divs n then Function.update g n (f (g n)) else g

/-- The values `0, 1, ..., d-1` of a loop `for (int i = 0; i < d; i++)`. -/
def loopRange (d : Int) : List Int := (List.range d.toNat).map Int.ofNat

/-- The indices visited by `for iX < grid_divs[0]`, `for iY < grid_divs[1]`,
`for iZ < grid_divs[2]`, in that order. -/
def gridNodes (grid_divs : Node) : List Node :=
  (loopRange grid_divs.1).flatMap fun iX =>
    (loopRange grid_divs.2.1).flatMap fun iY =>
      (loopRange grid_divs.2.2).map fun iZ => (iX, iY, iZ)

/-- A loop over all voxels whose body reads and writes the voxel it visits. -/
def forNodes (grid_divs : Node) (body : Node → NodeData → NodeData) (g : Grid) : Grid :=
  (gridNodes grid_divs).foldl (fun g n => Grid.modify grid_divs g n (body n)) g

/-- The record written by the reset loop (lines 338-351). -/
def zeroNode : NodeData :=
  { g_mass := 0, g_active := 0, g_ovel := fun _ => 0, g_nvel := fun _ => 0 }

/-- Reset grid (lines 338-351), run on the arrays as the resize left them. -/
def resetGrid (grid_divs : Node) (g : Grid) : Grid :=
  forNodes grid_divs (fun _ _ => zeroNode) g

/-- The four values `c-1, c, c+1, c+2` of a stencil loop
`for (z = p_gridz-1, z_end = z+3; z <= z_end; z++)`. -/
def axisRange (c : Int) : List Int := [c - 1, c, c + 1, c + 2]

/-- The 64 voxels of the stencil in the order of `idx`: `z` outermost, `x` innermost. -/
def stencil (p_grid : Node) : List Node :=
  (axisRange p_grid.2.2).flatMap fun z =>
    (axisRange p_grid.2.1).flatMap fun y =>
      (axisRange p_grid.1).map fun x => (x, y, z)

/-- The particle's grid position `gpos = (pos - grid_origin)/division_size - .5`
(lines 383-384). -/
def gridPos (grid_origin : Vec3) (division_size : ℚ) (pos : Vec3) : Vec3 :=
  fun i => (pos i - grid_origin i) / division_size - 1 / 2

/-- Modelled from the spec: `posToIndex` of the Houdini field (not in src/), which the
spec gives as `worldToIndex(pos) = floor((pos-origin)/spacing - 0.5)`, the lower corner
of the stencil. -/
def posToIndex (grid_origin : Vec3) (division_size : ℚ) (pos : Vec3) : Node :=
  (⌊gridPos grid_origin division_size pos 0⌋, ⌊gridPos grid_origin division_size pos 1⌋,
    ⌊gridPos grid_origin division_size pos 2⌋)

/-- The weight `wx*wy*wz` of voxel `n` (lines 391-406). -/
def nodeWeight (H : Host) (gpos : Vec3) (n : Node) : ℚ :=
  H.bspline (gpos 0 - n.1) * H.bspline (gpos 1 - n.2.1) * H.bspline (gpos 2 - n.2.2)

/-- The weight gradient `(dx*wy*wz, wx*dy*wz, wx*wy*dz)` of voxel `n` (line 411). -/
def nodeWeightGradient (H : Host) (gpos : Vec3) (n : Node) : Vec3 :=
  ![H.bsplineSlope (gpos 0 - n.1) * H.bspline (gpos 1 - n.2.1) * H.bspline (gpos 2 - n.2.2),
    H.bspline (gpos 0 - n.1) * H.bsplineSlope (gpos 1 - n.2.1) * H.bspline (gpos 2 - n.2.2),
    H.bspline (gpos 0 - n.1) * H.bspline (gpos 1 - n.2.1) * H.bsplineSlope (gpos 2 - n.2.2)]

/-- The geometry of the resized field: `grid_origin` (lines 370-371) and `grid_divs`. -/
structure Geometry where
  grid_origin : Vec3
  grid_divs : Node

/-- The stencil of a particle: the voxels around `posToIndex` of its position. -/
def particleStencil (P : Params) (G : Geometry) (p : Particle) : List Node :=
  stencil (posToIndex G.grid_origin P.division_size p.position)

/-- The row `p_w[pid-1]` written by the loop of STEP #1 (line 407). -/
def cachedWeights (H : Host) (P : Params) (G : Geometry) (p : Particle) : List ℚ :=
  (particleStencil P G p).map
    (nodeWeight H (gridPos G.grid_origin P.division_size p.position))

/-- The row `p_wgh[pid-1]` written by the loop of STEP #1 (line 411). -/
def cachedWeightGradients (H : Host) (P : Params) (G : Geometry) (p : Particle) : List Vec3 :=
  (particleStencil P G p).map
    (nodeWeightGradient H (gridPos G.grid_origin P.division_size p.position))

/-- Interpolate mass (lines 417-420): `g_mass(x,y,z) += weight*particle_mass`. -/
def addMass (P : Params) (weight : ℚ) (d : NodeData) : NodeData :=
  { d with g_mass := d.g_mass + weight * P.particle_mass }

/-- The mass scatter of one particle over its stencil (velocity mode of STEP #1). -/
def transferMassParticle (H : Host) (P : Params) (G : Geometry) (g : Grid) (p : Particle) :
    Grid :=
  ((particleStencil P G p).zip (cachedWeights H P G p)).foldl
    (fun g nw => Grid.modify G.grid_divs g nw.1 (addMass P nw.2)) g

/-- STEP #1 in velocity mode (lines 375-433): the mass scatter of all particles. -/
def transferMass (H : Host) (P : Params) (G : Geometry) (g : Grid) (ps : List Particle) :
    Grid :=
  ps.foldl (transferMassParticle H P G) g

/-- The voxels of the grid as a finite set. -/
def gridBox (grid_divs : Node) : Finset Node :=
  Finset.Ico 0 grid_divs.1 ×ˢ Finset.Ico 0 grid_divs.2.1 ×ˢ Finset.Ico 0 grid_divs.2.2

/-- The sum of the mass field over all voxels. -/
def totalMass (grid_divs : Node) (g : Grid) : ℚ :=
  ∑ n in gridBox grid_divs, (g n).g_mass

/-- Modelled from the spec: `SIM_SnowSolver::bspline` (declared in the header, not in
src/), the `weight(x)` of the spec: the cubic B-spline falloff, zero outside `|x| < 2`. -/
def bspline (x : ℚ) : ℚ :=
  if |x| < 1 then |x| * |x| * (|x| / 2 - 1) + 2 / 3
  else if |x| < 2 then |x| * (|x| * (-|x| / 6 + 1) - 2) + 4 / 3
  else 0

/-- Modelled from the spec: `SIM_SnowSolver::bsplineSlope` (declared in the header, not in
src/), the `weightSlope(x)` of the spec: the derivative of `bspline`. -/
def bsplineSlope (x : ℚ) : ℚ :=
  if |x| < 1 then 3 / 2 * x * |x| - 2 * x
  else if |x| < 2 then -x * |x| / 2 + 2 * x - 2 * x / |x|
  else 0

/-- A host whose `bspline` and `bsplineSlope` are those of the spec, with stand-ins for
the library functions that are exact on the inputs of the examples below: `sqrt` on
squares of rationals, `exp` at 0, `svd` on diagonal matrices without negative entries. -/
def exampleHost (EPSILON : ℚ) : Host :=
  { EPSILON := EPSILON
    bspline := bspline
    bsplineSlope := bsplineSlope
    sqrt := fun x => (Nat.sqrt x.num.toNat : ℚ) / (Nat.sqrt x.den : ℚ)
    exp := fun x => 1 + x
    svd := fun A => (1, fun i => A i i, 1) }

/-- The body of the velocity scatter (lines 486-492): `g_ovel += vel_fac*w` and
`g_active = 1.0`. -/
def addVelocity (vel_fac : Vec3) (w : ℚ) (d : NodeData) : NodeData :=
  { d with g_ovel := fun i => d.g_ovel i + vel_fac i * w, g_active := 1 }

/-- Component `i` of the scattered momentum: the sum of `g_ovel` over all voxels. -/
def totalOvel (grid_divs : Node) (g : Grid) (i : Fin 3) : ℚ :=
  ∑ n in gridBox grid_divs, (g n).g_ovel i

/-- One iteration of the velocity scatter for the stencil entry `nw = (voxel, weight)`. -/
def velocityStep (H : Host) (grid_divs : Node) (vel_fac : Vec3) (g : Grid) (nw : Node × ℚ) :
    Grid :=
  if nw.2 > H.EPSILON then Grid.modify grid_divs g nw.1 (addVelocity vel_fac nw.2) else g

/-- The velocity scatter of one particle (lines 473-496), with
`vel_fac = p_vel*particle_mass`; voxels whose cached weight is not above `EPSILON` are
skipped. -/
def transferVelocityParticle (H : Host) (P : Params) (G : Geometry) (g : Grid)
    (p : Particle) : Grid :=
  ((particleStencil P G p).zip (cachedWeights H P G p)).foldl
    (velocityStep H G.grid_divs (fun i => p.velocity i * P.particle_mass)) g

/-- STEP #3, first loop (lines 472-497): the velocity scatter of all particles. -/
def transferVelocity (H : Host) (P : Params) (G : Geometry) (g : Grid)
    (ps : List Particle) : Grid :=
  ps.foldl (transferVelocityParticle H P G) g

/-- The body of the division loop (lines 504-509): at an active voxel `g_ovel` is
multiplied by `node_mass = 1/g_mass`. -/
def divideByMass (d : NodeData) : NodeData :=
  if d.g_active ≠ 0 then { d with g_ovel := fun i => d.g_ovel i * (1 / d.g_mass) } else d

/-- STEP #3, second loop (lines 500-512): divide by mass once, at each active voxel. -/
def normalizeVelocity (grid_divs : Node) (g : Grid) : Grid :=
  forNodes grid_divs (fun _ => divideByMass) g

/-- Component `i` of the grid momentum: the sum of `g_mass * g_ovel` over all voxels. -/
def totalMomentum (grid_divs : Node) (g : Grid) (i : Fin 3) : ℚ :=
  ∑ n in gridBox grid_divs, (g n).g_mass * (g n).g_ovel i

/-- The sum of the cached weights that the guard `w > EPSILON` lets through. -/
def usedWeightSum (H : Host) (P : Params) (G : Geometry) (p : Particle) : ℚ :=
  ((cachedWeights H P G p).filter fun w => w > H.EPSILON).sum

/-- The constants of the example scenario of the spec, with unit spacing. -/
def exampleParams : Params :=
  { particle_mass := 1
    YOUNGS_MODULUS := 140000
    POISSONS_RATIO := 1 / 5
    CRIT_COMPRESS := 1 / 10
    CRIT_STRETCH := 10
    FLIP_PERCENT := 19 / 20
    HARDENING := 10
    GRAVITY := ![0, -49 / 5, 0]
    CFL := 1
    COF := 1 / 2
    division_size := 1
    MAX_TIMESTEP := 1 / 24
    bbox_min_limit := fun _ => -100
    bbox_max_limit := fun _ => 100 }

/-- A grid of 7 x 7 x 7 voxels with its corner at the world origin. -/
def exampleGeometry : Geometry :=
  { grid_origin := fun _ => 0
    grid_divs := (7, 7, 7) }

/-- A particle at rest in the middle of `exampleGeometry`, exactly on the voxel centre
`(3, 3, 3)`, with `Fe = Fp = I`. -/
def centredParticle : Particle :=
  { position := fun _ => 7 / 2
    velocity := fun _ => 0
    volume := 1
    density := 1
    Fe := 1
    Fp := 1 }

/-- A particle a thousandth of a cell off the voxel centre `(3, 3, 3)` on every axis,
moving along `x`. Its smallest stencil weight is `((1/1000)^3 / 6)^3`. -/
def offsetParticle : Particle :=
  { position := fun _ => 3501 / 1000
    velocity := ![1, 0, 0]
    volume := 1
    density := 1
    Fe := 1
    Fp := 1 }

/-- The Lame parameter `mu = YOUNGS_MODULUS/(2+2*POISSONS_RATIO)` (line 188). -/
def lameMu (P : Params) : ℚ := P.YOUNGS_MODULUS / (2 + 2 * P.POISSONS_RATIO)

/-- The Lame parameter
`lambda = YOUNGS_MODULUS*POISSONS_RATIO/((1+POISSONS_RATIO)*(1-2*POISSONS_RATIO))`
(line 189). -/
def lameLambda (P : Params) : ℚ :=
  P.YOUNGS_MODULUS * P.POISSONS_RATIO / ((1 + P.POISSONS_RATIO) * (1 - 2 * P.POISSONS_RATIO))

/-- `Eigen::Map<Eigen::Matrix3f>` over the data of a `UT_Matrix3`, in either direction:
Eigen reads the nine floats column by column, the HDK matrix stores them row by row, so
entry `(i, j)` of one is entry `(j, i)` of the other. -/
def eigenMap (M : Mat3) : Mat3 := M.transpose

/-- Clamp singular values (lines 548-553). -/
def clampSingular (P : Params) (e : ℚ) : ℚ :=
  if e < P.CRIT_COMPRESS then P.CRIT_COMPRESS
  else if e > P.CRIT_STRETCH then P.CRIT_STRETCH
  else e

/-- The Eigen values of one iteration of the force loop after line 568: the factors of
the decomposition with the clamped `svd_e`, the new `def_plastic` and `def_elastic`, and
`energy`. -/
structure Constitutive where
  svd_u : Mat3
  svd_e : Vec3
  svd_v : Mat3
  def_plastic : Mat3
  def_elastic : Mat3
  energy : Mat3

/-- Lines 537-568: plasticity applied to the deformation gradient of particle `p`, then
the energy derivative. -/
def constitutive (H : Host) (P : Params) (p : Particle) : Constitutive :=
  let def_plastic := eigenMap p.Fp
  let def_elastic := eigenMap p.Fe
  let svd_u := (H.svd def_elastic).1
  let svd_e : Vec3 := fun i => clampSingular P ((H.svd def_elastic).2.1 i)
  let svd_v := (H.svd def_elastic).2.2
  let def_plastic1 :=
    svd_v * Matrix.diagonal (fun i => (svd_e i)⁻¹) * svd_u.transpose * def_elastic * def_plastic
  let def_elastic1 := svd_u * Matrix.diagonal svd_e * svd_v.transpose
  let energy := (2 * lameMu P) •
    ((def_elastic1 - svd_u * svd_v.transpose) * def_elastic1.transpose)
  let Je := svd_e 0 * svd_e 1 * svd_e 2
  let contour := lameLambda P * Je * (Je - 1)
  let jp := def_plastic1.det
  let particle_vol := p.volume
  { svd_u := svd_u
    svd_e := svd_e
    svd_v := svd_v
    def_plastic := def_plastic1
    def_elastic := def_elastic1
    energy := (particle_vol * H.exp (P.HARDENING * (1 - jp))) •
      (energy + Matrix.diagonal fun _ => contour) }

/-- Lines 571-577: the particle with `p_Fp` and `p_Fe` written back. -/
def applyPlasticity (H : Host) (P : Params) (p : Particle) : Particle :=
  { p with
    Fp := eigenMap (constitutive H P p).def_plastic
    Fe := eigenMap (constitutive H P p).def_elastic }

/-- The factors `(U, s, V)` form a singular value decomposition of `A`: `A = U diag(s) V^T`
with `U`, `V` orthogonal and no negative `s`. -/
def IsSVD (A : Mat3) (usv : Mat3 × Vec3 × Mat3) : Prop :=
  A = usv.1 * Matrix.diagonal usv.2.1 * usv.2.2.transpose ∧
    usv.1.transpose * usv.1 = 1 ∧ usv.2.2.transpose * usv.2.2 = 1 ∧ ∀ i, 0 ≤ usv.2.1 i

/-- The number `σ` is a singular value of `A`: it is not negative and `σ^2` is an
eigenvalue of `A^T A`. -/
def IsSingularValue (A : Mat3) (σ : ℚ) : Prop :=
  0 ≤ σ ∧ ∃ v : Vec3, v ≠ 0 ∧ (A.transpose * A).mulVec v = (σ * σ) • v

/-- The example constants with a negative plasticity interval `[-2, -1]`. -/
def negativeStretchParams : Params :=
  { exampleParams with CRIT_COMPRESS := -2, CRIT_STRETCH := -1 }

/-- `UT_Vector3::length2`. -/
def length2 (v : Vec3) : ℚ := Matrix.dotProduct v v

/-- `UT_Vector3::length`. -/
def length (H : Host) (v : Vec3) : ℚ := H.sqrt (length2 v)

/-- The collision arrays `g_col` and `g_colVel`, which the substep only reads. -/
structure Collider where
  g_col : Node → ℚ
  g_colVel : Node → Vec3

/-- What the resize of a velocity substep (lines 312-335 and 370-371) hands to the rest of
the substep: the geometry of the resized fields, the rebuilt arrays as the resize left them,
the collision arrays, and the value found in the local `sdf_normal` declared at line 625. -/
structure Resized where
  geometry : Geometry
  grid : Grid
  collider : Collider
  sdf_normal : Vec3

/-- The volume of a voxel, `voxelArea` (line 277). -/
def voxelArea (P : Params) : ℚ := P.division_size * P.division_size * P.division_size

/-- The inner loops of STEP #2 (lines 450-460): grid mass gathered with the cached weights
above `EPSILON`. -/
def gatherMass (H : Host) (P : Params) (G : Geometry) (g : Grid) (p : Particle) : ℚ :=
  ((particleStencil P G p).zip (cachedWeights H P G p)).foldl
    (fun density nw => if nw.2 > H.EPSILON then density + nw.2 * (g nw.1).g_mass else density) 0

/-- STEP #2 for one particle (lines 443-465): density and volume from the grid mass. -/
def estimateVolume (H : Host) (P : Params) (G : Geometry) (g : Grid) (p : Particle) :
    Particle :=
  { p with
    density := gatherMass H P G g p / voxelArea P
    volume := P.particle_mass / (gatherMass H P G g p / voxelArea P) }

/-- STEP #2 (lines 440-466): run in the frame whose `time` is 0 only. -/
def estimateVolumes (H : Host) (P : Params) (G : Geometry) (time : ℚ) (g : Grid)
    (ps : List Particle) : List Particle :=
  if time = 0 then ps.map (estimateVolume H P G g) else ps

/-- The body of the force scatter (lines 587-590): `g_nvel[k] += ngrad.dot(HDK_energy[k])`. -/
def addForce (ngrad : Vec3) (HDK_energy : Mat3) (d : NodeData) : NodeData :=
  { d with g_nvel := fun k => d.g_nvel k + Matrix.dotProduct ngrad (HDK_energy k) }

/-- One iteration of the force scatter for the stencil entry
`nwg = (voxel, weight, weight gradient)`. -/
def forceStep (H : Host) (grid_divs : Node) (HDK_energy : Mat3) (g : Grid)
    (nwg : Node × ℚ × Vec3) : Grid :=
  if nwg.2.1 > H.EPSILON then Grid.modify grid_divs g nwg.1 (addForce nwg.2.2 HDK_energy)
  else g

/-- The stencil of a particle with the cached weight and weight gradient of each voxel. -/
def stencilEntries (H : Host) (P : Params) (G : Geometry) (p : Particle) :
    List (Node × ℚ × Vec3) :=
  (particleStencil P G p).zip ((cachedWeights H P G p).zip (cachedWeightGradients H P G p))

/-- The force scatter of one particle (lines 580-594), `HDK_energy` being the energy
derivative mapped back to the HDK matrix. -/
def transferForceParticle (H : Host) (P : Params) (G : Geometry) (g : Grid) (p : Particle) :
    Grid :=
  (stencilEntries H P G p).foldl
    (forceStep H G.grid_divs (eigenMap (constitutive H P p).energy)) g

/-- STEP #4 on the grid (lines 532-595): the force scatter of all particles into `g_nvel`. -/
def transferForce (H : Host) (P : Params) (G : Geometry) (g : Grid) (ps : List Particle) :
    Grid :=
  ps.foldl (transferForceParticle H P G) g

/-- The body of the force integration (lines 602-618). -/
def integrateNode (P : Params) (timestep : ℚ) (d : NodeData) : NodeData :=
  if d.g_active ≠ 0 then
    { d with
      g_nvel := fun k => d.g_ovel k + timestep * (P.GRAVITY k - d.g_nvel k * (1 / d.g_mass)) }
  else d

/-- Use new forces to solve for new velocities (lines 598-621). -/
def integrateForces (P : Params) (timestep : ℚ) (grid_divs : Node) (g : Grid) : Grid :=
  forNodes grid_divs (fun _ => integrateNode P timestep) g

/-- `computeSDFNormal` (lines 836-858): the returned flag and the value left in `norm`.
`UT_Vector3::normalize` divides by the length unless it is zero. -/
def computeSDFNormal (H : Host) (g_col : Node → ℚ) (n : Node) (norm : Vec3) : Bool × Vec3 :=
  if g_col n ≤ 0 then (false, norm)
  else
    let v : Vec3 :=
      ![g_col (n.1 - 1, n.2.1, n.2.2) - g_col (n.1 + 1, n.2.1, n.2.2),
        g_col (n.1, n.2.1 - 1, n.2.2) - g_col (n.1, n.2.1 + 1, n.2.2),
        g_col (n.1, n.2.1, n.2.2 - 1) - g_col (n.1, n.2.1, n.2.2 + 1)]
    (true, if length H v = 0 then v else fun i => v i / length H v)

/-- Lines 645-656: the corrected velocity of a voxel in contact, `none` when the bodies
are separating (`continue`). -/
def gridContact (H : Host) (P : Params) (v vco sdf_normal : Vec3) : Option Vec3 :=
  let vrel : Vec3 := v - vco
  let vn := Matrix.dotProduct vrel sdf_normal
  if vn ≥ 0 then none
  else
    let vt : Vec3 := vrel - vn • sdf_normal
    let stick := vn * P.COF
    let vt_norm := length H vt
    if vt_norm ≤ -stick then some vco
    else some (vt + ((fun i => stick * vt i / vt_norm) + vco))

/-- The values `1, ..., d-2` of a loop `for (int i = 1; i < d-1; i++)`. -/
def interiorRange (d : Int) : List Int := (loopRange (d - 2)).map fun i => i + 1

/-- The indices visited by the loops of STEP #5 (lines 626-628). -/
def interiorNodes (grid_divs : Node) : List Node :=
  (interiorRange grid_divs.1).flatMap fun iX =>
    (interiorRange grid_divs.2.1).flatMap fun iY =>
      (interiorRange grid_divs.2.2).map fun iZ => (iX, iY, iZ)

/-- One iteration of STEP #5 (lines 629-660) on the grid and the shared `sdf_normal`. -/
def gridCollisionStep (H : Host) (P : Params) (C : Collider) (grid_divs : Node)
    (s : Grid × Vec3) (n : Node) : Grid × Vec3 :=
  if (s.1 n).g_active ≠ 0 then
    if (computeSDFNormal H C.g_col n s.2).1 then
      match gridContact H P (s.1 n).g_nvel (C.g_colVel n) (computeSDFNormal H C.g_col n s.2).2 with
      | none => (s.1, (computeSDFNormal H C.g_col n s.2).2)
      | some vt =>
        (Grid.modify grid_divs s.1 n (fun d => { d with g_nvel := vt }),
          (computeSDFNormal H C.g_col n s.2).2)
    else (s.1, (computeSDFNormal H C.g_col n s.2).2)
  else s

/-- STEP #5 (lines 625-663): grid collision resolution. -/
def gridCollision (H : Host) (P : Params) (C : Collider) (grid_divs : Node)
    (s : Grid × Vec3) : Grid × Vec3 :=
  (interiorNodes grid_divs).foldl (gridCollisionStep H P C grid_divs) s

/-- The accumulators of the gather loop of STEP #6 (lines 677-682). -/
structure Gathered where
  pic : Vec3
  flip : Vec3
  density : ℚ
  vel_grad : Mat3

/-- One iteration of the gather (lines 691-709) for the stencil entry
`nwg = (voxel, weight, weight gradient)`. -/
def gatherStep (H : Host) (g : Grid) (a : Gathered) (nwg : Node × ℚ × Vec3) : Gathered :=
  if nwg.2.1 > H.EPSILON then
    { pic := fun k => a.pic k + (g nwg.1).g_nvel k * nwg.2.1
      flip := fun k => a.flip k + ((g nwg.1).g_nvel k - (g nwg.1).g_ovel k) * nwg.2.1
      density := a.density + nwg.2.1 * (g nwg.1).g_mass
      vel_grad := a.vel_grad + Matrix.of fun i j => 1 * (g nwg.1).g_nvel i * nwg.2.2 j }
  else a

/-- The gather of one particle (lines 677-712): `pic` starts at 0, `flip` at `p_vel`. -/
def gather (H : Host) (P : Params) (G : Geometry) (g : Grid) (p : Particle) : Gathered :=
  (stencilEntries H P G p).foldl (gatherStep H g)
    { pic := fun _ => 0, flip := p.velocity, density := 0, vel_grad := 0 }

/-- The two values `c, c+1` of a loop `for (z = p_gridz, z_end = z+1; z <= z_end; z++)`. -/
def cellRange (c : Int) : List Int := [c, c + 1]

/-- The 8 voxels around the particle visited by lines 729-733, `z` outermost. -/
def cellNodes (p_grid : Node) : List Node :=
  (cellRange p_grid.2.2).flatMap fun z =>
    (cellRange p_grid.2.1).flatMap fun y =>
      (cellRange p_grid.1).map fun x => (x, y, z)

/-- The accumulators of the collision interpolation (lines 718-724) and the shared
`sdf_normal`. -/
structure Sampled where
  col_sdf : ℚ
  col_normal : Vec3
  col_vel : Vec3
  sdf_normal : Vec3

/-- One iteration of the collision interpolation (lines 734-745); the flag returned by
`computeSDFNormal` is not looked at. -/
def sampleStep (H : Host) (C : Collider) (gpos : Vec3) (a : Sampled) (n : Node) : Sampled :=
  let w := |(gpos 2 - n.2.2) * (gpos 1 - n.2.1) * (gpos 0 - n.1)|
  let sdf_normal := (computeSDFNormal H C.g_col n a.sdf_normal).2
  { col_sdf := a.col_sdf + C.g_col n * w
    col_normal := fun k => a.col_normal k + sdf_normal k * w
    col_vel := fun k => a.col_vel k + C.g_colVel n k * w
    sdf_normal := sdf_normal }

/-- Lines 717-748: the collider sampled at the particle. -/
def sampleCollider (H : Host) (P : Params) (G : Geometry) (C : Collider) (sdf_normal : Vec3)
    (p : Particle) : Sampled :=
  (cellNodes (posToIndex G.grid_origin P.division_size p.position)).foldl
    (sampleStep H C (gridPos G.grid_origin P.division_size p.position))
    { col_sdf := 0, col_normal := fun _ => 0, col_vel := fun _ => 0, sdf_normal := sdf_normal }

/-- Resolve particle collisions (lines 751-765). -/
def particleContact (H : Host) (P : Params) (vel col_vel col_normal : Vec3) (col_sdf : ℚ) :
    Vec3 :=
  if col_sdf > 0 then
    let vrel : Vec3 := vel - col_vel
    let vn := Matrix.dotProduct vrel col_normal
    if vn < 0 then
      let vel1 : Vec3 := vrel - vn • col_normal
      let stick := vn * P.COF
      let vel_norm := length H vel1
      if vel_norm ≤ -stick then col_vel
      else vel1 + ((fun i => stick * vel1 i / vel_norm) + col_vel)
    else vel
  else vel

/-- One iteration of "Limit particle position" (lines 777-784) on `(pos, vel)`. -/
def limitAxis (P : Params) (s : Vec3 × Vec3) (i : Fin 3) : Vec3 × Vec3 :=
  if s.1 i > P.bbox_max_limit i then (Function.update s.1 i (P.bbox_max_limit i), fun _ => 0)
  else if s.1 i < P.bbox_min_limit i then
    (Function.update s.1 i (P.bbox_min_limit i), fun _ => 0)
  else s

/-- Limit particle position (lines 776-785): the axes 0, 1, 2 in turn. -/
def limitPosition (P : Params) (pos vel : Vec3) : Vec3 × Vec3 :=
  [0, 1, 2].foldl (limitAxis P) (pos, vel)

/-- One iteration of the bounding box update (lines 264-269 and 810-815). -/
def growAxis (pos : Vec3) (b : Vec3 × Vec3) (i : Fin 3) : Vec3 × Vec3 :=
  if b.1 i > pos i then (Function.update b.1 i (pos i), b.2)
  else if b.2 i < pos i then (b.1, Function.update b.2 i (pos i))
  else b

/-- The velocity bound and the bounding box tracked for the next iteration: `max_vel`,
`bbox_reset`, `bbox_min`, `bbox_max`. -/
structure Bounds where
  max_vel : ℚ
  bbox_reset : Bool
  bbox_min : Vec3
  bbox_max : Vec3

/-- Lines 258-270 and 804-816: adjust the bounding box to `pos`. -/
def growBox (b : Bounds) (pos : Vec3) : Bounds :=
  if b.bbox_reset then { b with bbox_reset := false, bbox_min := pos, bbox_max := pos }
  else
    { b with
      bbox_min := ([0, 1, 2].foldl (growAxis pos) (b.bbox_min, b.bbox_max)).1
      bbox_max := ([0, 1, 2].foldl (growAxis pos) (b.bbox_min, b.bbox_max)).2 }

/-- Lines 253-255 and 799-801: adjust the velocity bound to `vel`. -/
def growMaxVel (b : Bounds) (vel : Vec3) : Bounds :=
  if length2 vel > b.max_vel then { b with max_vel := length2 vel } else b

/-- The variables carried from one particle to the next by the loop of STEP #6 and #7:
the shared `sdf_normal` and the bounds. -/
structure Carried where
  sdf_normal : Vec3
  bounds : Bounds

/-- The velocity of a particle after the gather and the particle collision (lines 715-765). -/
def gatheredVelocity (H : Host) (P : Params) (G : Geometry) (C : Collider) (g : Grid)
    (sdf_normal : Vec3) (p : Particle) : Vec3 :=
  particleContact H P
    (fun k => (gather H P G g p).flip k * P.FLIP_PERCENT +
      (gather H P G g p).pic k * (1 - P.FLIP_PERCENT))
    (sampleCollider H P G C sdf_normal p).col_vel
    (sampleCollider H P G C sdf_normal p).col_normal
    (sampleCollider H P G C sdf_normal p).col_sdf

/-- STEP #6 and #7 for one particle (lines 672-816): the particle as stored, and the
carried variables. -/
def gatherParticle (H : Host) (P : Params) (G : Geometry) (C : Collider) (g : Grid)
    (timestep : ℚ) (c : Carried) (p : Particle) : Carried × Particle :=
  let vel := gatheredVelocity H P G C g c.sdf_normal p
  let pos : Vec3 := fun i => p.position i + timestep * vel i
  let lim := limitPosition P pos vel
  let vel_grad : Mat3 := timestep • (gather H P G g p).vel_grad + 1
  ({ sdf_normal := (sampleCollider H P G C c.sdf_normal p).sdf_normal
     bounds := growBox (growMaxVel c.bounds lim.2) lim.1 },
    { p with
      density := (gather H P G g p).density / voxelArea P
      velocity := lim.2
      position := lim.1
      Fe := vel_grad * p.Fe })

/-- The particle loop of STEP #6 and #7 (lines 671-817). -/
def gatherParticles (H : Host) (P : Params) (G : Geometry) (C : Collider) (g : Grid)
    (timestep : ℚ) : Carried → List Particle → Carried × List Particle
  | c, [] => (c, [])
  | c, p :: ps =>
    ((gatherParticles H P G C g timestep (gatherParticle H P G C g timestep c p).1 ps).1,
      (gatherParticle H P G C g timestep c p).2 ::
        (gatherParticles H P G C g timestep (gatherParticle H P G C g timestep c p).1 ps).2)

/-- The grid of a velocity substep before the gather: reset, mass, velocity, division by
mass, force scatter, force integration and grid collision (lines 338-663). -/
def substepGrid (H : Host) (P : Params) (time timestep : ℚ) (R : Resized)
    (ps : List Particle) : Grid × Vec3 :=
  let G := R.geometry
  let g1 := transferMass H P G (resetGrid G.grid_divs R.grid) ps
  let ps1 := estimateVolumes H P G time g1 ps
  let g3 := normalizeVelocity G.grid_divs (transferVelocity H P G g1 ps1)
  let g4 := transferForce H P G g3 ps1
  let g5 := integrateForces P timestep G.grid_divs g4
  gridCollision H P R.collider G.grid_divs (g5, R.sdf_normal)

/-- One velocity substep (lines 311-817) after the resize: the carried variables, with
`max_vel = 0` and `bbox_reset = true` on entry of the particle loop, and the particles. -/
def substep (H : Host) (P : Params) (time timestep : ℚ) (R : Resized) (bbox_min bbox_max : Vec3)
    (ps : List Particle) : Carried × List Particle :=
  let G := R.geometry
  let g1 := transferMass H P G (resetGrid G.grid_divs R.grid) ps
  let ps1 := estimateVolumes H P G time g1 ps
  let gs := substepGrid H P time timestep R ps
  gatherParticles H P G R.collider gs.1 timestep
    { sdf_normal := gs.2
      bounds := { max_vel := 0, bbox_reset := true, bbox_min := bbox_min, bbox_max := bbox_max } }
    (ps1.map (applyPlasticity H P))

/-- Compute adaptive timestep (lines 285-291). -/
def adaptiveTimestep (H : Host) (P : Params) (framerate max_vel adaptive_time : ℚ) : ℚ :=
  let t0 := if max_vel > H.EPSILON then P.CFL * P.division_size / H.sqrt max_vel else framerate
  let t1 := if t0 > P.MAX_TIMESTEP then P.MAX_TIMESTEP else t0
  if adaptive_time + t1 > framerate then framerate - adaptive_time else t1

/-- The Houdini fields under `resizeKeepData`: for iteration `k` of the substep loop and
the requested `grid_size` and centre `grid_origin`, what the resize of the velocity fields
hands to the substep, and the geometry and contents of the resized density field. -/
structure Fields where
  resizeGrid : ℕ → Vec3 → Vec3 → Resized
  resizeDensity : ℕ → Vec3 → Vec3 → Geometry × (Node → ℚ)

/-- The reset of the density field (lines 358-364), each valid voxel being set to 0. -/
def resetDensity (grid_divs : Node) (g_density : Node → ℚ) : Node → ℚ :=
  (gridNodes grid_divs).foldl
    (fun f n => if isValidIndex grid_divs n then Function.update f n 0 else f) g_density

/-- The density scatter of one particle (lines 423-424 in the loop of STEP #1). -/
def transferDensityParticle (H : Host) (P : Params) (G : Geometry) (g_density : Node → ℚ)
    (p : Particle) : Node → ℚ :=
  ((particleStencil P G p).zip (cachedWeights H P G p)).foldl
    (fun f nw =>
      if isValidIndex G.grid_divs nw.1 then Function.update f nw.1 (p.density * nw.2 + f nw.1)
      else f) g_density

/-- The density-only pass (lines 354-366 and STEP #1 with `mapping_density`). -/
def mapDensity (H : Host) (P : Params) (D : Geometry × (Node → ℚ)) (ps : List Particle) :
    Node → ℚ :=
  ps.foldl (transferDensityParticle H P D.1) (resetDensity D.1.grid_divs D.2)

/-- The variables of `solveGasSubclass` that live across iterations of `while (1)`. -/
structure LoopState where
  particles : List Particle
  max_vel : ℚ
  adaptive_time : ℚ
  bbox_min : Vec3
  bbox_max : Vec3

/-- What a frame leaves behind: the particles, the density field, and the lengths of the
velocity substeps that ran, in order (a log, not a variable of the source). -/
structure FrameResult where
  particles : List Particle
  g_density : Node → ℚ
  substeps : List ℚ

/-- The grid requested from the resize: `grid_size` (lines 300-303). -/
def requestedSize (P : Params) (s : LoopState) : Vec3 :=
  fun i => s.bbox_max i - s.bbox_min i + P.division_size * 7

/-- The grid requested from the resize: the centre `grid_origin` (line 299). -/
def requestedCentre (s : LoopState) : Vec3 :=
  fun i => (s.bbox_max i + s.bbox_min i) / 2

/-- The loop variables after iteration `k` ran a velocity substep of length `timestep`. -/
def nextState (H : Host) (P : Params) (F : Fields) (time timestep : ℚ) (k : ℕ)
    (s : LoopState) : LoopState :=
  let r := substep H P time timestep (F.resizeGrid k (requestedSize P s) (requestedCentre s))
    s.bbox_min s.bbox_max s.particles
  { particles := r.2
    max_vel := r.1.bounds.max_vel
    adaptive_time := s.adaptive_time + timestep
    bbox_min := r.1.bounds.bbox_min
    bbox_max := r.1.bounds.bbox_max }

/-- Iteration `k` with `mapping_density`: the density-only pass, then `break` (line 436). -/
def densityExit (H : Host) (P : Params) (F : Fields) (k : ℕ) (s : LoopState) (log : List ℚ) :
    FrameResult :=
  { particles := s.particles
    g_density := mapDensity H P
      (F.resizeDensity k (requestedSize P s) (requestedCentre s)) s.particles
    substeps := log }

/-- The loop `while (1)` (lines 281-818), iteration `k` onwards, with `fuel` iterations
allowed: `none` when the loop has not exited by then. An iteration with `mapping_density`
runs the density-only pass and exits; any other runs a velocity substep. -/
def substepLoop (H : Host) (P : Params) (F : Fields) (time framerate : ℚ) :
    ℕ → ℕ → LoopState → List ℚ → Option FrameResult
  | 0, _, _, _ => none
  | fuel + 1, k, s, log =>
    if s.adaptive_time ≥ framerate ∨
        adaptiveTimestep H P framerate s.max_vel s.adaptive_time < H.EPSILON then
      some (densityExit H P F k s log)
    else
      substepLoop H P F time framerate fuel (k + 1)
        (nextState H P F time (adaptiveTimestep H P framerate s.max_vel s.adaptive_time) k s)
        (log ++ [adaptiveTimestep H P framerate s.max_vel s.adaptive_time])

/-- Lines 247-271: the initial velocity bound and bounding box of the particles;
`bbox_min` and `bbox_max` hold what the uninitialised locals held. -/
def initialBounds (bbox_min bbox_max : Vec3) (ps : List Particle) : Bounds :=
  ps.foldl (fun b p => growBox (growMaxVel b p.velocity) p.position)
    { max_vel := 0, bbox_reset := true, bbox_min := bbox_min, bbox_max := bbox_max }

/-- `SIM_SnowSolver::solveGasSubclass` on the particle collection `geometry` (absent when
the sub-data lookup of line 154 yields nothing): the returned flag and what the frame
leaves behind, or `none` when the loop has not exited within `fuel` iterations. -/
def solveGasSubclass (H : Host) (P : Params) (F : Fields) (time framerate : ℚ)
    (bbox_min bbox_max : Vec3) (fuel : ℕ) (geometry : Option (List Particle)) :
    Option (Bool × Option FrameResult) :=
  match geometry with
  | none => some (true, none)
  | some ps =>
    (substepLoop H P F time framerate fuel 0
      { particles := ps
        max_vel := (initialBounds bbox_min bbox_max ps).max_vel
        adaptive_time := 0
        bbox_min := (initialBounds bbox_min bbox_max ps).bbox_min
        bbox_max := (initialBounds bbox_min bbox_max ps).bbox_max } []).map
      fun r => (true, some r)

/-- The example constants with a negative Courant number `CFL = -1`. -/
def negativeCflParams : Params :=
  { exampleParams with CFL := -1 }

/-- The value stored in `pos[i]` by the position limit: `x` brought into
`[bbox_min_limit[i], bbox_max_limit[i]]`, the upper limit being tested first. -/
def limitValue (P : Params) (i : Fin 3) (x : ℚ) : ℚ :=
  if x > P.bbox_max_limit i then P.bbox_max_limit i
  else if x < P.bbox_min_limit i then P.bbox_min_limit i
  else x

/-- Fields that resize to `exampleGeometry` whatever is requested, with no collider: the
collision SDF is -1 everywhere. -/
def exampleFields : Fields :=
  { resizeGrid := fun _ _ _ =>
      { geometry := exampleGeometry
        grid := fun _ => zeroNode
        collider := { g_col := fun _ => -1, g_colVel := fun _ _ => 0 }
        sdf_normal := fun _ => 0 }
    resizeDensity := fun _ _ _ => (exampleGeometry, fun _ => 0) }

/-- The sum of the cached weight gradients, component `j`, that the guard `w > EPSILON`
lets through. -/
def usedGradientSum (H : Host) (P : Params) (G : Geometry) (p : Particle) (j : Fin 3) : ℚ :=
  (((stencilEntries H P G p).filter fun e => e.2.1 > H.EPSILON).map fun e => e.2.2 j).sum

/-- Velocity substeps run one after another on the particles, each with its own length
and resized fields, the bounding box being handed on as the loop does. -/
def runSubsteps (H : Host) (P : Params) (time : ℚ) :
    List (ℚ × Resized) → Vec3 → Vec3 → List Particle → List Particle
  | [], _, _, ps => ps
  | step :: rest, bbox_min, bbox_max, ps =>
    runSubsteps H P time rest
      (substep H P time step.1 step.2 bbox_min bbox_max ps).1.bounds.bbox_min
      (substep H P time step.1 step.2 bbox_min bbox_max ps).1.bounds.bbox_max
      (substep H P time step.1 step.2 bbox_min bbox_max ps).2

/-- The example constants without gravity. -/
def restParams : Params :=
  { exampleParams with GRAVITY := 0 }

/-- The resized fields of the examples: `exampleGeometry`, zeroed arrays and no collider. -/
def exampleResized : Resized :=
  exampleFields.resizeGrid 0 (fun _ => 7) (fun _ => 7 / 2)

/-- The conditions of free fall for one substep of length `timestep` of particle `p` on the
resized fields `R`: no collider, the stencil inside the grid, the cached weights above
`EPSILON` sum to 1 and their gradients to 0, and the integrated position is inside the
domain bounds. -/
def FreeFallStep (H : Host) (P : Params) (R : Resized) (timestep : ℚ) (p : Particle) : Prop :=
  (∀ n, R.collider.g_col n ≤ 0) ∧
    (∀ n ∈ particleStencil P R.geometry p, isValidIndex R.geometry.grid_divs n) ∧
    usedWeightSum H P R.geometry p = 1 ∧
    (∀ j, usedGradientSum H P R.geometry p j = 0) ∧
    ∀ i, P.bbox_min_limit i ≤
        p.position i + timestep * (p.velocity i + timestep * P.GRAVITY i) ∧
      p.position i + timestep * (p.velocity i + timestep * P.GRAVITY i) ≤ P.bbox_max_limit i

/-- The particle `p` after one substep of free fall: the velocity advanced by
`timestep * GRAVITY`, then the position by `timestep` times the new velocity. -/
def freeFallNext (P : Params) (timestep : ℚ) (p : Particle) : Particle :=
  { p with
    position := fun i => p.position i + timestep * (p.velocity i + timestep * P.GRAVITY i)
    velocity := fun i => p.velocity i + timestep * P.GRAVITY i }

/-- The conditions of free fall hold at every substep of `steps`, along the free-fall
trajectory of `p`. -/
def FreeFallRun (H : Host) (P : Params) : List (ℚ × Resized) → Particle → Prop
  | [], _ => True
  | st :: rest, p => FreeFallStep H P st.2 st.1 p ∧ FreeFallRun H P rest (freeFallNext P st.1 p)

/-- An active voxel record for the examples: mass 2, old velocity 1 and value 4 in the
new-velocity array on every axis. -/
def activeNode : NodeData :=
  { g_mass := 2, g_active := 1, g_ovel := fun _ => 1, g_nvel := fun _ => 4 }

/-- The grid holding `activeNode` at every index. -/
def activeGrid : Grid := fun _ => activeNode

/-- The particle at the voxel centre of `centredParticle`, moving fast along `x`: a substep
of `1/24` takes it beyond the upper domain bound `100` on that axis. -/
def fastParticle : Particle :=
  { centredParticle with velocity := ![4000, 0, 0] }

/-- The density in the words of the spec: the sum over the whole stencil of
`weight * nodeMass`, over the cell volume. -/
def stencilDensity (H : Host) (P : Params) (G : Geometry) (g : Grid) (p : Particle) : ℚ :=
  (((particleStencil P G p).zip (cachedWeights H P G p)).map
    fun nw => nw.2 * (g nw.1).g_mass).sum / voxelArea P

/-- The vector `computeSDFNormal` leaves in `norm` at a voxel whose collision SDF is
positive (lines 841-856): the normalised central difference of the SDF. -/
def sdfNormalAt (H : Host) (g_col : Node → ℚ) (n : Node) : Vec3 :=
  (computeSDFNormal H g_col n fun _ => 0).2

/-- The effect of one iteration of the grid collision loop (lines 629-659) on the record
of the voxel it visits. -/
def collideNode (H : Host) (P : Params) (C : Collider) (n : Node) (d : NodeData) : NodeData :=
  if d.g_active ≠ 0 ∧ C.g_col n > 0 then
    match gridContact H P d.g_nvel (C.g_colVel n) (sdfNormalAt H C.g_col n) with
    | none => d
    | some vt => { d with g_nvel := vt }
  else d

/-- A collider at rest whose SDF at a voxel is the voxel's `z` index: positive above the
plane `z = 0`, with central difference `(0, 0, -2)` everywhere. -/
def slopeCollider : Collider :=
  { g_col := fun n => (n.2.2 : ℚ), g_colVel := fun _ _ => 0 }

/-- The grid holding at every index an active voxel of mass 2 with new velocity `v`. -/
def contactGrid (v : Vec3) : Grid := fun _ => { activeNode with g_nvel := v }

/-- The weight `w` of voxel `n` in the collision interpolation (lines 730-734):
`abs((gpos[2]-z)*(gpos[1]-y)*(gpos[0]-x))`. -/
def sampleWeight (gpos : Vec3) (n : Node) : ℚ :=
  |(gpos 2 - n.2.2) * (gpos 1 - n.2.1) * (gpos 0 - n.1)|

/-- The weight of voxel `n` in the words of the spec, a trilinear interpolation: with `f`
the fractional grid position `gpos - lower` of the particle in its cell, the factor of an
axis is `1 - f` for a voxel at `lower` and `f` for a voxel at `lower + 1`. -/
def trilinearWeight (gpos : Vec3) (lower n : Node) : ℚ :=
  (if n.2.2 = lower.2.2 then 1 - (gpos 2 - lower.2.2) else gpos 2 - lower.2.2) *
    (if n.2.1 = lower.2.1 then 1 - (gpos 1 - lower.2.1) else gpos 1 - lower.2.1) *
    (if n.1 = lower.1 then 1 - (gpos 0 - lower.1) else gpos 0 - lower.1)

/-- The example constants with the stretch limit 0 below the compression limit `1/10`. -/
def zeroStretchParams : Params :=
  { exampleParams with CRIT_COMPRESS := 1 / 10, CRIT_STRETCH := 0 }

/-- The loop variables at the start of a frame that holds `centredParticle` alone: the
bounding box is the particle's position. -/
def exampleLoopState : LoopState :=
  { particles := [centredParticle]
    max_vel := 0
    adaptive_time := 0
    bbox_min := centredParticle.position
    bbox_max := centredParticle.position }

/-- A collider at rest whose SDF at a voxel is its `z` index less 3: positive above the
plane `z = 3`, zero on it. -/
def shelfCollider : Collider :=
  { g_col := fun n => (n.2.2 : ℚ) - 3, g_colVel := fun _ _ => 0 }

/-- A collider at rest whose SDF is positive around the cell of the examples and has a
ridge between `z = 3` and `z = 4`: `z` up to 3, `7 - z` above. -/
def ridgeCollider : Collider :=
  { g_col := fun n => if n.2.2 ≤ 3 then (n.2.2 : ℚ) else 7 - (n.2.2 : ℚ)
    g_colVel := fun _ _ => 0 }

/-- A particle on the voxel column `(3, 3)` a quarter of a cell above the voxel
`(3, 3, 3)`: `gpos = (3, 3, 13/4)`. -/
def quarterParticle : Particle :=
  { centredParticle with position := ![7 / 2, 7 / 2, 15 / 4] }

/-- A voxel's own SDF-gradient normal, in the words of the spec: the normalised central
difference of the collision SDF at the voxel, whatever the sign of the SDF there. -/
def ownNormal (H : Host) (g_col : Node → ℚ) (n : Node) : Vec3 :=
  let v : Vec3 := ![g_col (n.1 - 1, n.2.1, n.2.2) - g_col (n.1 + 1, n.2.1, n.2.2),
                    g_col (n.1, n.2.1 - 1, n.2.2) - g_col (n.1, n.2.1 + 1, n.2.2),
                    g_col (n.1, n.2.1, n.2.2 - 1) - g_col (n.1, n.2.1, n.2.2 + 1)]
  if length H v = 0 then v else fun i => v i / length H v

/-! ## Voxel loops -/

theorem mem_loopRange (d i : Int) : i ∈ loopRange d ↔ 0 ≤ i ∧ i < d := by
  unfold loopRange
  simp only [List.mem_map, List.mem_range]
  constructor
  · rintro ⟨k, hk, rfl⟩
    exact ⟨Int.ofNat_nonneg k, by have := Int.lt_toNat.mp hk; simpa using this⟩
  · rintro ⟨h0, h1⟩
    refine ⟨i.toNat, ?_, ?_⟩
    · apply Int.lt_toNat.mpr
      simpa [Int.toNat_of_nonneg h0] using h1
    · simpa using Int.toNat_of_nonneg h0

theorem nodup_loopRange (d : Int) : (loopRange d).Nodup := by
  unfold loopRange
  exact (List.nodup_range _).map (fun a b h => by simpa using h)

theorem mem_gridNodes (grid_divs n : Node) : n ∈ gridNodes grid_divs ↔ isValidIndex grid_divs n := by
  obtain ⟨x, y, z⟩ := n
  unfold gridNodes isValidIndex
  simp only [List.mem_flatMap, List.mem_map, mem_loopRange, Prod.mk.injEq]
  constructor
  · rintro ⟨a, ha, b, hb, c, hc, rfl, rfl, rfl⟩
    exact ⟨ha, hb, hc⟩
  · rintro ⟨ha, hb, hc⟩
    exact ⟨x, ha, y, hb, z, hc, rfl, rfl, rfl⟩

theorem nodup_gridNodes (grid_divs : Node) : (gridNodes grid_divs).Nodup := by
  unfold gridNodes
  refine List.nodup_flatMap.mpr ⟨fun iX _ => ?_, ?_⟩
  · refine List.nodup_flatMap.mpr ⟨fun iY _ => ?_, ?_⟩
    · exact (nodup_loopRange _).map (fun a b h => by simpa using h)
    · refine List.Pairwise.imp ?_ (nodup_loopRange grid_divs.2.1)
      intro a b hab
      simp only [Function.onFun, List.disjoint_left, List.mem_map]
      rintro n ⟨c, _, rfl⟩ ⟨c2, _, h2⟩
      simp only [Prod.mk.injEq] at h2
      exact hab h2.2.1.symm
  · refine List.Pairwise.imp ?_ (nodup_loopRange grid_divs.1)
    intro a b hab
    simp only [Function.onFun, List.disjoint_left, List.mem_flatMap, List.mem_map]
    rintro n ⟨b1, _, c1, _, rfl⟩ ⟨b2, _, c2, _, h2⟩
    simp only [Prod.mk.injEq] at h2
    exact hab h2.1.symm

theorem mem_gridBox (grid_divs n : Node) : n ∈ gridBox grid_divs ↔ isValidIndex grid_divs n := by
  obtain ⟨x, y, z⟩ := n
  simp [gridBox, isValidIndex, Finset.mem_product]

/-- A fold of single-voxel updates over distinct voxels, read at one voxel. -/
theorem foldl_modify_apply (grid_divs : Node) (body : Node → NodeData → NodeData)
    (l : List Node) (hl : l.Nodup) (g : Grid) (m : Node) :
    (l.foldl (fun g n => Grid.modify grid_divs g n (body n)) g) m =
      if m ∈ l ∧ isValidIndex grid_divs m then body m (g m) else g m := by
  induction l generalizing g with
  | nil => simp
  | cons a l ih =>
    rw [List.foldl_cons, ih (List.nodup_cons.mp hl).2]
    have ha : a ∉ l := (List.nodup_cons.mp hl).1
    by_cases hma : m = a
    · subst hma
      by_cases hv : isValidIndex grid_divs m
      · simp [ha, hv, Grid.modify]
      · simp [ha, hv, Grid.modify]
    · have hne : (Grid.modify grid_divs g a (body a)) m = g m := by
        unfold Grid.modify
        split
        · exact Function.update_noteq hma _ _
        · rfl
      simp [hne, hma]

/-- After a voxel loop, each valid voxel holds the body applied to its old record and
every other index is untouched. -/
theorem forNodes_apply (grid_divs : Node) (body : Node → NodeData → NodeData) (g : Grid)
    (m : Node) :
    forNodes grid_divs body g m = if isValidIndex grid_divs m then body m (g m) else g m := by
  unfold forNodes
  rw [foldl_modify_apply _ _ _ (nodup_gridNodes _)]
  simp [mem_gridNodes]

/-! ## Reset -/

theorem resetGrid_apply (grid_divs : Node) (g : Grid) (n : Node) :
    resetGrid grid_divs g n = if isValidIndex grid_divs n then zeroNode else g n := by
  unfold resetGrid
  rw [forNodes_apply]

/-! ## Mass transfer -/

theorem mem_axisRange (c i : Int) : i ∈ axisRange c ↔ c - 1 ≤ i ∧ i ≤ c + 2 := by
  unfold axisRange
  simp only [List.mem_cons, List.mem_singleton, List.not_mem_nil, or_false]
  omega

theorem mem_stencil (c n : Node) :
    n ∈ stencil c ↔ (c.1 - 1 ≤ n.1 ∧ n.1 ≤ c.1 + 2) ∧ (c.2.1 - 1 ≤ n.2.1 ∧ n.2.1 ≤ c.2.1 + 2) ∧
      (c.2.2 - 1 ≤ n.2.2 ∧ n.2.2 ≤ c.2.2 + 2) := by
  obtain ⟨x, y, z⟩ := n
  unfold stencil
  simp only [List.mem_flatMap, List.mem_map, mem_axisRange, Prod.mk.injEq]
  constructor
  · rintro ⟨a, ha, b, hb, c, hc, rfl, rfl, rfl⟩
    exact ⟨hc, hb, ha⟩
  · rintro ⟨ha, hb, hc⟩
    exact ⟨z, hc, y, hb, x, ha, rfl, rfl, rfl⟩

theorem totalMass_modify (P : Params) (grid_divs : Node) (g : Grid) (n : Node) (w : ℚ)
    (hn : isValidIndex grid_divs n) :
    totalMass grid_divs (Grid.modify grid_divs g n (addMass P w)) =
      totalMass grid_divs g + w * P.particle_mass := by
  have hmem : n ∈ gridBox grid_divs := (mem_gridBox _ _).mpr hn
  unfold totalMass Grid.modify
  rw [if_pos hn]
  rw [← Finset.add_sum_erase _ _ hmem, ← Finset.add_sum_erase _ (fun m => (g m).g_mass) hmem]
  have hrest : ∑ x in (gridBox grid_divs).erase n,
      (Function.update g n (addMass P w (g n)) x).g_mass =
      ∑ x in (gridBox grid_divs).erase n, (g x).g_mass := by
    refine Finset.sum_congr rfl fun x hx => ?_
    rw [Function.update_noteq (Finset.ne_of_mem_erase hx)]
  rw [hrest, Function.update_same]
  simp only [addMass]
  ring

theorem totalMass_scatter (P : Params) (grid_divs : Node) (l : List (Node × ℚ)) (g : Grid)
    (hl : ∀ nw ∈ l, isValidIndex grid_divs nw.1) :
    totalMass grid_divs
        (l.foldl (fun g nw => Grid.modify grid_divs g nw.1 (addMass P nw.2)) g) =
      totalMass grid_divs g + (l.map Prod.snd).sum * P.particle_mass := by
  induction l generalizing g with
  | nil => simp
  | cons a l ih =>
    rw [List.foldl_cons, ih _ (fun nw h => hl nw (List.mem_cons_of_mem _ h)),
      totalMass_modify P grid_divs g a.1 a.2 (hl a (List.mem_cons_self _ _))]
    simp only [List.map_cons, List.sum_cons]
    ring

theorem totalMass_transferMassParticle (H : Host) (P : Params) (G : Geometry) (g : Grid)
    (p : Particle) (hin : ∀ n ∈ particleStencil P G p, isValidIndex G.grid_divs n) :
    totalMass G.grid_divs (transferMassParticle H P G g p) =
      totalMass G.grid_divs g + (cachedWeights H P G p).sum * P.particle_mass := by
  unfold transferMassParticle
  rw [totalMass_scatter]
  · have hw : ((particleStencil P G p).zip (cachedWeights H P G p)).map Prod.snd =
        cachedWeights H P G p := by
      unfold cachedWeights
      rw [List.map_snd_zip]
      rw [List.length_map]
    rw [hw]
  · intro nw h
    exact hin _ (List.of_mem_zip h).1

theorem totalMass_resetGrid (grid_divs : Node) (g : Grid) :
    totalMass grid_divs (resetGrid grid_divs g) = 0 := by
  unfold totalMass
  refine Finset.sum_eq_zero fun n hn => ?_
  rw [resetGrid_apply, if_pos ((mem_gridBox _ _).mp hn)]
  rfl

theorem totalMass_transferMass (H : Host) (P : Params) (G : Geometry) (ps : List Particle)
    (g : Grid) (hin : ∀ p ∈ ps, ∀ n ∈ particleStencil P G p, isValidIndex G.grid_divs n) :
    totalMass G.grid_divs (transferMass H P G g ps) =
      totalMass G.grid_divs g + (ps.map fun p => (cachedWeights H P G p).sum).sum *
        P.particle_mass := by
  unfold transferMass
  induction ps generalizing g with
  | nil => simp
  | cons p ps ih =>
    rw [List.foldl_cons, ih _ (fun q hq => hin q (List.mem_cons_of_mem _ hq)),
      totalMass_transferMassParticle H P G g p (hin p (List.mem_cons_self _ _))]
    simp only [List.map_cons, List.sum_cons]
    ring

/-- C1. Mass conservation: from the freshly reset mass field, for particles whose
stencils lie inside the grid and whose 64 cached weights sum to 1, the mass field summed
over all voxels after the mass-transfer pass is `point_count * particle_mass`. -/
theorem mass_conservation (H : Host) (P : Params) (G : Geometry) (g : Grid)
    (ps : List Particle)
    (hin : ∀ p ∈ ps, ∀ n ∈ particleStencil P G p, isValidIndex G.grid_divs n)
    (hsum : ∀ p ∈ ps, (cachedWeights H P G p).sum = 1) :
    totalMass G.grid_divs (transferMass H P G (resetGrid G.grid_divs g) ps) =
      (ps.length : ℚ) * P.particle_mass := by
  rw [totalMass_transferMass H P G ps _ hin, totalMass_resetGrid, zero_add]
  congr 1
  have : (ps.map fun p => (cachedWeights H P G p).sum) = ps.map fun _ => (1 : ℚ) :=
    List.map_congr_left hsum
  rw [this]
  simp

/-- C7. Immediately after the resize-and-reset of a velocity substep, whatever the
resolution and whatever the arrays held, mass, active flag, old velocity and new velocity
are exactly 0 at every index `0 <= i < grid_divs` on each axis. -/
theorem reset_zeroes_fields (grid_divs : Node) (g : Grid) (iX iY iZ : Int) :
    (0 ≤ iX ∧ iX < grid_divs.1) → (0 ≤ iY ∧ iY < grid_divs.2.1) →
    (0 ≤ iZ ∧ iZ < grid_divs.2.2) →
      (resetGrid grid_divs g (iX, iY, iZ)).g_mass = 0 ∧
      (resetGrid grid_divs g (iX, iY, iZ)).g_active = 0 ∧
      (∀ i, (resetGrid grid_divs g (iX, iY, iZ)).g_ovel i = 0) ∧
      (∀ i, (resetGrid grid_divs g (iX, iY, iZ)).g_nvel i = 0) := by
  intro hx hy hz
  have hv : isValidIndex grid_divs (iX, iY, iZ) := ⟨hx, hy, hz⟩
  rw [resetGrid_apply, if_pos hv]
  exact ⟨rfl, rfl, fun _ => rfl, fun _ => rfl⟩

/-! ## Partition of unity -/

theorem bspline_of_abs_lt_one (x : ℚ) (h : |x| < 1) :
    bspline x = |x| * |x| * (|x| / 2 - 1) + 2 / 3 := by
  unfold bspline
  rw [if_pos h]

theorem bspline_of_one_le (x : ℚ) (h1 : 1 ≤ |x|) (h2 : |x| ≤ 2) :
    bspline x = |x| * (|x| * (-|x| / 6 + 1) - 2) + 4 / 3 := by
  unfold bspline
  rw [if_neg (not_lt.mpr h1)]
  split
  · rfl
  · have : |x| = 2 := le_antisymm h2 (not_lt.mp ‹_›)
    rw [this]; norm_num

/-- The four weights of one axis sum to 1 at every fractional offset `0 <= f < 1`. -/
theorem bspline_axis_sum (f : ℚ) (h0 : 0 ≤ f) (h1 : f < 1) :
    bspline (f + 1) + bspline f + bspline (f - 1) + bspline (f - 2) = 1 := by
  have a1 : |f + 1| = f + 1 := abs_of_nonneg (by linarith)
  have a2 : |f| = f := abs_of_nonneg h0
  have a3 : |f - 1| = 1 - f := by rw [abs_of_nonpos (by linarith)]; ring
  have a4 : |f - 2| = 2 - f := by rw [abs_of_nonpos (by linarith)]; ring
  rw [bspline_of_one_le (f + 1) (by rw [a1]; linarith) (by rw [a1]; linarith),
    bspline_of_abs_lt_one f (by rw [a2]; exact h1),
    bspline_of_one_le (f - 2) (by rw [a4]; linarith) (by rw [a4]; linarith), a1, a2, a4]
  rcases eq_or_lt_of_le h0 with h | h
  · subst h
    rw [bspline_of_one_le (0 - 1) (by norm_num) (by norm_num)]
    norm_num
  · rw [bspline_of_abs_lt_one (f - 1) (by rw [a3]; linarith), a3]
    ring

/-- The four weights of an axis of the stencil around `⌊g⌋` sum to 1. -/
theorem bspline_stencil_axis (g : ℚ) :
    bspline (g - ((⌊g⌋ - 1 : ℤ) : ℚ)) + bspline (g - ((⌊g⌋ : ℤ) : ℚ)) +
      bspline (g - ((⌊g⌋ + 1 : ℤ) : ℚ)) + bspline (g - ((⌊g⌋ + 2 : ℤ) : ℚ)) = 1 := by
  have h := bspline_axis_sum (g - ⌊g⌋) (sub_nonneg.mpr (Int.floor_le g))
    (by have := Int.lt_floor_add_one g; linarith)
  have e1 : g - ((⌊g⌋ - 1 : ℤ) : ℚ) = g - ⌊g⌋ + 1 := by push_cast; ring
  have e3 : g - ((⌊g⌋ + 1 : ℤ) : ℚ) = g - ⌊g⌋ - 1 := by push_cast; ring
  have e4 : g - ((⌊g⌋ + 2 : ℤ) : ℚ) = g - ⌊g⌋ - 2 := by push_cast; ring
  rw [e1, e3, e4]
  exact h

/-- The 64 weights computed with `bspline` over the stencil around `posToIndex`. -/
theorem cachedWeights_sum_bspline (H : Host) (hb : H.bspline = bspline) (P : Params)
    (G : Geometry) (p : Particle) : (cachedWeights H P G p).sum = 1 := by
  have hx := bspline_stencil_axis (gridPos G.grid_origin P.division_size p.position 0)
  have hy := bspline_stencil_axis (gridPos G.grid_origin P.division_size p.position 1)
  have hz := bspline_stencil_axis (gridPos G.grid_origin P.division_size p.position 2)
  simp only [cachedWeights, particleStencil, stencil, axisRange, posToIndex, nodeWeight, hb,
    List.flatMap_cons, List.flatMap_nil, List.map_cons, List.map_nil, List.append_nil,
    List.cons_append, List.nil_append, List.sum_cons, List.sum_nil, add_zero]
  generalize gridPos G.grid_origin P.division_size p.position 0 = gx at hx ⊢
  generalize gridPos G.grid_origin P.division_size p.position 1 = gy at hy ⊢
  generalize gridPos G.grid_origin P.division_size p.position 2 = gz at hz ⊢
  generalize bspline (gx - ((⌊gx⌋ - 1 : ℤ) : ℚ)) = x1 at hx ⊢
  generalize bspline (gx - ((⌊gx⌋ : ℤ) : ℚ)) = x2 at hx ⊢
  generalize bspline (gx - ((⌊gx⌋ + 1 : ℤ) : ℚ)) = x3 at hx ⊢
  generalize bspline (gx - ((⌊gx⌋ + 2 : ℤ) : ℚ)) = x4 at hx ⊢
  generalize bspline (gy - ((⌊gy⌋ - 1 : ℤ) : ℚ)) = y1 at hy ⊢
  generalize bspline (gy - ((⌊gy⌋ : ℤ) : ℚ)) = y2 at hy ⊢
  generalize bspline (gy - ((⌊gy⌋ + 1 : ℤ) : ℚ)) = y3 at hy ⊢
  generalize bspline (gy - ((⌊gy⌋ + 2 : ℤ) : ℚ)) = y4 at hy ⊢
  generalize bspline (gz - ((⌊gz⌋ - 1 : ℤ) : ℚ)) = z1 at hz ⊢
  generalize bspline (gz - ((⌊gz⌋ : ℤ) : ℚ)) = z2 at hz ⊢
  generalize bspline (gz - ((⌊gz⌋ + 1 : ℤ) : ℚ)) = z3 at hz ⊢
  generalize bspline (gz - ((⌊gz⌋ + 2 : ℤ) : ℚ)) = z4 at hz ⊢
  have key : (x1 + x2 + x3 + x4) * (y1 + y2 + y3 + y4) * (z1 + z2 + z3 + z4) = 1 := by
    rw [hx, hy, hz]; norm_num
  rw [← key]
  ring

/-! ## Velocity transfer and division by mass -/

theorem foldl_invariant {α β : Type} (f : α → β → α) (Inv : α → Prop) (l : List β) (a : α)
    (h0 : Inv a) (hstep : ∀ a b, b ∈ l → Inv a → Inv (f a b)) : Inv (l.foldl f a) := by
  induction l generalizing a with
  | nil => exact h0
  | cons b l ih =>
    rw [List.foldl_cons]
    exact ih _ (hstep a b (List.mem_cons_self _ _) h0)
      (fun a' b' hb' => hstep a' b' (List.mem_cons_of_mem _ hb'))

theorem modify_apply (grid_divs : Node) (g : Grid) (n m : Node) (f : NodeData → NodeData) :
    Grid.modify grid_divs g n f m =
      if m = n ∧ isValidIndex grid_divs n then f (g m) else g m := by
  unfold Grid.modify
  by_cases hv : isValidIndex grid_divs n
  · by_cases hm : m = n
    · subst hm; simp [hv]
    · simp [hv, hm, Function.update_noteq hm]
  · simp [hv]

theorem scatter_mass_frame (P : Params) (grid_divs : Node) (l : List (Node × ℚ)) (g : Grid)
    (n : Node) :
    (l.foldl (fun g nw => Grid.modify grid_divs g nw.1 (addMass P nw.2)) g n).g_active =
        (g n).g_active ∧
      (l.foldl (fun g nw => Grid.modify grid_divs g nw.1 (addMass P nw.2)) g n).g_ovel =
        (g n).g_ovel ∧
      (l.foldl (fun g nw => Grid.modify grid_divs g nw.1 (addMass P nw.2)) g n).g_nvel =
        (g n).g_nvel := by
  refine foldl_invariant
    (fun (g : Grid) (nw : Node × ℚ) => Grid.modify grid_divs g nw.1 (addMass P nw.2))
    (fun g' : Grid => (g' n).g_active = (g n).g_active ∧
      (g' n).g_ovel = (g n).g_ovel ∧ (g' n).g_nvel = (g n).g_nvel) l g ⟨rfl, rfl, rfl⟩ ?_
  intro g2 nw _ h2
  simp only [modify_apply]
  split
  · exact h2
  · exact h2

/-- The mass scatter leaves `g_active`, `g_ovel` and `g_nvel` as they were. -/
theorem transferMass_frame (H : Host) (P : Params) (G : Geometry) (ps : List Particle)
    (g : Grid) (n : Node) :
    (transferMass H P G g ps n).g_active = (g n).g_active ∧
      (transferMass H P G g ps n).g_ovel = (g n).g_ovel ∧
      (transferMass H P G g ps n).g_nvel = (g n).g_nvel := by
  unfold transferMass
  refine foldl_invariant (transferMassParticle H P G) (fun g' : Grid =>
    (g' n).g_active = (g n).g_active ∧
    (g' n).g_ovel = (g n).g_ovel ∧ (g' n).g_nvel = (g n).g_nvel) ps g ⟨rfl, rfl, rfl⟩ ?_
  intro g1 p _ h1
  have h := scatter_mass_frame P G.grid_divs
    ((particleStencil P G p).zip (cachedWeights H P G p)) g1 n
  simp only [transferMassParticle]
  rw [h.1, h.2.1, h.2.2]
  exact h1

theorem scatter_mass_mono (P : Params) (grid_divs : Node) (l : List (Node × ℚ)) (g : Grid)
    (hm : 0 ≤ P.particle_mass) (hw : ∀ nw ∈ l, 0 ≤ nw.2) (n : Node) :
    (g n).g_mass ≤
      (l.foldl (fun g nw => Grid.modify grid_divs g nw.1 (addMass P nw.2)) g n).g_mass := by
  refine foldl_invariant
    (fun (g : Grid) (nw : Node × ℚ) => Grid.modify grid_divs g nw.1 (addMass P nw.2))
    (fun g' : Grid => (g n).g_mass ≤ (g' n).g_mass) l g (le_refl _) ?_
  intro g2 nw hnw h2
  simp only [modify_apply]
  split
  · have := mul_nonneg (hw nw hnw) hm
    simp only [addMass]
    linarith
  · exact h2

/-- With a non-negative particle mass and non-negative weights the mass scatter of one
particle never lowers a voxel's mass. -/
theorem transferMassParticle_mono (H : Host) (P : Params) (G : Geometry) (g : Grid)
    (p : Particle) (hm : 0 ≤ P.particle_mass) (hw : ∀ w ∈ cachedWeights H P G p, 0 ≤ w)
    (n : Node) : (g n).g_mass ≤ (transferMassParticle H P G g p n).g_mass := by
  unfold transferMassParticle
  exact scatter_mass_mono P G.grid_divs ((particleStencil P G p).zip (cachedWeights H P G p))
    g hm (fun nw hnw => hw nw.2 (List.of_mem_zip hnw).2) n

theorem transferMass_mono (H : Host) (P : Params) (G : Geometry) (ps : List Particle)
    (g : Grid) (hm : 0 ≤ P.particle_mass)
    (hw : ∀ p ∈ ps, ∀ w ∈ cachedWeights H P G p, 0 ≤ w) (n : Node) :
    (g n).g_mass ≤ (transferMass H P G g ps n).g_mass := by
  unfold transferMass
  refine foldl_invariant (transferMassParticle H P G)
    (fun g' : Grid => (g n).g_mass ≤ (g' n).g_mass) ps g (le_refl _) ?_
  intro g1 p hp h1
  exact le_trans h1 (transferMassParticle_mono H P G g1 p hm (hw p hp) n)

/-- A scatter list deposits at least `w * particle_mass` at each of its valid voxels. -/
theorem scatter_mass_ge (P : Params) (grid_divs : Node) (l : List (Node × ℚ)) (g : Grid)
    (hm : 0 ≤ P.particle_mass) (hw : ∀ nw ∈ l, 0 ≤ nw.2) (n : Node) (w : ℚ)
    (hmem : (n, w) ∈ l) (hn : isValidIndex grid_divs n) :
    (g n).g_mass + w * P.particle_mass ≤
      (l.foldl (fun g nw => Grid.modify grid_divs g nw.1 (addMass P nw.2)) g n).g_mass := by
  induction l generalizing g with
  | nil => simp at hmem
  | cons a l ih =>
    rw [List.foldl_cons]
    have hwl : ∀ nw ∈ l, 0 ≤ nw.2 := fun nw hnw => hw nw (List.mem_cons_of_mem _ hnw)
    rcases List.mem_cons.mp hmem with h | h
    · refine le_trans ?_ (scatter_mass_mono P grid_divs l _ hm hwl n)
      rw [modify_apply, ← h]
      simp [hn, addMass]
    · refine le_trans ?_ (ih _ hwl h)
      rw [modify_apply]
      split
      · have := mul_nonneg (hw a (List.mem_cons_self _ _)) hm
        simp only [addMass]
        linarith
      · exact le_rfl

/-- After the mass pass every valid voxel holds at least `w * particle_mass` for each
particle that has cached weight `w` there. -/
theorem transferMass_mass_ge (H : Host) (P : Params) (G : Geometry) (ps : List Particle)
    (g : Grid) (hm : 0 ≤ P.particle_mass)
    (hw : ∀ p ∈ ps, ∀ w ∈ cachedWeights H P G p, 0 ≤ w) (p : Particle) (hp : p ∈ ps)
    (n : Node) (w : ℚ) (hmem : (n, w) ∈ (particleStencil P G p).zip (cachedWeights H P G p))
    (hn : isValidIndex G.grid_divs n) :
    (g n).g_mass + w * P.particle_mass ≤ (transferMass H P G g ps n).g_mass := by
  unfold transferMass
  induction ps generalizing g with
  | nil => simp at hp
  | cons q ps ih =>
    rw [List.foldl_cons]
    rcases List.mem_cons.mp hp with h | h
    · subst h
      refine le_trans ?_ (transferMass_mono H P G ps _ hm
        (fun q hq => hw q (List.mem_cons_of_mem _ hq)) n)
      unfold transferMassParticle
      exact scatter_mass_ge P G.grid_divs _ g hm
        (fun nw hnw => hw p (List.mem_cons_self _ _) nw.2 (List.of_mem_zip hnw).2) n w hmem hn
    · refine le_trans ?_ (ih _ (fun q hq => hw q (List.mem_cons_of_mem _ hq)) h)
      have := transferMassParticle_mono H P G g q hm (hw q (List.mem_cons_self _ _)) n
      linarith

/-- What the velocity scatter keeps at a voxel `n`: the mass, the new velocity, "inactive
voxels hold no momentum" and "active voxels have mass". -/
theorem velocityStep_invariant (H : Host) (grid_divs : Node) (vel_fac : Vec3) (g0 g : Grid)
    (nw : Node × ℚ) (n : Node)
    (hpos : nw.2 > H.EPSILON → isValidIndex grid_divs nw.1 → (g0 nw.1).g_mass ≠ 0)
    (h : (g n).g_mass = (g0 n).g_mass ∧ (g n).g_nvel = (g0 n).g_nvel ∧
      ((g n).g_active = 0 → ∀ i, (g n).g_ovel i = 0) ∧
      ((g n).g_active ≠ 0 → (g0 n).g_mass ≠ 0)) :
    (velocityStep H grid_divs vel_fac g nw n).g_mass = (g0 n).g_mass ∧
      (velocityStep H grid_divs vel_fac g nw n).g_nvel = (g0 n).g_nvel ∧
      ((velocityStep H grid_divs vel_fac g nw n).g_active = 0 →
        ∀ i, (velocityStep H grid_divs vel_fac g nw n).g_ovel i = 0) ∧
      ((velocityStep H grid_divs vel_fac g nw n).g_active ≠ 0 → (g0 n).g_mass ≠ 0) := by
  unfold velocityStep
  by_cases hw : nw.2 > H.EPSILON
  · simp only [hw, if_true, modify_apply]
    by_cases hn : n = nw.1 ∧ isValidIndex grid_divs nw.1
    · obtain ⟨hn1, hn2⟩ := hn
      subst hn1
      simp only [hn2, and_self, if_true, addVelocity]
      exact ⟨h.1, h.2.1, fun h1 => absurd h1 one_ne_zero, fun _ => hpos hw hn2⟩
    · simp only [hn, if_false]
      exact h
  · simp only [hw, if_false]
    exact h

theorem transferVelocity_invariant (H : Host) (P : Params) (G : Geometry)
    (ps : List Particle) (g0 : Grid) (n : Node)
    (hpos : ∀ p ∈ ps, ∀ nw ∈ (particleStencil P G p).zip (cachedWeights H P G p),
      nw.2 > H.EPSILON → isValidIndex G.grid_divs nw.1 → (g0 nw.1).g_mass ≠ 0)
    (h0 : ((g0 n).g_active = 0 → ∀ i, (g0 n).g_ovel i = 0) ∧
      ((g0 n).g_active ≠ 0 → (g0 n).g_mass ≠ 0)) :
    (transferVelocity H P G g0 ps n).g_mass = (g0 n).g_mass ∧
      (transferVelocity H P G g0 ps n).g_nvel = (g0 n).g_nvel ∧
      ((transferVelocity H P G g0 ps n).g_active = 0 →
        ∀ i, (transferVelocity H P G g0 ps n).g_ovel i = 0) ∧
      ((transferVelocity H P G g0 ps n).g_active ≠ 0 → (g0 n).g_mass ≠ 0) := by
  unfold transferVelocity
  refine foldl_invariant (transferVelocityParticle H P G)
    (fun g : Grid => (g n).g_mass = (g0 n).g_mass ∧ (g n).g_nvel = (g0 n).g_nvel ∧
      ((g n).g_active = 0 → ∀ i, (g n).g_ovel i = 0) ∧
      ((g n).g_active ≠ 0 → (g0 n).g_mass ≠ 0)) ps g0 ⟨rfl, rfl, h0.1, h0.2⟩ ?_
  intro g1 p hp h1
  simp only [transferVelocityParticle]
  refine foldl_invariant
    (velocityStep H G.grid_divs (fun i => p.velocity i * P.particle_mass))
    (fun g : Grid => (g n).g_mass = (g0 n).g_mass ∧ (g n).g_nvel = (g0 n).g_nvel ∧
      ((g n).g_active = 0 → ∀ i, (g n).g_ovel i = 0) ∧
      ((g n).g_active ≠ 0 → (g0 n).g_mass ≠ 0))
    ((particleStencil P G p).zip (cachedWeights H P G p)) g1 h1 ?_
  intro g2 nw hnw h2
  exact velocityStep_invariant H G.grid_divs _ g0 g2 nw n (hpos p hp nw hnw) h2

theorem totalOvel_velocityStep (H : Host) (grid_divs : Node) (vel_fac : Vec3) (g : Grid)
    (nw : Node × ℚ) (hn : isValidIndex grid_divs nw.1) (i : Fin 3) :
    totalOvel grid_divs (velocityStep H grid_divs vel_fac g nw) i =
      totalOvel grid_divs g i + if nw.2 > H.EPSILON then vel_fac i * nw.2 else 0 := by
  unfold velocityStep
  by_cases hw : nw.2 > H.EPSILON
  · simp only [hw, if_true]
    have hmem : nw.1 ∈ gridBox grid_divs := (mem_gridBox _ _).mpr hn
    unfold totalOvel Grid.modify
    rw [if_pos hn]
    rw [← Finset.add_sum_erase _ _ hmem,
      ← Finset.add_sum_erase _ (fun m => (g m).g_ovel i) hmem]
    have hrest : ∑ x in (gridBox grid_divs).erase nw.1,
        (Function.update g nw.1 (addVelocity vel_fac nw.2 (g nw.1)) x).g_ovel i =
        ∑ x in (gridBox grid_divs).erase nw.1, (g x).g_ovel i := by
      refine Finset.sum_congr rfl fun x hx => ?_
      rw [Function.update_noteq (Finset.ne_of_mem_erase hx)]
    rw [hrest, Function.update_same]
    simp only [addVelocity]
    ring
  · simp only [hw, if_false, add_zero]

theorem totalOvel_scatter (H : Host) (grid_divs : Node) (vel_fac : Vec3)
    (l : List (Node × ℚ)) (g : Grid) (hl : ∀ nw ∈ l, isValidIndex grid_divs nw.1)
    (i : Fin 3) :
    totalOvel grid_divs (l.foldl (velocityStep H grid_divs vel_fac) g) i =
      totalOvel grid_divs g i +
        vel_fac i * ((l.map Prod.snd).filter fun w => w > H.EPSILON).sum := by
  induction l generalizing g with
  | nil => simp
  | cons a l ih =>
    rw [List.foldl_cons, ih _ (fun nw h => hl nw (List.mem_cons_of_mem _ h)),
      totalOvel_velocityStep H grid_divs vel_fac g a (hl a (List.mem_cons_self _ _))]
    by_cases hw : a.2 > H.EPSILON
    · simp only [hw, if_true, List.map_cons, List.filter_cons, decide_True, List.sum_cons]
      ring
    · simp only [hw, if_false, List.map_cons, List.filter_cons, decide_False, add_zero]
      simp

theorem totalOvel_transferVelocity (H : Host) (P : Params) (G : Geometry)
    (ps : List Particle) (g : Grid)
    (hin : ∀ p ∈ ps, ∀ n ∈ particleStencil P G p, isValidIndex G.grid_divs n) (i : Fin 3) :
    totalOvel G.grid_divs (transferVelocity H P G g ps) i =
      totalOvel G.grid_divs g i +
        (ps.map fun p => P.particle_mass * p.velocity i * usedWeightSum H P G p).sum := by
  unfold transferVelocity
  induction ps generalizing g with
  | nil => simp
  | cons p ps ih =>
    rw [List.foldl_cons, ih _ (fun q hq => hin q (List.mem_cons_of_mem _ hq))]
    simp only [transferVelocityParticle]
    rw [totalOvel_scatter H G.grid_divs _ _ g
      (fun nw h => hin p (List.mem_cons_self _ _) _ (List.of_mem_zip h).1)]
    have hw : ((particleStencil P G p).zip (cachedWeights H P G p)).map Prod.snd =
        cachedWeights H P G p := by
      unfold cachedWeights
      rw [List.map_snd_zip]
      rw [List.length_map]
    rw [hw]
    simp only [List.map_cons, List.sum_cons, usedWeightSum]
    ring

/-- At a voxel that is inactive with no scattered momentum, or active with non-zero mass,
the division by mass turns `g_ovel` into the velocity whose momentum was scattered. -/
theorem divideByMass_momentum (d : NodeData) (i : Fin 3)
    (h1 : d.g_active = 0 → ∀ i, d.g_ovel i = 0) (h2 : d.g_active ≠ 0 → d.g_mass ≠ 0) :
    (divideByMass d).g_mass * (divideByMass d).g_ovel i = d.g_ovel i := by
  unfold divideByMass
  by_cases ha : d.g_active = 0
  · simp [ha, h1 ha i]
  · simp only [ha, ne_eq, not_false_eq_true, if_true]
    field_simp [h2 ha]

/-- The grid momentum after the mass pass, the velocity scatter and the division by mass,
started from the reset grid: each particle contributes `particle_mass * velocity` times the
sum of its cached weights above `EPSILON`. -/
theorem momentum_after_divide (H : Host) (P : Params) (G : Geometry) (g : Grid)
    (ps : List Particle) (hm : 0 < P.particle_mass) (he : 0 ≤ H.EPSILON)
    (hin : ∀ p ∈ ps, ∀ n ∈ particleStencil P G p, isValidIndex G.grid_divs n)
    (hw : ∀ p ∈ ps, ∀ w ∈ cachedWeights H P G p, 0 ≤ w) (i : Fin 3) :
    totalMomentum G.grid_divs
        (normalizeVelocity G.grid_divs
          (transferVelocity H P G (transferMass H P G (resetGrid G.grid_divs g) ps) ps)) i =
      (ps.map fun p => P.particle_mass * p.velocity i * usedWeightSum H P G p).sum := by
  have hframe := transferMass_frame H P G ps (resetGrid G.grid_divs g)
  have hreset : ∀ n, isValidIndex G.grid_divs n → resetGrid G.grid_divs g n = zeroNode :=
    fun n hn => by rw [resetGrid_apply, if_pos hn]
  have hpos : ∀ p ∈ ps, ∀ nw ∈ (particleStencil P G p).zip (cachedWeights H P G p),
      nw.2 > H.EPSILON → isValidIndex G.grid_divs nw.1 →
      (transferMass H P G (resetGrid G.grid_divs g) ps nw.1).g_mass ≠ 0 := by
    intro p hp nw hnw hgt hv
    have hge := transferMass_mass_ge H P G ps (resetGrid G.grid_divs g) hm.le hw p hp
      nw.1 nw.2 (by simpa using hnw) hv
    rw [hreset _ hv] at hge
    have : 0 < nw.2 * P.particle_mass := mul_pos (lt_of_le_of_lt he hgt) hm
    have hz : zeroNode.g_mass = 0 := rfl
    rw [hz] at hge
    exact ne_of_gt (by linarith)
  have hnode : ∀ n ∈ gridBox G.grid_divs,
      (normalizeVelocity G.grid_divs
        (transferVelocity H P G (transferMass H P G (resetGrid G.grid_divs g) ps) ps) n).g_mass *
      (normalizeVelocity G.grid_divs
        (transferVelocity H P G (transferMass H P G (resetGrid G.grid_divs g) ps) ps) n).g_ovel i
      = (transferVelocity H P G (transferMass H P G (resetGrid G.grid_divs g) ps) ps n).g_ovel
          i := by
    intro n hn
    have hv := (mem_gridBox _ _).mp hn
    have h0 : ((transferMass H P G (resetGrid G.grid_divs g) ps n).g_active = 0 →
          ∀ i, (transferMass H P G (resetGrid G.grid_divs g) ps n).g_ovel i = 0) ∧
        ((transferMass H P G (resetGrid G.grid_divs g) ps n).g_active ≠ 0 →
          (transferMass H P G (resetGrid G.grid_divs g) ps n).g_mass ≠ 0) := by
      rw [(hframe n).1, (hframe n).2.1, hreset n hv]
      exact ⟨fun _ _ => rfl, fun h => absurd rfl h⟩
    have hinv := transferVelocity_invariant H P G ps _ n hpos h0
    unfold normalizeVelocity
    rw [forNodes_apply, if_pos hv]
    exact divideByMass_momentum _ i hinv.2.2.1 (fun ha => by rw [hinv.1]; exact hinv.2.2.2 ha)
  unfold totalMomentum
  rw [Finset.sum_congr rfl hnode]
  have htot := totalOvel_transferVelocity H P G ps
    (transferMass H P G (resetGrid G.grid_divs g) ps) hin i
  unfold totalOvel at htot
  rw [htot]
  have hzero : ∑ n in gridBox G.grid_divs,
      (transferMass H P G (resetGrid G.grid_divs g) ps n).g_ovel i = 0 := by
    refine Finset.sum_eq_zero fun n hn => ?_
    rw [(hframe n).2.1, hreset n ((mem_gridBox _ _).mp hn)]
    rfl
  rw [hzero, zero_add]

/-! ## The B-spline of the spec on the example particles -/

theorem bspline_nonneg (x : ℚ) : 0 ≤ bspline x := by
  unfold bspline
  have ha := abs_nonneg x
  split
  · rename_i h
    nlinarith [mul_nonneg ha ha, mul_nonneg (mul_nonneg ha ha) ha,
      mul_nonneg ha (sub_nonneg.mpr h.le), mul_nonneg (mul_nonneg ha (sub_nonneg.mpr h.le))
        (sub_nonneg.mpr h.le)]
  · split
    · rename_i h1 h2
      have h3 : 0 ≤ 2 - |x| := by linarith
      have : |x| * (|x| * (-|x| / 6 + 1) - 2) + 4 / 3 = (2 - |x|) * (2 - |x|) * (2 - |x|) / 6 := by
        ring
      rw [this]
      exact div_nonneg (mul_nonneg (mul_nonneg h3 h3) h3) (by norm_num)
    · exact le_rfl

theorem cachedWeights_nonneg_bspline (H : Host) (hb : H.bspline = bspline) (P : Params)
    (G : Geometry) (p : Particle) : ∀ w ∈ cachedWeights H P G p, 0 ≤ w := by
  intro w hw
  unfold cachedWeights at hw
  obtain ⟨n, _, rfl⟩ := List.mem_map.mp hw
  unfold nodeWeight
  rw [hb]
  exact mul_nonneg (mul_nonneg (bspline_nonneg _) (bspline_nonneg _)) (bspline_nonneg _)

theorem posToIndex_centredParticle :
    posToIndex exampleGeometry.grid_origin exampleParams.division_size
      centredParticle.position = (3, 3, 3) := by
  have h : ⌊((7 : ℚ) / 2 - 0) / 1 - 1 / 2⌋ = 3 := by
    rw [Int.floor_eq_iff]; norm_num
  simp only [posToIndex, gridPos, exampleGeometry, exampleParams, centredParticle, h]

theorem posToIndex_offsetParticle :
    posToIndex exampleGeometry.grid_origin exampleParams.division_size
      offsetParticle.position = (3, 3, 3) := by
  have h : ⌊((3501 : ℚ) / 1000 - 0) / 1 - 1 / 2⌋ = 3 := by
    rw [Int.floor_eq_iff]; norm_num
  simp only [posToIndex, gridPos, exampleGeometry, exampleParams, offsetParticle, h]

theorem stencil_three_valid : ∀ n ∈ stencil (3, 3, 3), isValidIndex (7, 7, 7) n := by
  intro n hn
  rw [mem_stencil] at hn
  unfold isValidIndex
  simp only at hn ⊢
  omega

theorem centredParticle_inside :
    ∀ p ∈ [centredParticle], ∀ n ∈ particleStencil exampleParams exampleGeometry p,
      isValidIndex exampleGeometry.grid_divs n := by
  intro p hp n hn
  rw [List.mem_singleton] at hp
  subst hp
  unfold particleStencil at hn
  rw [posToIndex_centredParticle] at hn
  exact stencil_three_valid n hn

theorem offsetParticle_inside :
    ∀ p ∈ [offsetParticle], ∀ n ∈ particleStencil exampleParams exampleGeometry p,
      isValidIndex exampleGeometry.grid_divs n := by
  intro p hp n hn
  rw [List.mem_singleton] at hp
  subst hp
  unfold particleStencil at hn
  rw [posToIndex_offsetParticle] at hn
  exact stencil_three_valid n hn

/-- A weight that the guard `w > e` skips is missing from the sum of the used weights. -/
theorem filter_sum_lt (l : List ℚ) (e w0 : ℚ) (hl : ∀ w ∈ l, 0 ≤ w) (h0 : w0 ∈ l)
    (hpos : 0 < w0) (hle : w0 ≤ e) : (l.filter fun w => w > e).sum < l.sum := by
  induction l with
  | nil => simp at h0
  | cons a l ih =>
    have hmono : ∀ l' : List ℚ, (∀ w ∈ l', 0 ≤ w) → (l'.filter fun w => w > e).sum ≤ l'.sum := by
      intro l' hl'
      induction l' with
      | nil => simp
      | cons b l' ih' =>
        have hb := hl' b (List.mem_cons_self _ _)
        have := ih' (fun w hw => hl' w (List.mem_cons_of_mem _ hw))
        by_cases hbe : b > e
        · simp only [List.filter_cons, hbe, decide_True, if_true, List.sum_cons]; linarith
        · simp only [List.filter_cons, hbe, decide_False, List.sum_cons]
          simp only [Bool.false_eq_true, if_false]; linarith
    have hl' : ∀ w ∈ l, 0 ≤ w := fun w hw => hl w (List.mem_cons_of_mem _ hw)
    have ha := hl a (List.mem_cons_self _ _)
    rcases List.mem_cons.mp h0 with h | h
    · subst h
      have hne : ¬ w0 > e := not_lt.mpr hle
      have := hmono l hl'
      simp only [List.filter_cons, hne, decide_False, List.sum_cons]
      simp only [Bool.false_eq_true, if_false]; linarith
    · have := ih hl' h
      by_cases hae : a > e
      · simp only [List.filter_cons, hae, decide_True, if_true, List.sum_cons]; linarith
      · simp only [List.filter_cons, hae, decide_False, List.sum_cons]
        simp only [Bool.false_eq_true, if_false]; linarith

/-- The weight of `offsetParticle` at voxel `(5, 5, 5)`. -/
theorem offsetParticle_small_weight (eps : ℚ) :
    (1 : ℚ) / 216000000000000000000000000000 ∈
      cachedWeights (exampleHost eps) exampleParams exampleGeometry offsetParticle := by
  unfold cachedWeights
  refine List.mem_map.mpr ⟨(5, 5, 5), ?_, ?_⟩
  · unfold particleStencil
    rw [posToIndex_offsetParticle, mem_stencil]
    simp
  · have h : bspline ((3501 : ℚ) / 1000 - 0 - 1 / 2 - 5) = 1 / 6000000000 := by
      have ha : |(3501 : ℚ) / 1000 - 0 - 1 / 2 - 5| = 1999 / 1000 := by
        rw [abs_of_neg (by norm_num)]; norm_num
      unfold bspline
      rw [ha]
      norm_num
    simp only [nodeWeight, gridPos, exampleHost, exampleGeometry, exampleParams, offsetParticle,
      div_one, Int.cast_ofNat, h]
    norm_num

/-- Whatever `EPSILON >= 10^-29` is, the used weights of `offsetParticle` sum to less than 1.-/
theorem offsetParticle_usedWeightSum_lt (eps : ℚ) (he : 1 / 10 ^ 29 ≤ eps) :
    usedWeightSum (exampleHost eps) exampleParams exampleGeometry offsetParticle < 1 := by
  have hsum := cachedWeights_sum_bspline (exampleHost eps) rfl exampleParams exampleGeometry
    offsetParticle
  have hlt := filter_sum_lt _ eps _
    (cachedWeights_nonneg_bspline (exampleHost eps) rfl exampleParams exampleGeometry
      offsetParticle) (offsetParticle_small_weight eps) (by norm_num)
    (le_trans (by norm_num) he)
  rw [hsum] at hlt
  exact hlt

/-! ## Claims on the transfer to the grid -/

/-- Witness of C1: one particle in the middle of a 7 x 7 x 7 grid. -/
theorem mass_conservation_witness :
    (∀ p ∈ [centredParticle], ∀ n ∈ particleStencil exampleParams exampleGeometry p,
        isValidIndex exampleGeometry.grid_divs n) ∧
      totalMass exampleGeometry.grid_divs
          (transferMass (exampleHost 0) exampleParams exampleGeometry
            (resetGrid exampleGeometry.grid_divs fun _ => zeroNode) [centredParticle]) =
        (([centredParticle].length : ℕ) : ℚ) * exampleParams.particle_mass :=
  ⟨centredParticle_inside,
    mass_conservation (exampleHost 0) exampleParams exampleGeometry (fun _ => zeroNode)
      [centredParticle] centredParticle_inside
      (fun p _ => cachedWeights_sum_bspline (exampleHost 0) rfl exampleParams exampleGeometry p)⟩

/-- C2, as stated, fails: `offsetParticle` lies inside the grid, has positive mass and
cached weights that sum to 1, yet for every `EPSILON >= 10^-29` the grid momentum after the
velocity scatter and the division by mass differs from `particle_mass * velocity`, because
the scatter skips the weights that are not above `EPSILON` while the mass pass does not. -/
theorem momentum_conservation_fails :
    (∀ p ∈ [offsetParticle], ∀ n ∈ particleStencil exampleParams exampleGeometry p,
        isValidIndex exampleGeometry.grid_divs n) ∧
      (∀ eps : ℚ,
        (cachedWeights (exampleHost eps) exampleParams exampleGeometry offsetParticle).sum = 1) ∧
      0 < exampleParams.particle_mass ∧
      ¬ ∃ eps : ℚ, 1 / 10 ^ 29 ≤ eps ∧
        totalMomentum exampleGeometry.grid_divs
          (normalizeVelocity exampleGeometry.grid_divs
            (transferVelocity (exampleHost eps) exampleParams exampleGeometry
              (transferMass (exampleHost eps) exampleParams exampleGeometry
                (resetGrid exampleGeometry.grid_divs fun _ => zeroNode) [offsetParticle])
              [offsetParticle])) 0 =
          exampleParams.particle_mass * offsetParticle.velocity 0 := by
  refine ⟨offsetParticle_inside,
    fun eps => cachedWeights_sum_bspline (exampleHost eps) rfl _ _ _, by norm_num [exampleParams],
    ?_⟩
  rintro ⟨eps, he, h⟩
  have he0 : 0 ≤ (exampleHost eps).EPSILON := le_trans (by norm_num) he
  rw [momentum_after_divide (exampleHost eps) exampleParams exampleGeometry (fun _ => zeroNode)
    [offsetParticle] (by norm_num [exampleParams]) he0 offsetParticle_inside
    (fun p _ => cachedWeights_nonneg_bspline (exampleHost eps) rfl _ _ p) 0] at h
  have hlt := offsetParticle_usedWeightSum_lt eps he
  simp only [List.map_cons, List.map_nil, List.sum_cons, List.sum_nil, add_zero] at h
  have hv : offsetParticle.velocity 0 = 1 := rfl
  have hm : exampleParams.particle_mass = 1 := rfl
  rw [hv, hm] at h
  linarith

/-- C2, amended. For particles inside the grid with `particle_mass > 0`, `EPSILON >= 0` and
non-negative cached weights, after the mass pass, the velocity scatter and the division by
mass of the active voxels, each component of the sum over all voxels of mass * oldVelocity
equals the sum over the particles of `particle_mass * velocity` times the sum of the cached
weights above `EPSILON`; so it equals the particle momentum when those weights sum to 1. -/
theorem momentum_conservation_used_weights (H : Host) (P : Params) (G : Geometry) (g : Grid)
    (ps : List Particle) (hm : 0 < P.particle_mass) (he : 0 ≤ H.EPSILON)
    (hin : ∀ p ∈ ps, ∀ n ∈ particleStencil P G p, isValidIndex G.grid_divs n)
    (hw : ∀ p ∈ ps, ∀ w ∈ cachedWeights H P G p, 0 ≤ w) :
    (∀ i, totalMomentum G.grid_divs
        (normalizeVelocity G.grid_divs
          (transferVelocity H P G (transferMass H P G (resetGrid G.grid_divs g) ps) ps)) i =
      (ps.map fun p => P.particle_mass * p.velocity i * usedWeightSum H P G p).sum) ∧
    ((∀ p ∈ ps, usedWeightSum H P G p = 1) →
      ∀ i, totalMomentum G.grid_divs
        (normalizeVelocity G.grid_divs
          (transferVelocity H P G (transferMass H P G (resetGrid G.grid_divs g) ps) ps)) i =
      (ps.map fun p => P.particle_mass * p.velocity i).sum) := by
  refine ⟨fun i => momentum_after_divide H P G g ps hm he hin hw i, fun hone i => ?_⟩
  rw [momentum_after_divide H P G g ps hm he hin hw i]
  refine congrArg List.sum (List.map_congr_left fun p hp => ?_)
  rw [hone p hp, mul_one]

/-- Witness of the amended C2: `offsetParticle` in the 7 x 7 x 7 grid with `EPSILON = 0`. -/
theorem momentum_conservation_used_weights_witness :
    (0 < exampleParams.particle_mass ∧ 0 ≤ (exampleHost 0).EPSILON) ∧
    ((∀ i, totalMomentum exampleGeometry.grid_divs
        (normalizeVelocity exampleGeometry.grid_divs
          (transferVelocity (exampleHost 0) exampleParams exampleGeometry
            (transferMass (exampleHost 0) exampleParams exampleGeometry
              (resetGrid exampleGeometry.grid_divs fun _ => zeroNode) [offsetParticle])
            [offsetParticle])) i =
      ([offsetParticle].map fun p => exampleParams.particle_mass * p.velocity i *
        usedWeightSum (exampleHost 0) exampleParams exampleGeometry p).sum) ∧
    ((∀ p ∈ [offsetParticle], usedWeightSum (exampleHost 0) exampleParams exampleGeometry p = 1) →
      ∀ i, totalMomentum exampleGeometry.grid_divs
        (normalizeVelocity exampleGeometry.grid_divs
          (transferVelocity (exampleHost 0) exampleParams exampleGeometry
            (transferMass (exampleHost 0) exampleParams exampleGeometry
              (resetGrid exampleGeometry.grid_divs fun _ => zeroNode) [offsetParticle])
            [offsetParticle])) i =
      ([offsetParticle].map fun p => exampleParams.particle_mass * p.velocity i).sum)) :=
  ⟨⟨by norm_num [exampleParams], le_refl _⟩,
    momentum_conservation_used_weights (exampleHost 0) exampleParams exampleGeometry
      (fun _ => zeroNode) [offsetParticle] (by norm_num [exampleParams]) (le_refl _)
      offsetParticle_inside
      (fun p _ => cachedWeights_nonneg_bspline (exampleHost 0) rfl _ _ p)⟩

/-- C3. Partition of unity: with the stencil's lower corner `floor((pos-origin)/spacing - 0.5)`
per axis and the cubic B-spline of the spec, the 64 cached weights `wx*wy*wz` of every
particle position sum to exactly 1. -/
theorem partition_of_unity (H : Host) (hb : H.bspline = bspline) (P : Params) (G : Geometry)
    (p : Particle) :
    (cachedWeights H P G p).length = 64 ∧ (cachedWeights H P G p).sum = 1 := by
  refine ⟨?_, cachedWeights_sum_bspline H hb P G p⟩
  simp [cachedWeights, particleStencil, stencil, axisRange]

/-- Witness of C3: `offsetParticle`. -/
theorem partition_of_unity_witness :
    (exampleHost 0).bspline = bspline ∧
      (cachedWeights (exampleHost 0) exampleParams exampleGeometry offsetParticle).length = 64 ∧
      (cachedWeights (exampleHost 0) exampleParams exampleGeometry offsetParticle).sum = 1 :=
  ⟨rfl, partition_of_unity (exampleHost 0) rfl exampleParams exampleGeometry offsetParticle⟩

/-! ## Plasticity: the clamp of the singular values -/

theorem clampSingular_mem (P : Params) (e : ℚ) (hc : P.CRIT_COMPRESS ≤ P.CRIT_STRETCH) :
    P.CRIT_COMPRESS ≤ clampSingular P e ∧ clampSingular P e ≤ P.CRIT_STRETCH := by
  unfold clampSingular
  split
  · exact ⟨le_rfl, hc⟩
  · split
    · exact ⟨hc, le_rfl⟩
    · exact ⟨not_lt.mp ‹_›, not_lt.mp ‹_›⟩

theorem clampSingular_nonneg (P : Params) (e : ℚ) (he : 0 ≤ e) (hs : 0 ≤ P.CRIT_STRETCH) :
    0 ≤ clampSingular P e := by
  unfold clampSingular
  split
  · linarith
  · split
    · exact hs
    · exact he

theorem clampSingular_of_mem (P : Params) (e : ℚ) (h1 : P.CRIT_COMPRESS ≤ e)
    (h2 : e ≤ P.CRIT_STRETCH) : clampSingular P e = e := by
  unfold clampSingular
  rw [if_neg (not_lt.mpr h1), if_neg (not_lt.mpr h2)]

/-- The Gram matrix of `U diag(d) V^T` with `U` orthogonal is `V diag(d^2) V^T`. -/
theorem gram_of_factors (U V : Mat3) (d : Vec3) (hU : U.transpose * U = 1) :
    (U * Matrix.diagonal d * V.transpose).transpose * (U * Matrix.diagonal d * V.transpose) =
      V * Matrix.diagonal (fun i => d i * d i) * V.transpose := by
  rw [Matrix.transpose_mul, Matrix.transpose_mul, Matrix.transpose_transpose,
    Matrix.diagonal_transpose]
  calc V * (Matrix.diagonal d * U.transpose) * (U * Matrix.diagonal d * V.transpose)
      = V * (Matrix.diagonal d * (U.transpose * U) * Matrix.diagonal d) * V.transpose := by
        simp only [Matrix.mul_assoc]
    _ = V * Matrix.diagonal (fun i => d i * d i) * V.transpose := by
        rw [hU, Matrix.mul_one, Matrix.diagonal_mul_diagonal]

/-- The eigenvalues of `V diag(d) V^T` with `V` orthogonal are entries of `d`. -/
theorem eigenvalue_of_factors (V : Mat3) (d : Vec3) (hV : V.transpose * V = 1) (v : Vec3)
    (c : ℚ) (hv : v ≠ 0) (h : (V * Matrix.diagonal d * V.transpose).mulVec v = c • v) :
    ∃ i, d i = c := by
  have hV2 : V * V.transpose = 1 := Matrix.mul_eq_one_comm.mp hV
  have hw : (Matrix.diagonal d).mulVec (V.transpose.mulVec v) = c • V.transpose.mulVec v := by
    have h2 := congrArg (fun x => V.transpose.mulVec x) h
    simp only [Matrix.mulVec_mulVec, Matrix.mulVec_smul] at h2
    rw [← Matrix.mul_assoc, ← Matrix.mul_assoc, hV, Matrix.one_mul] at h2
    rw [Matrix.mulVec_mulVec]
    exact h2
  have hne : V.transpose.mulVec v ≠ 0 := by
    intro h0
    apply hv
    have : V.mulVec (V.transpose.mulVec v) = v := by
      rw [Matrix.mulVec_mulVec, hV2, Matrix.one_mulVec]
    rw [← this, h0, Matrix.mulVec_zero]
  obtain ⟨i, hi⟩ := Function.ne_iff.mp hne
  refine ⟨i, ?_⟩
  have hi2 := congrFun hw i
  rw [Matrix.mulVec_diagonal] at hi2
  simp only [Pi.smul_apply, smul_eq_mul] at hi2
  exact mul_right_cancel₀ hi hi2

/-- Each entry of `d` is an eigenvalue of `V diag(d) V^T` when `V` is orthogonal. -/
theorem eigenvector_of_factors (V : Mat3) (d : Vec3) (hV : V.transpose * V = 1) (i : Fin 3) :
    ∃ v : Vec3, v ≠ 0 ∧ (V * Matrix.diagonal d * V.transpose).mulVec v = d i • v := by
  refine ⟨V.mulVec (Pi.single i 1 : Vec3), ?_, ?_⟩
  · intro h0
    have h1 := congrArg (fun x => V.transpose.mulVec x) h0
    simp only [Matrix.mulVec_mulVec, hV, Matrix.one_mulVec, Matrix.mulVec_zero] at h1
    have := congrFun h1 i
    simp at this
  · have hD : (Matrix.diagonal d).mulVec (Pi.single i 1 : Vec3) =
        d i • (Pi.single i 1 : Vec3) := by
      ext j
      rw [Matrix.mulVec_diagonal]
      by_cases hj : j = i
      · subst hj; simp
      · simp [Pi.single_eq_of_ne hj]
    rw [Matrix.mulVec_mulVec, Matrix.mul_assoc, Matrix.mul_assoc, hV, Matrix.mul_one,
      ← Matrix.mulVec_mulVec, hD, Matrix.mulVec_smul]

/-- The singular values of `U diag(d) V^T`, with `U`, `V` orthogonal and `d` without
negative entries, are the entries of `d`. -/
theorem singularValue_of_factors (U V : Mat3) (d : Vec3) (hU : U.transpose * U = 1)
    (hV : V.transpose * V = 1) (hd : ∀ i, 0 ≤ d i) (σ : ℚ) :
    IsSingularValue (U * Matrix.diagonal d * V.transpose) σ ↔ ∃ i, σ = d i := by
  unfold IsSingularValue
  rw [gram_of_factors U V d hU]
  constructor
  · rintro ⟨h0, v, hv, h⟩
    obtain ⟨i, hi⟩ := eigenvalue_of_factors V _ hV v _ hv h
    refine ⟨i, ?_⟩
    have : (σ - d i) * (σ + d i) = 0 := by
      ring_nf
      ring_nf at hi
      linarith
    rcases mul_eq_zero.mp this with h1 | h1
    · linarith
    · have := hd i
      have hσ : σ = 0 := by linarith
      have hdi : d i = 0 := by linarith
      rw [hσ, hdi]
  · rintro ⟨i, rfl⟩
    exact ⟨hd i, eigenvector_of_factors V _ hV i⟩

theorem isSVD_exampleHost_one (eps : ℚ) :
    IsSVD (eigenMap (1 : Mat3)) ((exampleHost eps).svd (eigenMap (1 : Mat3))) := by
  unfold IsSVD eigenMap exampleHost
  simp only [Matrix.transpose_one, Matrix.one_mul, Matrix.mul_one, Matrix.one_apply_eq]
  refine ⟨?_, trivial, trivial, fun _ => zero_le_one⟩
  exact Matrix.diagonal_one.symm

theorem applyPlasticity_Fe (H : Host) (P : Params) (p : Particle) :
    eigenMap (applyPlasticity H P p).Fe =
      (constitutive H P p).svd_u * Matrix.diagonal (constitutive H P p).svd_e *
        (constitutive H P p).svd_v.transpose := by
  simp only [applyPlasticity, eigenMap, Matrix.transpose_transpose]
  rfl

theorem constitutive_svd_e (H : Host) (P : Params) (p : Particle) (i : Fin 3) :
    (constitutive H P p).svd_e i = clampSingular P ((H.svd (eigenMap p.Fe)).2.1 i) := rfl

theorem constitutive_svd_u (H : Host) (P : Params) (p : Particle) :
    (constitutive H P p).svd_u = (H.svd (eigenMap p.Fe)).1 := rfl

theorem constitutive_svd_v (H : Host) (P : Params) (p : Particle) :
    (constitutive H P p).svd_v = (H.svd (eigenMap p.Fe)).2.2 := rfl

/-- The stored `Fe` is the transpose of `U diag(s) V^T`, that is `V diag(s) U^T`. -/
theorem applyPlasticity_Fe_stored (H : Host) (P : Params) (p : Particle) :
    (applyPlasticity H P p).Fe =
      (constitutive H P p).svd_v * Matrix.diagonal (constitutive H P p).svd_e *
        (constitutive H P p).svd_u.transpose := by
  have h := congrArg Matrix.transpose (applyPlasticity_Fe H P p)
  simp only [eigenMap, Matrix.transpose_transpose, Matrix.transpose_mul,
    Matrix.diagonal_transpose] at h
  rw [h, Matrix.mul_assoc]

/-- C4, as stated, fails for a negative `criticalStretch`: with the interval `[-2, -1]`
and `Fe = I` (singular values 1, decomposed by `U = V = I`) the constitutive model writes
back `Fe = -I`, of which 1 is a singular value, outside the interval. -/
theorem singular_value_outside_negative_interval :
    IsSVD (eigenMap centredParticle.Fe) ((exampleHost 0).svd (eigenMap centredParticle.Fe)) ∧
      negativeStretchParams.CRIT_COMPRESS ≤ negativeStretchParams.CRIT_STRETCH ∧
      IsSingularValue (applyPlasticity (exampleHost 0) negativeStretchParams centredParticle).Fe 1 ∧
      ¬ (1 : ℚ) ≤ negativeStretchParams.CRIT_STRETCH := by
  refine ⟨isSVD_exampleHost_one 0, by norm_num [negativeStretchParams, exampleParams], ?_,
    by norm_num [negativeStretchParams, exampleParams]⟩
  have hFe : (applyPlasticity (exampleHost 0) negativeStretchParams centredParticle).Fe =
      Matrix.diagonal fun _ => (-1 : ℚ) := by
    rw [applyPlasticity_Fe_stored]
    have he : (constitutive (exampleHost 0) negativeStretchParams centredParticle).svd_e =
        fun _ => (-1 : ℚ) := by
      funext i
      rw [constitutive_svd_e]
      simp only [exampleHost, eigenMap, centredParticle, Matrix.transpose_one,
        Matrix.one_apply_eq, clampSingular, negativeStretchParams, exampleParams]
      norm_num
    rw [he, constitutive_svd_u, constitutive_svd_v]
    simp [exampleHost]
  refine ⟨zero_le_one, (Pi.single 0 1 : Vec3), ?_, ?_⟩
  · intro h0
    have := congrFun h0 0
    simp at this
  · rw [hFe, Matrix.diagonal_transpose, Matrix.diagonal_mul_diagonal]
    ext j
    rw [Matrix.mulVec_diagonal]
    norm_num

/-- C4, amended. For `criticalCompression <= criticalStretch`, after the plasticity step
each clamped singular value lies in `[criticalCompression, criticalStretch]` and the `Fe`
written back is `U diag(clamped s) V^T` in the layout in which it was decomposed; and when
`(U, s, V)` is a singular value decomposition and `criticalStretch >= 0`, every singular
value of the `Fe` written back is within `[criticalCompression, criticalStretch]`. -/
theorem plasticity_clamps_singular_values (H : Host) (P : Params) (p : Particle)
    (hc : P.CRIT_COMPRESS ≤ P.CRIT_STRETCH) :
    (∀ i, P.CRIT_COMPRESS ≤ (constitutive H P p).svd_e i ∧
        (constitutive H P p).svd_e i ≤ P.CRIT_STRETCH) ∧
      eigenMap (applyPlasticity H P p).Fe =
        (H.svd (eigenMap p.Fe)).1 *
          Matrix.diagonal (fun i => clampSingular P ((H.svd (eigenMap p.Fe)).2.1 i)) *
          (H.svd (eigenMap p.Fe)).2.2.transpose ∧
      (IsSVD (eigenMap p.Fe) (H.svd (eigenMap p.Fe)) → 0 ≤ P.CRIT_STRETCH →
        ∀ σ, IsSingularValue (applyPlasticity H P p).Fe σ →
          P.CRIT_COMPRESS ≤ σ ∧ σ ≤ P.CRIT_STRETCH) := by
  refine ⟨fun i => clampSingular_mem P _ hc, applyPlasticity_Fe H P p, ?_⟩
  intro hsvd hs σ hσ
  rw [applyPlasticity_Fe_stored] at hσ
  obtain ⟨i, rfl⟩ := (singularValue_of_factors _ _ _ hsvd.2.2.1 hsvd.2.1
    (fun i => clampSingular_nonneg P _ (hsvd.2.2.2 i) hs) σ).mp hσ
  exact clampSingular_mem P _ hc

/-- Witness of the amended C4: `Fe = I` with the interval `[1/10, 10]`. -/
theorem plasticity_clamps_singular_values_witness :
    exampleParams.CRIT_COMPRESS ≤ exampleParams.CRIT_STRETCH ∧
    ((∀ i, exampleParams.CRIT_COMPRESS ≤
          (constitutive (exampleHost 0) exampleParams centredParticle).svd_e i ∧
        (constitutive (exampleHost 0) exampleParams centredParticle).svd_e i ≤
          exampleParams.CRIT_STRETCH) ∧
      eigenMap (applyPlasticity (exampleHost 0) exampleParams centredParticle).Fe =
        ((exampleHost 0).svd (eigenMap centredParticle.Fe)).1 *
          Matrix.diagonal (fun i => clampSingular exampleParams
            (((exampleHost 0).svd (eigenMap centredParticle.Fe)).2.1 i)) *
          ((exampleHost 0).svd (eigenMap centredParticle.Fe)).2.2.transpose ∧
      (IsSVD (eigenMap centredParticle.Fe)
          ((exampleHost 0).svd (eigenMap centredParticle.Fe)) →
        0 ≤ exampleParams.CRIT_STRETCH →
        ∀ σ, IsSingularValue (applyPlasticity (exampleHost 0) exampleParams centredParticle).Fe σ →
          exampleParams.CRIT_COMPRESS ≤ σ ∧ σ ≤ exampleParams.CRIT_STRETCH)) :=
  ⟨by norm_num [exampleParams],
    plasticity_clamps_singular_values (exampleHost 0) exampleParams centredParticle
      (by norm_num [exampleParams])⟩

/-! ## The adaptive timestep -/

theorem adaptiveTimestep_le_max (H : Host) (P : Params) (framerate max_vel adaptive_time : ℚ) :
    adaptiveTimestep H P framerate max_vel adaptive_time ≤ P.MAX_TIMESTEP := by
  unfold adaptiveTimestep
  simp only
  split_ifs <;> linarith

theorem adaptiveTimestep_le_frame (H : Host) (P : Params)
    (framerate max_vel adaptive_time : ℚ) :
    adaptive_time + adaptiveTimestep H P framerate max_vel adaptive_time ≤ framerate := by
  unfold adaptiveTimestep
  simp only
  split_ifs <;> linarith

theorem adaptiveTimestep_nonneg (H : Host) (P : Params) (framerate max_vel adaptive_time : ℚ)
    (hacc : adaptive_time ≤ framerate) (hcfl : 0 ≤ P.CFL * P.division_size)
    (hsqrt : 0 ≤ H.sqrt max_vel) (hmax : 0 ≤ P.MAX_TIMESTEP) (hf : 0 ≤ framerate) :
    0 ≤ adaptiveTimestep H P framerate max_vel adaptive_time := by
  have hdiv : 0 ≤ P.CFL * P.division_size / H.sqrt max_vel := div_nonneg hcfl hsqrt
  unfold adaptiveTimestep
  simp only
  split_ifs <;> linarith

/-- C8, as stated, fails: the code clamps the timestep from above only. With `CFL = -1`,
unit spacing, `max_vel = 1`, `MAX_TIMESTEP = 1/24`, a frame of `1/24` and no time
accumulated, the timestep is `-1`. -/
theorem timestep_negative_for_negative_cfl :
    (0 : ℚ) ≤ 1 / 24 ∧
      adaptiveTimestep (exampleHost (1 / 10000)) negativeCflParams (1 / 24) 1 0 = -1 ∧
      ¬ 0 ≤ adaptiveTimestep (exampleHost (1 / 10000)) negativeCflParams (1 / 24) 1 0 := by
  have h : adaptiveTimestep (exampleHost (1 / 10000)) negativeCflParams (1 / 24) 1 0 = -1 := by
    have hs : Nat.sqrt 1 = 1 := by decide
    simp only [adaptiveTimestep, exampleHost, negativeCflParams, exampleParams, Rat.num_one,
      Rat.den_one, Int.toNat_one, hs]
    norm_num
  refine ⟨by norm_num, h, ?_⟩
  rw [h]
  norm_num

/-- C8, amended. The substep length computed by the timestep controller always satisfies
`dt <= maxTimestep` and `accumulatedTime + dt <= frameLength`; it satisfies `0 <= dt` when
`accumulatedTime <= frameLength`, `CFL*spacing >= 0`, `sqrt(maxVelocitySquared) >= 0`,
`maxTimestep >= 0` and `frameLength >= 0` (there is no clamp from below); `dt` starts as
`CFL*spacing/sqrt(maxVelocitySquared)` if `maxVelocitySquared > EPSILON` and as
`frameLength` otherwise. -/
theorem timestep_bounds (H : Host) (P : Params) (framerate max_vel adaptive_time : ℚ) :
    adaptiveTimestep H P framerate max_vel adaptive_time ≤ P.MAX_TIMESTEP ∧
      adaptive_time + adaptiveTimestep H P framerate max_vel adaptive_time ≤ framerate ∧
      (adaptive_time ≤ framerate → 0 ≤ P.CFL * P.division_size → 0 ≤ H.sqrt max_vel →
        0 ≤ P.MAX_TIMESTEP → 0 ≤ framerate →
        0 ≤ adaptiveTimestep H P framerate max_vel adaptive_time) ∧
      (max_vel > H.EPSILON →
        P.CFL * P.division_size / H.sqrt max_vel ≤ P.MAX_TIMESTEP →
        adaptive_time + P.CFL * P.division_size / H.sqrt max_vel ≤ framerate →
        adaptiveTimestep H P framerate max_vel adaptive_time =
          P.CFL * P.division_size / H.sqrt max_vel) ∧
      (¬ max_vel > H.EPSILON → framerate ≤ P.MAX_TIMESTEP → adaptive_time + framerate ≤ framerate →
        adaptiveTimestep H P framerate max_vel adaptive_time = framerate) := by
  refine ⟨adaptiveTimestep_le_max H P framerate max_vel adaptive_time,
    adaptiveTimestep_le_frame H P framerate max_vel adaptive_time,
    adaptiveTimestep_nonneg H P framerate max_vel adaptive_time, ?_, ?_⟩
  · intro h1 h2 h3
    unfold adaptiveTimestep
    simp only [h1, if_true, not_lt.mpr h2, if_false, not_lt.mpr h3]
  · intro h1 h2 h3
    unfold adaptiveTimestep
    simp only [h1, if_false, not_lt.mpr h2, not_lt.mpr h3]

/-- Witness of the amended C8: the example constants at rest, half a frame accumulated. -/
theorem timestep_bounds_witness :
    (((1 : ℚ) / 48 ≤ 1 / 24 ∧ 0 ≤ exampleParams.CFL * exampleParams.division_size) ∧
      (0 ≤ (exampleHost (1 / 10000)).sqrt 0 ∧ 0 ≤ exampleParams.MAX_TIMESTEP ∧
        (0 : ℚ) ≤ 1 / 24)) ∧
      0 ≤ adaptiveTimestep (exampleHost (1 / 10000)) exampleParams (1 / 24) 0 (1 / 48) :=
  ⟨⟨⟨by norm_num, by norm_num [exampleParams]⟩,
      ⟨by norm_num [exampleHost], by norm_num [exampleParams], by norm_num⟩⟩,
    (timestep_bounds (exampleHost (1 / 10000)) exampleParams (1 / 24) 0 (1 / 48)).2.2.1
      (by norm_num) (by norm_num [exampleParams]) (by norm_num [exampleHost])
      (by norm_num [exampleParams]) (by norm_num)⟩

/-! ## Termination of the substep loop -/

theorem nextState_adaptive_time (H : Host) (P : Params) (F : Fields) (time timestep : ℚ)
    (k : ℕ) (s : LoopState) :
    (nextState H P F time timestep k s).adaptive_time = s.adaptive_time + timestep := rfl

/-- The loop from a state with less than `n * EPSILON` of the frame left exits within
`n + 1` iterations: the substeps it runs are at least `EPSILON` long, fit in what is left of
the frame, and are followed by the density pass on the final particles. -/
theorem substepLoop_exits (H : Host) (P : Params) (F : Fields) (time framerate : ℚ) (n : ℕ) :
    ∀ (fuel k : ℕ) (s : LoopState) (log : List ℚ), n < fuel →
      framerate - s.adaptive_time < n * H.EPSILON →
      ∃ r new, substepLoop H P F time framerate fuel k s log = some r ∧
        r.substeps = log ++ new ∧ (∀ dt ∈ new, H.EPSILON ≤ dt) ∧
        (new ≠ [] → new.sum ≤ framerate - s.adaptive_time) ∧
        (∃ size centre, r.g_density =
          mapDensity H P (F.resizeDensity (k + new.length) size centre) r.particles) := by
  induction n with
  | zero =>
    intro fuel k s log hfuel hleft
    obtain ⟨fuel, rfl⟩ : ∃ m, fuel = m + 1 := ⟨fuel - 1, by omega⟩
    have hge : s.adaptive_time ≥ framerate := by
      simp only [Nat.cast_zero, zero_mul] at hleft
      linarith
    refine ⟨densityExit H P F k s log, [], ?_, ?_, ?_, fun h => absurd rfl h, ?_⟩
    · rw [substepLoop, if_pos (Or.inl hge)]
    · simp [densityExit]
    · intro dt hdt
      simp at hdt
    · exact ⟨_, _, rfl⟩
  | succ n ih =>
    intro fuel k s log hfuel hleft
    obtain ⟨fuel, rfl⟩ : ∃ m, fuel = m + 1 := ⟨fuel - 1, by omega⟩
    by_cases hexit : s.adaptive_time ≥ framerate ∨
        adaptiveTimestep H P framerate s.max_vel s.adaptive_time < H.EPSILON
    · refine ⟨densityExit H P F k s log, [], ?_, ?_, ?_, fun h => absurd rfl h, ?_⟩
      · rw [substepLoop, if_pos hexit]
      · simp [densityExit]
      · intro dt hdt
        simp at hdt
      · exact ⟨_, _, rfl⟩
    · have hdt : H.EPSILON ≤ adaptiveTimestep H P framerate s.max_vel s.adaptive_time :=
        not_lt.mp fun h => hexit (Or.inr h)
      have hfit := adaptiveTimestep_le_frame H P framerate s.max_vel s.adaptive_time
      rw [substepLoop, if_neg hexit]
      obtain ⟨r, new, hr, hlog, hnew, hsum, size, centre, hden⟩ := ih fuel (k + 1)
        (nextState H P F time (adaptiveTimestep H P framerate s.max_vel s.adaptive_time) k s)
        (log ++ [adaptiveTimestep H P framerate s.max_vel s.adaptive_time])
        (by omega)
        (by
          rw [nextState_adaptive_time]
          push_cast at hleft
          linarith)
      rw [nextState_adaptive_time] at hsum
      refine ⟨r, adaptiveTimestep H P framerate s.max_vel s.adaptive_time :: new, hr, ?_, ?_, ?_,
        ?_⟩
      · rw [hlog, List.append_assoc, List.singleton_append]
      · intro dt hmem
        rcases List.mem_cons.mp hmem with h | h
        · rw [h]; exact hdt
        · exact hnew dt h
      · intro _
        rw [List.sum_cons]
        by_cases hn : new = []
        · rw [hn, List.sum_nil]; linarith
        · have := hsum hn
          linarith
      · refine ⟨size, centre, ?_⟩
        rw [hden, List.length_cons]
        have : k + 1 + new.length = k + (new.length + 1) := by omega
        rw [this]

/-- Substeps that are at least `EPSILON` long and fit in the frame are at most
`framerate / EPSILON` many. -/
theorem substep_count_le (eps framerate : ℚ) (he : 0 < eps) (hf : 0 ≤ framerate)
    (new : List ℚ) (hnew : ∀ dt ∈ new, eps ≤ dt) (hsum : new ≠ [] → new.sum ≤ framerate) :
    (new.length : ℚ) * eps ≤ framerate ∧ (new.length : ℚ) ≤ framerate / eps + 1 := by
  have hlen : ∀ l : List ℚ, (∀ dt ∈ l, eps ≤ dt) → (l.length : ℚ) * eps ≤ l.sum := by
    intro l hl
    induction l with
    | nil => simp
    | cons a l ih =>
      have h1 := hl a (List.mem_cons_self _ _)
      have h2 := ih (fun dt h => hl dt (List.mem_cons_of_mem _ h))
      rw [List.length_cons, List.sum_cons]
      push_cast
      linarith
  have h1 : (new.length : ℚ) * eps ≤ framerate := by
    by_cases hn : new = []
    · rw [hn]; simpa using hf
    · exact le_trans (hlen new hnew) (hsum hn)
  refine ⟨h1, ?_⟩
  have : (new.length : ℚ) ≤ framerate / eps := (le_div_iff₀ he).mpr h1
  linarith

/-- C9. The per-frame substep loop terminates: for `EPSILON > 0` and `frameLength >= 0`,
whatever velocity bounds the substeps produce, `solveGasSubclass` returns once allowed
`floor(frameLength/EPSILON) + 2` iterations; it has then run at most
`frameLength/EPSILON + 1` velocity substeps, each with `dt >= EPSILON`, followed by one
density-only pass over the final particles. -/
theorem substep_loop_terminates (H : Host) (P : Params) (F : Fields) (time framerate : ℚ)
    (bbox_min bbox_max : Vec3) (ps : List Particle) (fuel : ℕ) (he : 0 < H.EPSILON)
    (hf : 0 ≤ framerate) (hfuel : ⌊framerate / H.EPSILON⌋₊ + 2 ≤ fuel) :
    ∃ r, solveGasSubclass H P F time framerate bbox_min bbox_max fuel (some ps) =
        some (true, some r) ∧
      (∀ dt ∈ r.substeps, H.EPSILON ≤ dt) ∧
      (r.substeps.length : ℚ) ≤ framerate / H.EPSILON + 1 ∧
      (r.substeps.length : ℚ) * H.EPSILON ≤ framerate ∧
      (∃ size centre, r.g_density =
        mapDensity H P (F.resizeDensity r.substeps.length size centre) r.particles) := by
  have hleft : framerate - (0 : ℚ) < ((⌊framerate / H.EPSILON⌋₊ + 1 : ℕ) : ℚ) * H.EPSILON := by
    have := Nat.lt_floor_add_one (framerate / H.EPSILON)
    rw [div_lt_iff₀ he] at this
    push_cast
    linarith
  obtain ⟨r, new, hr, hlog, hnew, hsum, size, centre, hden⟩ :=
    substepLoop_exits H P F time framerate (⌊framerate / H.EPSILON⌋₊ + 1) fuel 0
      { particles := ps
        max_vel := (initialBounds bbox_min bbox_max ps).max_vel
        adaptive_time := 0
        bbox_min := (initialBounds bbox_min bbox_max ps).bbox_min
        bbox_max := (initialBounds bbox_min bbox_max ps).bbox_max } [] (by omega) hleft
  rw [List.nil_append] at hlog
  have hcount := substep_count_le H.EPSILON framerate he hf new hnew
    (fun h => by have := hsum h; simpa using this)
  refine ⟨r, ?_, ?_, ?_, ?_, ?_⟩
  · simp only [solveGasSubclass, hr, Option.map_some']
  · rw [hlog]; exact hnew
  · rw [hlog]; exact hcount.2
  · rw [hlog]; exact hcount.1
  · refine ⟨size, centre, ?_⟩
    rw [hden, hlog, zero_add]

/-- Witness of C9: the example particle, a frame of `1/24` and `EPSILON = 1/10000`. -/
theorem substep_loop_terminates_witness :
    (0 < (exampleHost (1 / 10000)).EPSILON ∧ (0 : ℚ) ≤ 1 / 24 ∧
      ⌊(1 / 24 : ℚ) / (exampleHost (1 / 10000)).EPSILON⌋₊ + 2 ≤ 1000) ∧
    ∃ r, solveGasSubclass (exampleHost (1 / 10000)) exampleParams exampleFields 0 (1 / 24)
          (fun _ => 0) (fun _ => 0) 1000 (some [centredParticle]) = some (true, some r) ∧
      (∀ dt ∈ r.substeps, (exampleHost (1 / 10000)).EPSILON ≤ dt) ∧
      (r.substeps.length : ℚ) ≤ (1 / 24) / (exampleHost (1 / 10000)).EPSILON + 1 ∧
      (r.substeps.length : ℚ) * (exampleHost (1 / 10000)).EPSILON ≤ 1 / 24 ∧
      (∃ size centre, r.g_density =
        mapDensity (exampleHost (1 / 10000)) exampleParams
          (exampleFields.resizeDensity r.substeps.length size centre) r.particles) := by
  have h1 : 0 < (exampleHost (1 / 10000)).EPSILON := by norm_num [exampleHost]
  have h3 : ⌊(1 / 24 : ℚ) / (exampleHost (1 / 10000)).EPSILON⌋₊ + 2 ≤ 1000 := by
    have : ⌊(1 / 24 : ℚ) / (exampleHost (1 / 10000)).EPSILON⌋₊ ≤ 998 :=
      Nat.floor_le_of_le (by norm_num [exampleHost])
    omega
  exact ⟨⟨h1, by norm_num, h3⟩,
    substep_loop_terminates (exampleHost (1 / 10000)) exampleParams exampleFields 0 (1 / 24)
      (fun _ => 0) (fun _ => 0) [centredParticle] 1000 h1 (by norm_num) h3⟩

/-! ## The position limit -/

theorem limitValue_mem (P : Params) (i : Fin 3) (x : ℚ)
    (h : P.bbox_min_limit i ≤ P.bbox_max_limit i) :
    P.bbox_min_limit i ≤ limitValue P i x ∧ limitValue P i x ≤ P.bbox_max_limit i := by
  unfold limitValue
  split_ifs with h1 h2
  · exact ⟨h, le_rfl⟩
  · exact ⟨le_rfl, h⟩
  · exact ⟨not_lt.mp h2, not_lt.mp h1⟩

theorem limitAxis_fst (P : Params) (s : Vec3 × Vec3) (i : Fin 3) :
    (limitAxis P s i).1 = Function.update s.1 i (limitValue P i (s.1 i)) := by
  unfold limitAxis limitValue
  split_ifs <;> simp

/-- The position stored by the limit: each axis brought into its interval. -/
theorem limitPosition_fst (P : Params) (pos vel : Vec3) (i : Fin 3) :
    (limitPosition P pos vel).1 i = limitValue P i (pos i) := by
  unfold limitPosition
  simp only [List.foldl_cons, List.foldl_nil, limitAxis_fst]
  fin_cases i <;> simp [Function.update]

theorem mem_gatherParticles (H : Host) (P : Params) (G : Geometry) (C : Collider) (g : Grid)
    (timestep : ℚ) (ps : List Particle) :
    ∀ (c : Carried) (q : Particle), q ∈ (gatherParticles H P G C g timestep c ps).2 →
      ∃ c1 p, p ∈ ps ∧ q = (gatherParticle H P G C g timestep c1 p).2 := by
  induction ps with
  | nil =>
    intro c q hq
    simp [gatherParticles] at hq
  | cons p ps ih =>
    intro c q hq
    rw [gatherParticles] at hq
    rcases List.mem_cons.mp hq with h | h
    · exact ⟨c, p, List.mem_cons_self _ _, h⟩
    · obtain ⟨c1, p1, hp1, hq1⟩ := ih _ q h
      exact ⟨c1, p1, List.mem_cons_of_mem _ hp1, hq1⟩

theorem gatherParticle_position (H : Host) (P : Params) (G : Geometry) (C : Collider)
    (g : Grid) (timestep : ℚ) (c : Carried) (p : Particle) (i : Fin 3) :
    (gatherParticle H P G C g timestep c p).2.position i =
      limitValue P i
        (p.position i + timestep * gatheredVelocity H P G C g c.sdf_normal p i) := by
  simp only [gatherParticle, limitPosition_fst]

/-- C10. For domain bounds with `bbox_min_limit <= bbox_max_limit` on every axis, after
the position integration `pos += dt*vel` and the clamp of a substep, every stored position
satisfies `bbox_min_limit[i] <= pos[i] <= bbox_max_limit[i]` on every axis, for every `dt`
and velocity. -/
theorem position_within_limits (H : Host) (P : Params) (time timestep : ℚ) (R : Resized)
    (bbox_min bbox_max : Vec3) (ps : List Particle)
    (hb : ∀ i, P.bbox_min_limit i ≤ P.bbox_max_limit i) :
    ∀ q ∈ (substep H P time timestep R bbox_min bbox_max ps).2, ∀ i,
      P.bbox_min_limit i ≤ q.position i ∧ q.position i ≤ P.bbox_max_limit i := by
  intro q hq i
  unfold substep at hq
  obtain ⟨c1, p, _, rfl⟩ := mem_gatherParticles H P _ _ _ _ _ _ q hq
  rw [gatherParticle_position]
  exact limitValue_mem P i _ (hb i)

/-- Witness of C10: the example particle in the example domain `[-100, 100]^3`. -/
theorem position_within_limits_witness :
    (∀ i, exampleParams.bbox_min_limit i ≤ exampleParams.bbox_max_limit i) ∧
    ∀ q ∈ (substep (exampleHost 0) exampleParams 0 (1 / 24)
        (exampleFields.resizeGrid 0 (fun _ => 7) (fun _ => 7 / 2)) (fun _ => 0) (fun _ => 0)
        [centredParticle]).2, ∀ i,
      exampleParams.bbox_min_limit i ≤ q.position i ∧
        q.position i ≤ exampleParams.bbox_max_limit i :=
  ⟨fun _ => by norm_num [exampleParams],
    position_within_limits (exampleHost 0) exampleParams 0 (1 / 24)
      (exampleFields.resizeGrid 0 (fun _ => 7) (fun _ => 7 / 2)) (fun _ => 0) (fun _ => 0)
      [centredParticle] (fun _ => by norm_num [exampleParams])⟩

/-- Witness of C7: the 7 x 7 x 7 grid with arrays full of ones, at voxel `(3, 3, 3)`. -/
theorem reset_zeroes_fields_witness :
    (resetGrid (7, 7, 7)
        (fun _ => { g_mass := 1, g_active := 1, g_ovel := fun _ => 1, g_nvel := fun _ => 1 })
        (3, 3, 3)).g_mass = 0 ∧
      (resetGrid (7, 7, 7)
        (fun _ => { g_mass := 1, g_active := 1, g_ovel := fun _ => 1, g_nvel := fun _ => 1 })
        (3, 3, 3)).g_active = 0 ∧
      (∀ i, (resetGrid (7, 7, 7)
        (fun _ => { g_mass := 1, g_active := 1, g_ovel := fun _ => 1, g_nvel := fun _ => 1 })
        (3, 3, 3)).g_ovel i = 0) ∧
      (∀ i, (resetGrid (7, 7, 7)
        (fun _ => { g_mass := 1, g_active := 1, g_ovel := fun _ => 1, g_nvel := fun _ => 1 })
        (3, 3, 3)).g_nvel i = 0) :=
  reset_zeroes_fields (7, 7, 7) _ 3 3 3 (by decide) (by decide) (by decide)

/-! ## A single particle: the values at the voxels of its stencil -/

theorem zip_map_self {α β : Type} (f : α → β) (l : List α) :
    l.zip (l.map f) = l.map fun a => (a, f a) := by
  induction l with
  | nil => rfl
  | cons a l ih => simp [ih]

theorem weightEntries_eq (H : Host) (P : Params) (G : Geometry) (p : Particle) :
    (particleStencil P G p).zip (cachedWeights H P G p) =
      (particleStencil P G p).map fun n =>
        (n, nodeWeight H (gridPos G.grid_origin P.division_size p.position) n) := by
  unfold cachedWeights
  exact zip_map_self _ _

theorem stencilEntries_eq (H : Host) (P : Params) (G : Geometry) (p : Particle) :
    stencilEntries H P G p =
      (particleStencil P G p).map fun n =>
        (n, nodeWeight H (gridPos G.grid_origin P.division_size p.position) n,
          nodeWeightGradient H (gridPos G.grid_origin P.division_size p.position) n) := by
  unfold stencilEntries cachedWeights cachedWeightGradients
  generalize particleStencil P G p = l
  induction l with
  | nil => rfl
  | cons a l ih => simp [ih]

theorem nodup_axisRange (c : Int) : (axisRange c).Nodup := by
  unfold axisRange
  simp only [List.nodup_cons, List.mem_cons, List.mem_singleton, List.not_mem_nil,
    List.nodup_nil, and_true, not_false_eq_true, or_false]
  omega

theorem nodup_stencil (c : Node) : (stencil c).Nodup := by
  unfold stencil
  refine List.nodup_flatMap.mpr ⟨fun z _ => ?_, ?_⟩
  · refine List.nodup_flatMap.mpr ⟨fun y _ => ?_, ?_⟩
    · exact (nodup_axisRange _).map (fun a b h => by simpa using h)
    · refine List.Pairwise.imp ?_ (nodup_axisRange c.2.1)
      intro a b hab
      simp only [Function.onFun, List.disjoint_left, List.mem_map]
      rintro n ⟨x, _, rfl⟩ ⟨x2, _, h2⟩
      simp only [Prod.mk.injEq] at h2
      exact hab h2.2.1.symm
  · refine List.Pairwise.imp ?_ (nodup_axisRange c.2.2)
    intro a b hab
    simp only [Function.onFun, List.disjoint_left, List.mem_flatMap, List.mem_map]
    rintro n ⟨y1, _, x1, _, rfl⟩ ⟨y2, _, x2, _, h2⟩
    simp only [Prod.mk.injEq] at h2
    exact hab h2.2.2.symm

/-- A fold of single-voxel updates leaves alone the voxels that are not in the list. -/
theorem foldl_local_not_mem {β : Type} (grid_divs : Node) (F : Node × β → NodeData → NodeData)
    (step : Grid → Node × β → Grid)
    (hstep : ∀ g nb m, step g nb m =
      if m = nb.1 ∧ isValidIndex grid_divs nb.1 then F nb (g m) else g m)
    (l : List (Node × β)) (g : Grid) (m : Node) (hm : m ∉ l.map Prod.fst) :
    l.foldl step g m = g m := by
  induction l generalizing g with
  | nil => rfl
  | cons a l ih =>
    rw [List.foldl_cons, ih _ (fun h => hm (by simp [h])), hstep]
    have : m ≠ a.1 := fun h => hm (by simp [h])
    simp [this]

/-- A fold of single-voxel updates over distinct voxels applies each update once. -/
theorem foldl_local_mem {β : Type} (grid_divs : Node) (F : Node × β → NodeData → NodeData)
    (step : Grid → Node × β → Grid)
    (hstep : ∀ g nb m, step g nb m =
      if m = nb.1 ∧ isValidIndex grid_divs nb.1 then F nb (g m) else g m)
    (l : List (Node × β)) (hl : (l.map Prod.fst).Nodup) (g : Grid) (nb : Node × β)
    (hmem : nb ∈ l) (hv : isValidIndex grid_divs nb.1) :
    l.foldl step g nb.1 = F nb (g nb.1) := by
  induction l generalizing g with
  | nil => simp at hmem
  | cons a l ih =>
    rw [List.map_cons, List.nodup_cons] at hl
    rw [List.foldl_cons]
    rcases List.mem_cons.mp hmem with h | h
    · subst h
      rw [foldl_local_not_mem grid_divs F step hstep l _ _ hl.1, hstep]
      simp [hv]
    · rw [ih hl.2 _ h, hstep]
      have : nb.1 ≠ a.1 := fun e => hl.1 (e ▸ List.mem_map_of_mem Prod.fst h)
      simp [this]

theorem massStep_local (P : Params) (grid_divs : Node) (g : Grid) (nw : Node × ℚ) (m : Node) :
    Grid.modify grid_divs g nw.1 (addMass P nw.2) m =
      if m = nw.1 ∧ isValidIndex grid_divs nw.1 then addMass P nw.2 (g m) else g m :=
  modify_apply grid_divs g nw.1 m _

theorem velocityStep_local (H : Host) (grid_divs : Node) (vel_fac : Vec3) (g : Grid)
    (nw : Node × ℚ) (m : Node) :
    velocityStep H grid_divs vel_fac g nw m =
      if m = nw.1 ∧ isValidIndex grid_divs nw.1 then
        (if nw.2 > H.EPSILON then addVelocity vel_fac nw.2 (g m) else g m)
      else g m := by
  unfold velocityStep
  by_cases hw : nw.2 > H.EPSILON
  · simp only [hw, if_true, modify_apply]
  · simp only [hw, if_false, ite_self]

/-- The mass scatter of one particle, read at a valid voxel of its stencil. -/
theorem transferMassParticle_apply (H : Host) (P : Params) (G : Geometry) (g : Grid)
    (p : Particle) (n : Node) (hn : n ∈ particleStencil P G p)
    (hv : isValidIndex G.grid_divs n) :
    transferMassParticle H P G g p n =
      addMass P (nodeWeight H (gridPos G.grid_origin P.division_size p.position) n) (g n) := by
  unfold transferMassParticle
  rw [weightEntries_eq]
  have hl : (((particleStencil P G p).map fun n =>
      (n, nodeWeight H (gridPos G.grid_origin P.division_size p.position) n)).map
        Prod.fst).Nodup := by
    rw [List.map_map]
    have : (Prod.fst ∘ fun n : Node =>
        (n, nodeWeight H (gridPos G.grid_origin P.division_size p.position) n)) = id := rfl
    rw [this, List.map_id]
    exact nodup_stencil _
  exact foldl_local_mem G.grid_divs (fun nw d => addMass P nw.2 d)
    (fun (g : Grid) (nw : Node × ℚ) => Grid.modify G.grid_divs g nw.1 (addMass P nw.2))
    (massStep_local P G.grid_divs) _ hl g
    (n, nodeWeight H (gridPos G.grid_origin P.division_size p.position) n)
    (List.mem_map_of_mem _ hn) hv

/-- The velocity scatter of one particle, read at a valid voxel of its stencil. -/
theorem transferVelocityParticle_apply (H : Host) (P : Params) (G : Geometry) (g : Grid)
    (p : Particle) (n : Node) (hn : n ∈ particleStencil P G p)
    (hv : isValidIndex G.grid_divs n) :
    transferVelocityParticle H P G g p n =
      if nodeWeight H (gridPos G.grid_origin P.division_size p.position) n > H.EPSILON then
        addVelocity (fun i => p.velocity i * P.particle_mass)
          (nodeWeight H (gridPos G.grid_origin P.division_size p.position) n) (g n)
      else g n := by
  unfold transferVelocityParticle
  rw [weightEntries_eq]
  have hl : (((particleStencil P G p).map fun n =>
      (n, nodeWeight H (gridPos G.grid_origin P.division_size p.position) n)).map
        Prod.fst).Nodup := by
    rw [List.map_map]
    have : (Prod.fst ∘ fun n : Node =>
        (n, nodeWeight H (gridPos G.grid_origin P.division_size p.position) n)) = id := rfl
    rw [this, List.map_id]
    exact nodup_stencil _
  exact foldl_local_mem G.grid_divs
    (fun nw d => if nw.2 > H.EPSILON then
      addVelocity (fun i => p.velocity i * P.particle_mass) nw.2 d else d)
    (velocityStep H G.grid_divs fun i => p.velocity i * P.particle_mass)
    (velocityStep_local H G.grid_divs _) _ hl g
    (n, nodeWeight H (gridPos G.grid_origin P.division_size p.position) n)
    (List.mem_map_of_mem _ hn) hv

/-! ## An undeformed particle exerts no force -/

/-- The singular values of the identity are all 1. -/
theorem svd_one_values (usv : Mat3 × Vec3 × Mat3) (h : IsSVD 1 usv) (i : Fin 3) :
    usv.2.1 i = 1 := by
  obtain ⟨hA, hU, hV, hs⟩ := h
  have hsv : IsSingularValue (usv.1 * Matrix.diagonal usv.2.1 * usv.2.2.transpose)
      (usv.2.1 i) :=
    (singularValue_of_factors _ _ _ hU hV hs _).mpr ⟨i, rfl⟩
  rw [← hA] at hsv
  obtain ⟨_, v, hv, hev⟩ := hsv
  rw [Matrix.transpose_one, Matrix.one_mul, Matrix.one_mulVec] at hev
  obtain ⟨j, hj⟩ := Function.ne_iff.mp hv
  have hj2 := congrFun hev j
  simp only [Pi.smul_apply, smul_eq_mul] at hj2
  have h1 : usv.2.1 i * usv.2.1 i = 1 := by
    have : (usv.2.1 i * usv.2.1 i - 1) * v j = 0 := by linarith
    rcases mul_eq_zero.mp this with h | h
    · linarith
    · exact absurd h hj
  have h0 := hs i
  nlinarith

/-- The factors of a decomposition of the identity satisfy `U V^T = I`. -/
theorem svd_one_factors (usv : Mat3 × Vec3 × Mat3) (h : IsSVD 1 usv) :
    usv.1 * usv.2.2.transpose = 1 := by
  have hd : Matrix.diagonal usv.2.1 = 1 := by
    have : usv.2.1 = fun _ => 1 := funext (svd_one_values usv h)
    rw [this]
    exact Matrix.diagonal_one
  have hA := h.1
  rw [hd, Matrix.mul_one] at hA
  exact hA.symm

/-- With `Fe = Fp = I`, a decomposition of the identity and the interval around 1, the
plasticity step keeps `def_elastic = def_plastic = I` and the energy derivative is 0. -/
theorem constitutive_identity (H : Host) (P : Params) (p : Particle) (hFe : p.Fe = 1)
    (hFp : p.Fp = 1) (hsvd : IsSVD 1 (H.svd 1))
    (hc : P.CRIT_COMPRESS ≤ 1 ∧ 1 ≤ P.CRIT_STRETCH) :
    (constitutive H P p).def_elastic = 1 ∧ (constitutive H P p).def_plastic = 1 ∧
      (constitutive H P p).energy = 0 := by
  have hmap : eigenMap (1 : Mat3) = 1 := Matrix.transpose_one
  have he : ∀ i, clampSingular P ((H.svd 1).2.1 i) = 1 := by
    intro i
    rw [svd_one_values _ hsvd i]
    exact clampSingular_of_mem P 1 hc.1 hc.2
  have hUV := svd_one_factors _ hsvd
  have hVU : (H.svd 1).2.2 * (H.svd 1).1.transpose = 1 := by
    have := congrArg Matrix.transpose hUV
    rw [Matrix.transpose_mul, Matrix.transpose_transpose, Matrix.transpose_one] at this
    exact this
  have hd : (Matrix.diagonal fun i => clampSingular P ((H.svd 1).2.1 i)) = (1 : Mat3) := by
    rw [funext he]
    exact Matrix.diagonal_one
  have hdi : (Matrix.diagonal fun i => (clampSingular P ((H.svd 1).2.1 i))⁻¹) = (1 : Mat3) := by
    have : (fun i => (clampSingular P ((H.svd 1).2.1 i))⁻¹) = fun _ => (1 : ℚ) := by
      funext i
      rw [he i, inv_one]
    rw [this]
    exact Matrix.diagonal_one
  have h1 : (constitutive H P p).def_elastic = 1 := by
    simp only [constitutive, hFe, hmap, hd, Matrix.mul_one, hUV]
  have h2 : (constitutive H P p).def_plastic = 1 := by
    simp only [constitutive, hFe, hFp, hmap, hdi, Matrix.mul_one, hVU]
  refine ⟨h1, h2, ?_⟩
  have hz : (Matrix.diagonal fun _ : Fin 3 => (0 : ℚ)) = 0 := Matrix.diagonal_zero
  simp only [constitutive, hFe, hFp, hmap, hd, hdi]
  simp only [Matrix.mul_one, hUV, he, sub_self, Matrix.zero_mul, smul_zero, mul_one, mul_zero,
    zero_add, hz]

theorem applyPlasticity_identity (H : Host) (P : Params) (p : Particle) (hFe : p.Fe = 1)
    (hFp : p.Fp = 1) (hsvd : IsSVD 1 (H.svd 1))
    (hc : P.CRIT_COMPRESS ≤ 1 ∧ 1 ≤ P.CRIT_STRETCH) :
    (applyPlasticity H P p).Fe = 1 ∧ (applyPlasticity H P p).Fp = 1 ∧
      (applyPlasticity H P p).position = p.position ∧
      (applyPlasticity H P p).velocity = p.velocity := by
  obtain ⟨h1, h2, _⟩ := constitutive_identity H P p hFe hFp hsvd hc
  refine ⟨?_, ?_, rfl, rfl⟩
  · simp only [applyPlasticity, h1, eigenMap, Matrix.transpose_one]
  · simp only [applyPlasticity, h2, eigenMap, Matrix.transpose_one]

theorem addForce_zero (ngrad : Vec3) (d : NodeData) : addForce ngrad (eigenMap 0) d = d := by
  cases d
  simp [addForce, eigenMap]

theorem modify_self (grid_divs : Node) (g : Grid) (n : Node) (f : NodeData → NodeData)
    (hf : f (g n) = g n) : Grid.modify grid_divs g n f = g := by
  unfold Grid.modify
  split
  · rw [hf, Function.update_eq_self]
  · rfl

/-- A particle whose energy derivative is 0 scatters no force. -/
theorem transferForceParticle_zero (H : Host) (P : Params) (G : Geometry) (g : Grid)
    (p : Particle) (he : (constitutive H P p).energy = 0) :
    transferForceParticle H P G g p = g := by
  unfold transferForceParticle
  rw [he]
  refine foldl_invariant (forceStep H G.grid_divs (eigenMap 0)) (fun g' : Grid => g' = g)
    (stencilEntries H P G p) g rfl ?_
  intro g1 e _ h1
  rw [h1]
  unfold forceStep
  split
  · exact modify_self _ _ _ _ (addForce_zero _ _)
  · rfl

theorem transferForce_zero (H : Host) (P : Params) (G : Geometry) (g : Grid)
    (ps : List Particle) (he : ∀ p ∈ ps, (constitutive H P p).energy = 0) :
    transferForce H P G g ps = g := by
  unfold transferForce
  refine foldl_invariant (transferForceParticle H P G) (fun g' : Grid => g' = g) ps g rfl ?_
  intro g1 p hp h1
  rw [h1]
  exact transferForceParticle_zero H P G g p (he p hp)

/-! ## No collider -/

/-- Where the collision SDF is nowhere positive, the grid collision changes nothing. -/
theorem gridCollision_no_collider (H : Host) (P : Params) (C : Collider) (grid_divs : Node)
    (s : Grid × Vec3) (hcol : ∀ n, C.g_col n ≤ 0) :
    gridCollision H P C grid_divs s = s := by
  unfold gridCollision
  refine foldl_invariant (gridCollisionStep H P C grid_divs) (fun s' : Grid × Vec3 => s' = s)
    (interiorNodes grid_divs) s rfl ?_
  intro s1 n _ h1
  rw [h1]
  unfold gridCollisionStep
  have hn : computeSDFNormal H C.g_col n s.2 = (false, s.2) := by
    unfold computeSDFNormal
    rw [if_pos (hcol n)]
  rw [hn]
  split
  · simp
  · rfl

/-- Where the collision SDF is nowhere positive, the SDF sampled at a particle is not
positive. -/
theorem sampleCollider_no_collider (H : Host) (P : Params) (G : Geometry) (C : Collider)
    (sdf_normal : Vec3) (p : Particle) (hcol : ∀ n, C.g_col n ≤ 0) :
    (sampleCollider H P G C sdf_normal p).col_sdf ≤ 0 ∧
      (sampleCollider H P G C sdf_normal p).sdf_normal = sdf_normal := by
  unfold sampleCollider
  refine foldl_invariant (sampleStep H C (gridPos G.grid_origin P.division_size p.position))
    (fun a : Sampled => a.col_sdf ≤ 0 ∧ a.sdf_normal = sdf_normal) _ _ ⟨le_refl _, rfl⟩ ?_
  intro a n _ ha
  have hn : computeSDFNormal H C.g_col n a.sdf_normal = (false, a.sdf_normal) := by
    unfold computeSDFNormal
    rw [if_pos (hcol n)]
  simp only [sampleStep, hn]
  refine ⟨?_, ha.2⟩
  have := mul_nonpos_of_nonpos_of_nonneg (hcol n)
    (abs_nonneg ((gridPos G.grid_origin P.division_size p.position 2 - n.2.2) *
      (gridPos G.grid_origin P.division_size p.position 1 - n.2.1) *
      (gridPos G.grid_origin P.division_size p.position 0 - n.1)))
  linarith [ha.1]

theorem particleContact_no_collider (H : Host) (P : Params) (vel col_vel col_normal : Vec3)
    (col_sdf : ℚ) (h : col_sdf ≤ 0) :
    particleContact H P vel col_vel col_normal col_sdf = vel := by
  unfold particleContact
  rw [if_neg (not_lt.mpr h)]

/-! ## No domain clamp -/

theorem limitAxis_inside (P : Params) (s : Vec3 × Vec3) (i : Fin 3)
    (h : P.bbox_min_limit i ≤ s.1 i ∧ s.1 i ≤ P.bbox_max_limit i) : limitAxis P s i = s := by
  unfold limitAxis
  rw [if_neg (not_lt.mpr h.2), if_neg (not_lt.mpr h.1)]

/-- A position inside the domain bounds is stored as it is, with its velocity. -/
theorem limitPosition_inside (P : Params) (pos vel : Vec3)
    (h : ∀ i, P.bbox_min_limit i ≤ pos i ∧ pos i ≤ P.bbox_max_limit i) :
    limitPosition P pos vel = (pos, vel) := by
  unfold limitPosition
  simp only [List.foldl_cons, List.foldl_nil]
  rw [limitAxis_inside P (pos, vel) 0 (h 0), limitAxis_inside P (pos, vel) 1 (h 1),
    limitAxis_inside P (pos, vel) 2 (h 2)]

/-! ## One substep of a single undeformed particle without collider -/

theorem estimateVolumes_single (H : Host) (P : Params) (G : Geometry) (time : ℚ) (g : Grid)
    (p : Particle) :
    ∃ q, estimateVolumes H P G time g [p] = [q] ∧ q.position = p.position ∧
      q.velocity = p.velocity ∧ q.Fe = p.Fe ∧ q.Fp = p.Fp := by
  unfold estimateVolumes
  by_cases ht : time = 0
  · exact ⟨estimateVolume H P G g p, by simp [ht], rfl, rfl, rfl, rfl⟩
  · exact ⟨p, by simp [ht], rfl, rfl, rfl, rfl⟩

theorem particleStencil_congr (P : Params) (G : Geometry) (p q : Particle)
    (h : q.position = p.position) : particleStencil P G q = particleStencil P G p := by
  unfold particleStencil
  rw [h]

theorem stencilEntries_congr (H : Host) (P : Params) (G : Geometry) (p q : Particle)
    (h : q.position = p.position) : stencilEntries H P G q = stencilEntries H P G p := by
  rw [stencilEntries_eq, stencilEntries_eq, particleStencil_congr P G p q h, h]

/-- The grid before the gather, for a single particle whose energy derivative is 0 and
without collider, at a voxel of the stencil whose weight `w` passes the guard: the mass is
`w * particle_mass`, the old velocity the scattered momentum divided by it, and the new
velocity the old one advanced by `timestep * GRAVITY`. -/
theorem single_particle_node (H : Host) (P : Params) (time timestep : ℚ) (R : Resized)
    (p : Particle)
    (hE : ∀ q : Particle, q.Fe = p.Fe → q.Fp = p.Fp → (constitutive H P q).energy = 0)
    (hcol : ∀ n, R.collider.g_col n ≤ 0) (n : Node)
    (hn : n ∈ particleStencil P R.geometry p) (hv : isValidIndex R.geometry.grid_divs n)
    (hw : nodeWeight H (gridPos R.geometry.grid_origin P.division_size p.position) n >
      H.EPSILON) :
    ((substepGrid H P time timestep R [p]).1 n).g_mass =
        0 + nodeWeight H (gridPos R.geometry.grid_origin P.division_size p.position) n *
          P.particle_mass ∧
      ((substepGrid H P time timestep R [p]).1 n).g_ovel =
        (fun i => (0 + p.velocity i * P.particle_mass *
          nodeWeight H (gridPos R.geometry.grid_origin P.division_size p.position) n) *
          (1 / (0 + nodeWeight H (gridPos R.geometry.grid_origin P.division_size p.position) n *
            P.particle_mass))) ∧
      ((substepGrid H P time timestep R [p]).1 n).g_nvel =
        (fun k => (0 + p.velocity k * P.particle_mass *
          nodeWeight H (gridPos R.geometry.grid_origin P.division_size p.position) n) *
          (1 / (0 + nodeWeight H (gridPos R.geometry.grid_origin P.division_size p.position) n *
            P.particle_mass)) +
          timestep * (P.GRAVITY k - 0 *
            (1 / (0 + nodeWeight H (gridPos R.geometry.grid_origin P.division_size p.position)
              n * P.particle_mass)))) := by
  obtain ⟨q, hq, hpos, hvel, hFe, hFp⟩ := estimateVolumes_single H P R.geometry time
    (transferMass H P R.geometry (resetGrid R.geometry.grid_divs R.grid) [p]) p
  have hg1 : transferMass H P R.geometry (resetGrid R.geometry.grid_divs R.grid) [p] n =
      addMass P (nodeWeight H (gridPos R.geometry.grid_origin P.division_size p.position) n)
        zeroNode := by
    simp only [transferMass, List.foldl_cons, List.foldl_nil]
    rw [transferMassParticle_apply H P R.geometry _ p n hn hv, resetGrid_apply, if_pos hv]
  have hg2 : transferVelocity H P R.geometry
      (transferMass H P R.geometry (resetGrid R.geometry.grid_divs R.grid) [p]) [q] n =
      addVelocity (fun i => p.velocity i * P.particle_mass)
        (nodeWeight H (gridPos R.geometry.grid_origin P.division_size p.position) n)
        (addMass P (nodeWeight H (gridPos R.geometry.grid_origin P.division_size p.position) n)
          zeroNode) := by
    simp only [transferVelocity, List.foldl_cons, List.foldl_nil]
    rw [transferVelocityParticle_apply H P R.geometry _ q n
      (by rw [particleStencil_congr P R.geometry p q hpos]; exact hn) hv, hpos, hvel, if_pos hw,
      hg1]
  have hgrid : (substepGrid H P time timestep R [p]).1 n =
      integrateNode P timestep (divideByMass
        (addVelocity (fun i => p.velocity i * P.particle_mass)
          (nodeWeight H (gridPos R.geometry.grid_origin P.division_size p.position) n)
          (addMass P
            (nodeWeight H (gridPos R.geometry.grid_origin P.division_size p.position) n)
            zeroNode))) := by
    simp only [substepGrid]
    rw [gridCollision_no_collider H P R.collider R.geometry.grid_divs _ hcol, hq,
      transferForce_zero H P R.geometry _ [q]
        (fun q' hq' => by
          rw [List.mem_singleton] at hq'
          subst hq'
          exact hE _ hFe hFp)]
    simp only [integrateForces, normalizeVelocity]
    rw [forNodes_apply, if_pos hv, forNodes_apply, if_pos hv, hg2]
  rw [hgrid]
  simp [integrateNode, divideByMass, addVelocity, addMass, zeroNode]

/-- The gather over stencil entries whose voxels, when their weight passes the guard, all
hold the new velocity `c` and the old velocity `c0`. -/
theorem gather_uniform (H : Host) (g : Grid) (c c0 : Vec3) (l : List (Node × ℚ × Vec3))
    (a : Gathered)
    (h : ∀ e ∈ l, e.2.1 > H.EPSILON → (g e.1).g_nvel = c ∧ (g e.1).g_ovel = c0) :
    (∀ k, (l.foldl (gatherStep H g) a).pic k =
        a.pic k + c k * ((l.filter fun e => e.2.1 > H.EPSILON).map fun e => e.2.1).sum) ∧
      (∀ k, (l.foldl (gatherStep H g) a).flip k =
        a.flip k + (c k - c0 k) *
          ((l.filter fun e => e.2.1 > H.EPSILON).map fun e => e.2.1).sum) ∧
      (∀ i j, (l.foldl (gatherStep H g) a).vel_grad i j =
        a.vel_grad i j + c i *
          ((l.filter fun e => e.2.1 > H.EPSILON).map fun e => e.2.2 j).sum) := by
  induction l generalizing a with
  | nil => simp
  | cons e l ih =>
    rw [List.foldl_cons]
    obtain ⟨h1, h2, h3⟩ := ih (gatherStep H g a e)
      (fun e' he' => h e' (List.mem_cons_of_mem _ he'))
    by_cases hw : e.2.1 > H.EPSILON
    · obtain ⟨hc, hc0⟩ := h e (List.mem_cons_self _ _) hw
      have hstep : gatherStep H g a e =
          { pic := fun k => a.pic k + c k * e.2.1
            flip := fun k => a.flip k + (c k - c0 k) * e.2.1
            density := a.density + e.2.1 * (g e.1).g_mass
            vel_grad := a.vel_grad + Matrix.of fun i j => 1 * c i * e.2.2 j } := by
        simp only [gatherStep, hw, if_true, hc, hc0]
      refine ⟨fun k => ?_, fun k => ?_, fun i j => ?_⟩
      · rw [h1 k, hstep]
        simp only [List.filter_cons, hw, decide_True, if_true, List.map_cons, List.sum_cons]
        ring
      · rw [h2 k, hstep]
        simp only [List.filter_cons, hw, decide_True, if_true, List.map_cons, List.sum_cons]
        ring
      · rw [h3 i j, hstep]
        simp only [List.filter_cons, hw, decide_True, if_true, List.map_cons, List.sum_cons,
          Matrix.add_apply, Matrix.of_apply]
        ring
    · have hstep : gatherStep H g a e = a := by
        simp only [gatherStep, hw, if_false]
      rw [hstep] at h1 h2 h3 ⊢
      refine ⟨fun k => ?_, fun k => ?_, fun i j => ?_⟩
      · rw [h1 k]
        simp only [List.filter_cons, hw, decide_False, Bool.false_eq_true, if_false]
      · rw [h2 k]
        simp only [List.filter_cons, hw, decide_False, Bool.false_eq_true, if_false]
      · rw [h3 i j]
        simp only [List.filter_cons, hw, decide_False, Bool.false_eq_true, if_false]

theorem usedWeightSum_entries (H : Host) (P : Params) (G : Geometry) (p : Particle) :
    (((stencilEntries H P G p).filter fun e => e.2.1 > H.EPSILON).map fun e => e.2.1).sum =
      usedWeightSum H P G p := by
  unfold usedWeightSum cachedWeights
  rw [stencilEntries_eq]
  generalize particleStencil P G p = l
  induction l with
  | nil => rfl
  | cons n l ih =>
    by_cases hw : nodeWeight H (gridPos G.grid_origin P.division_size p.position) n > H.EPSILON
    · simp only [List.map_cons, List.filter_cons, hw, decide_True, if_true, List.sum_cons, ih]
    · simp only [List.map_cons, List.filter_cons, hw, decide_False, Bool.false_eq_true,
        if_false, ih]

/-- One substep of a single particle with `Fe = Fp = I` and without collider, all voxels of
its stencil being in the grid: when the voxels whose weight passes the guard hold the old
velocity `c0` and the new velocity `c`, the particle is stored with `Fp = I`, with the
blend of `flip = p_vel + (c - c0) * S` and `pic = c * S` as velocity, `S` being the sum of
the weights that pass the guard, and with `Fe = I + timestep * c (x) SG`, `SG` being the
sum of the weight gradients that pass it; position and velocity then go through the
position limit. -/
theorem substep_single (H : Host) (P : Params) (time timestep : ℚ) (R : Resized)
    (bbox_min bbox_max : Vec3) (p : Particle) (c c0 : Vec3) (hFe : p.Fe = 1) (hFp : p.Fp = 1)
    (hsvd : IsSVD 1 (H.svd 1)) (hc : P.CRIT_COMPRESS ≤ 1 ∧ 1 ≤ P.CRIT_STRETCH)
    (hcol : ∀ n, R.collider.g_col n ≤ 0)
    (hval : ∀ n ∈ particleStencil P R.geometry p,
      nodeWeight H (gridPos R.geometry.grid_origin P.division_size p.position) n > H.EPSILON →
      ((substepGrid H P time timestep R [p]).1 n).g_ovel = c0 ∧
        ((substepGrid H P time timestep R [p]).1 n).g_nvel = c) :
    ∃ q, (substep H P time timestep R bbox_min bbox_max [p]).2 = [q] ∧ q.Fp = 1 ∧
      q.velocity = (limitPosition P
        (fun i => p.position i + timestep *
          ((p.velocity i + (c i - c0 i) * usedWeightSum H P R.geometry p) * P.FLIP_PERCENT +
            (0 + c i * usedWeightSum H P R.geometry p) * (1 - P.FLIP_PERCENT)))
        (fun i => (p.velocity i + (c i - c0 i) * usedWeightSum H P R.geometry p) *
            P.FLIP_PERCENT +
          (0 + c i * usedWeightSum H P R.geometry p) * (1 - P.FLIP_PERCENT))).2 ∧
      q.position = (limitPosition P
        (fun i => p.position i + timestep *
          ((p.velocity i + (c i - c0 i) * usedWeightSum H P R.geometry p) * P.FLIP_PERCENT +
            (0 + c i * usedWeightSum H P R.geometry p) * (1 - P.FLIP_PERCENT)))
        (fun i => (p.velocity i + (c i - c0 i) * usedWeightSum H P R.geometry p) *
            P.FLIP_PERCENT +
          (0 + c i * usedWeightSum H P R.geometry p) * (1 - P.FLIP_PERCENT))).1 ∧
      q.Fe = (timestep • (Matrix.of fun i j => 0 + c i * usedGradientSum H P R.geometry p j) +
        1) * 1 := by
  obtain ⟨q0, hq0, hpos0, hvel0, hFe0, hFp0⟩ := estimateVolumes_single H P R.geometry time
    (transferMass H P R.geometry (resetGrid R.geometry.grid_divs R.grid) [p]) p
  obtain ⟨hFe1, hFp1, hpos1, hvel1⟩ := applyPlasticity_identity H P q0 (hFe0.trans hFe)
    (hFp0.trans hFp) hsvd hc
  have hpos : (applyPlasticity H P q0).position = p.position := hpos1.trans hpos0
  have hvel : (applyPlasticity H P q0).velocity = p.velocity := hvel1.trans hvel0
  have hent : stencilEntries H P R.geometry (applyPlasticity H P q0) =
      stencilEntries H P R.geometry p := stencilEntries_congr H P R.geometry p _ hpos
  have hg := gather_uniform H (substepGrid H P time timestep R [p]).1 c c0
    (stencilEntries H P R.geometry p)
    { pic := fun _ => 0, flip := p.velocity, density := 0, vel_grad := 0 }
    (by
      intro e he hw
      rw [stencilEntries_eq] at he
      obtain ⟨n, hn, rfl⟩ := List.mem_map.mp he
      have := hval n hn hw
      exact ⟨this.2, this.1⟩)
  rw [usedWeightSum_entries] at hg
  obtain ⟨hpic, hflip, hgrad⟩ := hg
  have hgather : gather H P R.geometry (substepGrid H P time timestep R [p]).1
      (applyPlasticity H P q0) =
      (stencilEntries H P R.geometry p).foldl
        (gatherStep H (substepGrid H P time timestep R [p]).1)
        { pic := fun _ => 0, flip := p.velocity, density := 0, vel_grad := 0 } := by
    unfold gather
    rw [hent, hvel]
  have hvelocity : ∀ sn : Vec3,
      gatheredVelocity H P R.geometry R.collider (substepGrid H P time timestep R [p]).1 sn
        (applyPlasticity H P q0) =
      fun i => (p.velocity i + (c i - c0 i) * usedWeightSum H P R.geometry p) *
          P.FLIP_PERCENT +
        (0 + c i * usedWeightSum H P R.geometry p) * (1 - P.FLIP_PERCENT) := by
    intro sn
    unfold gatheredVelocity
    rw [particleContact_no_collider H P _ _ _ _
      (sampleCollider_no_collider H P R.geometry R.collider sn _ hcol).1, hgather]
    funext i
    rw [hpic i, hflip i]
  refine ⟨(gatherParticle H P R.geometry R.collider (substepGrid H P time timestep R [p]).1
    timestep
    { sdf_normal := (substepGrid H P time timestep R [p]).2
      bounds := { max_vel := 0, bbox_reset := true, bbox_min := bbox_min,
                  bbox_max := bbox_max } }
    (applyPlasticity H P q0)).2, ?_, ?_, ?_, ?_, ?_⟩
  · simp only [substep, hq0, List.map_cons, List.map_nil, gatherParticles]
  · simp only [gatherParticle, hFp1]
  · simp only [gatherParticle, hvelocity, hpos]
  · simp only [gatherParticle, hvelocity, hpos]
  · simp only [gatherParticle, hFe1, hgather]
    congr 2
    ext i j
    rw [Matrix.smul_apply, Matrix.smul_apply, hgrad i j]
    simp [usedGradientSum]

/-! ## Rest is a fixed point -/

/-- One substep of a single particle at rest with `Fe = Fp = I`, without gravity and
without collider. -/
theorem rest_substep (H : Host) (P : Params) (time timestep : ℚ) (R : Resized)
    (bbox_min bbox_max : Vec3) (p : Particle) (hv : p.velocity = 0) (hFe : p.Fe = 1)
    (hFp : p.Fp = 1) (hg : P.GRAVITY = 0) (hsvd : IsSVD 1 (H.svd 1))
    (hc : P.CRIT_COMPRESS ≤ 1 ∧ 1 ≤ P.CRIT_STRETCH)
    (hdom : ∀ i, P.bbox_min_limit i ≤ p.position i ∧ p.position i ≤ P.bbox_max_limit i)
    (hcol : ∀ n, R.collider.g_col n ≤ 0)
    (hin : ∀ n ∈ particleStencil P R.geometry p, isValidIndex R.geometry.grid_divs n) :
    ∃ q, (substep H P time timestep R bbox_min bbox_max [p]).2 = [q] ∧ q.velocity = 0 ∧
      q.position = p.position ∧ q.Fe = 1 ∧ q.Fp = 1 := by
  have hE : ∀ q : Particle, q.Fe = p.Fe → q.Fp = p.Fp → (constitutive H P q).energy = 0 :=
    fun q h1 h2 => (constitutive_identity H P q (h1.trans hFe) (h2.trans hFp) hsvd hc).2.2
  have hval : ∀ n ∈ particleStencil P R.geometry p,
      nodeWeight H (gridPos R.geometry.grid_origin P.division_size p.position) n > H.EPSILON →
      ((substepGrid H P time timestep R [p]).1 n).g_ovel = 0 ∧
        ((substepGrid H P time timestep R [p]).1 n).g_nvel = 0 := by
    intro n hn hw
    obtain ⟨_, h2, h3⟩ := single_particle_node H P time timestep R p hE hcol n hn (hin n hn) hw
    rw [h2, h3, hv, hg]
    constructor
    · funext i; simp
    · funext i; simp
  obtain ⟨q, hq, hqFp, hqv, hqp, hqFe⟩ := substep_single H P time timestep R bbox_min bbox_max
    p 0 0 hFe hFp hsvd hc hcol hval
  have hvel0 : (fun i => (p.velocity i + ((0 : Vec3) i - (0 : Vec3) i) *
      usedWeightSum H P R.geometry p) * P.FLIP_PERCENT +
      (0 + (0 : Vec3) i * usedWeightSum H P R.geometry p) * (1 - P.FLIP_PERCENT)) =
      (0 : Vec3) := by
    funext i
    rw [hv]
    simp
  have hpos0 : (fun i => p.position i + timestep *
      ((p.velocity i + ((0 : Vec3) i - (0 : Vec3) i) *
      usedWeightSum H P R.geometry p) * P.FLIP_PERCENT +
      (0 + (0 : Vec3) i * usedWeightSum H P R.geometry p) * (1 - P.FLIP_PERCENT))) =
      p.position := by
    funext i
    rw [hv]
    simp
  rw [hvel0, hpos0, limitPosition_inside P p.position 0 hdom] at hqv hqp
  refine ⟨q, hq, hqv, hqp, ?_, hqFp⟩
  rw [hqFe, Matrix.mul_one]
  have : (Matrix.of fun i j => 0 + (0 : Vec3) i * usedGradientSum H P R.geometry p j) =
      (0 : Mat3) := by
    ext i j
    simp
  rw [this, smul_zero, zero_add]

/-- Any number of substeps of a single particle at rest with `Fe = Fp = I`, without
gravity and without collider. -/
theorem rest_substeps (H : Host) (P : Params) (time : ℚ) (hg : P.GRAVITY = 0)
    (hsvd : IsSVD 1 (H.svd 1)) (hc : P.CRIT_COMPRESS ≤ 1 ∧ 1 ≤ P.CRIT_STRETCH)
    (steps : List (ℚ × Resized)) :
    ∀ (bbox_min bbox_max : Vec3) (p : Particle), p.velocity = 0 → p.Fe = 1 → p.Fp = 1 →
      (∀ i, P.bbox_min_limit i ≤ p.position i ∧ p.position i ≤ P.bbox_max_limit i) →
      (∀ st ∈ steps, (∀ n, st.2.collider.g_col n ≤ 0) ∧
        ∀ n ∈ stencil (posToIndex st.2.geometry.grid_origin P.division_size p.position),
          isValidIndex st.2.geometry.grid_divs n) →
      ∃ q, runSubsteps H P time steps bbox_min bbox_max [p] = [q] ∧ q.velocity = 0 ∧
        q.position = p.position ∧ q.Fe = 1 ∧ q.Fp = 1 := by
  induction steps with
  | nil =>
    intro bbox_min bbox_max p hv hFe hFp _ _
    exact ⟨p, rfl, hv, rfl, hFe, hFp⟩
  | cons st steps ih =>
    intro bbox_min bbox_max p hv hFe hFp hdom hsteps
    obtain ⟨hcol, hin⟩ := hsteps st (List.mem_cons_self _ _)
    obtain ⟨q, hq, hqv, hqp, hqFe, hqFp⟩ := rest_substep H P time st.1 st.2 bbox_min bbox_max p
      hv hFe hFp hg hsvd hc hdom hcol hin
    rw [runSubsteps, hq]
    obtain ⟨q2, hq2, h2v, h2p, h2Fe, h2Fp⟩ := ih _ _ q hqv hqFe hqFp (by rw [hqp]; exact hdom)
      (fun st' hst' => by rw [hqp]; exact hsteps st' (List.mem_cons_of_mem _ hst'))
    exact ⟨q2, hq2, h2v, h2p.trans hqp, h2Fe, h2Fp⟩

theorem isSVD_exampleHost (eps : ℚ) : IsSVD 1 ((exampleHost eps).svd 1) := by
  have h := isSVD_exampleHost_one eps
  have hmap : eigenMap (1 : Mat3) = 1 := Matrix.transpose_one
  rw [hmap] at h
  exact h

theorem centredParticle_stencil_valid :
    ∀ n ∈ stencil (posToIndex exampleResized.geometry.grid_origin restParams.division_size
      centredParticle.position), isValidIndex exampleResized.geometry.grid_divs n := by
  intro n hn
  exact centredParticle_inside centredParticle (List.mem_singleton.mpr rfl) n hn

/-- C5. Rest is a fixed point: for a single particle inside the domain bounds with velocity
0 and `Fe = Fp = I`, with gravity 0, no collider (collision SDF <= 0 everywhere) and
`criticalCompression <= 1 <= criticalStretch`, one substep of any length leaves its velocity
0, its position unchanged and `Fe = Fp = I`, and so does any number of substeps. The
decomposition that the SVD returns for the identity is a singular value decomposition, and
the resized grid contains the stencil of the particle. -/
theorem rest_is_fixed_point (H : Host) (P : Params) (time : ℚ) (p : Particle)
    (hv : p.velocity = 0) (hFe : p.Fe = 1) (hFp : p.Fp = 1) (hg : P.GRAVITY = 0)
    (hsvd : IsSVD 1 (H.svd 1)) (hc : P.CRIT_COMPRESS ≤ 1 ∧ 1 ≤ P.CRIT_STRETCH)
    (hdom : ∀ i, P.bbox_min_limit i ≤ p.position i ∧ p.position i ≤ P.bbox_max_limit i) :
    (∀ (timestep : ℚ) (R : Resized) (bbox_min bbox_max : Vec3),
      (∀ n, R.collider.g_col n ≤ 0) →
      (∀ n ∈ stencil (posToIndex R.geometry.grid_origin P.division_size p.position),
        isValidIndex R.geometry.grid_divs n) →
      ∃ q, (substep H P time timestep R bbox_min bbox_max [p]).2 = [q] ∧ q.velocity = 0 ∧
        q.position = p.position ∧ q.Fe = 1 ∧ q.Fp = 1) ∧
    (∀ (steps : List (ℚ × Resized)) (bbox_min bbox_max : Vec3),
      (∀ st ∈ steps, (∀ n, st.2.collider.g_col n ≤ 0) ∧
        ∀ n ∈ stencil (posToIndex st.2.geometry.grid_origin P.division_size p.position),
          isValidIndex st.2.geometry.grid_divs n) →
      ∃ q, runSubsteps H P time steps bbox_min bbox_max [p] = [q] ∧ q.velocity = 0 ∧
        q.position = p.position ∧ q.Fe = 1 ∧ q.Fp = 1) := by
  constructor
  · intro timestep R bbox_min bbox_max hcol hin
    exact rest_substep H P time timestep R bbox_min bbox_max p hv hFe hFp hg hsvd hc hdom hcol hin
  · intro steps bbox_min bbox_max hsteps
    exact rest_substeps H P time hg hsvd hc steps bbox_min bbox_max p hv hFe hFp hdom hsteps

/-- Witness of C5: `centredParticle` without gravity in the 7 x 7 x 7 grid, in the first
frame (`time = 0`), for one substep of `1/24` and for three substeps. -/
theorem rest_is_fixed_point_witness :
    (∃ q, (substep (exampleHost 0) restParams 0 (1 / 24) exampleResized (fun _ => 0)
        (fun _ => 0) [centredParticle]).2 = [q] ∧ q.velocity = 0 ∧
        q.position = centredParticle.position ∧ q.Fe = 1 ∧ q.Fp = 1) ∧
    (∃ q, runSubsteps (exampleHost 0) restParams 0
        [(1 / 24, exampleResized), (1 / 48, exampleResized), (1 / 96, exampleResized)]
        (fun _ => 0) (fun _ => 0) [centredParticle] = [q] ∧ q.velocity = 0 ∧
        q.position = centredParticle.position ∧ q.Fe = 1 ∧ q.Fp = 1) := by
  have h := rest_is_fixed_point (exampleHost 0) restParams 0 centredParticle rfl rfl rfl rfl
    (isSVD_exampleHost 0) (by norm_num [restParams, exampleParams])
    (fun i => by norm_num [restParams, exampleParams, centredParticle])
  have hcol : ∀ n, exampleResized.collider.g_col n ≤ 0 := fun n => by
    norm_num [exampleResized, exampleFields]
  refine ⟨h.1 (1 / 24) exampleResized _ _ hcol centredParticle_stencil_valid,
    h.2 _ _ _ ?_⟩
  intro st hst
  simp only [List.mem_cons, List.mem_singleton, List.not_mem_nil, or_false] at hst
  rcases hst with rfl | rfl | rfl <;> exact ⟨hcol, centredParticle_stencil_valid⟩

/-! ## Free fall -/

theorem limitAxis_snd_cases (P : Params) (s : Vec3 × Vec3) (i : Fin 3) :
    (limitAxis P s i).2 = s.2 ∨ (limitAxis P s i).2 = 0 := by
  unfold limitAxis
  split_ifs
  · exact Or.inr rfl
  · exact Or.inr rfl
  · exact Or.inl rfl

/-- The velocity stored by the position limit is the velocity it was given, or 0. -/
theorem limitPosition_snd_cases (P : Params) (pos vel : Vec3) :
    (limitPosition P pos vel).2 = vel ∨ (limitPosition P pos vel).2 = 0 := by
  have hfold : ∀ (l : List (Fin 3)) (s : Vec3 × Vec3), s.2 = vel ∨ s.2 = 0 →
      (l.foldl (limitAxis P) s).2 = vel ∨ (l.foldl (limitAxis P) s).2 = 0 := by
    intro l
    induction l with
    | nil => intro s hs; exact hs
    | cons i l ih =>
      intro s hs
      rw [List.foldl_cons]
      apply ih
      rcases limitAxis_snd_cases P s i with h | h
      · rw [h]; exact hs
      · exact Or.inr h
  exact hfold [0, 1, 2] (pos, vel) (Or.inl rfl)

/-- The voxels of the stencil whose weight passes the guard hold the particle's velocity as
old velocity and that velocity advanced by `timestep * GRAVITY` as new velocity. -/
theorem free_fall_nodes (H : Host) (P : Params) (time timestep : ℚ) (R : Resized)
    (p : Particle) (hFe : p.Fe = 1) (hFp : p.Fp = 1) (hsvd : IsSVD 1 (H.svd 1))
    (hc : P.CRIT_COMPRESS ≤ 1 ∧ 1 ≤ P.CRIT_STRETCH) (hm : 0 < P.particle_mass)
    (he : 0 ≤ H.EPSILON) (hcol : ∀ n, R.collider.g_col n ≤ 0)
    (hin : ∀ n ∈ particleStencil P R.geometry p, isValidIndex R.geometry.grid_divs n) :
    ∀ n ∈ particleStencil P R.geometry p,
      nodeWeight H (gridPos R.geometry.grid_origin P.division_size p.position) n > H.EPSILON →
      ((substepGrid H P time timestep R [p]).1 n).g_ovel = p.velocity ∧
        ((substepGrid H P time timestep R [p]).1 n).g_nvel =
          fun k => p.velocity k + timestep * P.GRAVITY k := by
  have hE : ∀ q : Particle, q.Fe = p.Fe → q.Fp = p.Fp → (constitutive H P q).energy = 0 :=
    fun q h1 h2 => (constitutive_identity H P q (h1.trans hFe) (h2.trans hFp) hsvd hc).2.2
  intro n hn hw
  obtain ⟨_, h2, h3⟩ := single_particle_node H P time timestep R p hE hcol n hn (hin n hn) hw
  have hw0 : nodeWeight H (gridPos R.geometry.grid_origin P.division_size p.position) n ≠ 0 :=
    ne_of_gt (lt_of_le_of_lt he hw)
  have hm0 : P.particle_mass ≠ 0 := ne_of_gt hm
  rw [h2, h3]
  constructor
  · funext i
    field_simp
    ring
  · funext k
    field_simp
    ring

/-- One substep of free fall. -/
theorem free_fall_substep (H : Host) (P : Params) (time timestep : ℚ) (R : Resized)
    (bbox_min bbox_max : Vec3) (p : Particle) (hFe : p.Fe = 1) (hFp : p.Fp = 1)
    (hsvd : IsSVD 1 (H.svd 1)) (hc : P.CRIT_COMPRESS ≤ 1 ∧ 1 ≤ P.CRIT_STRETCH)
    (hm : 0 < P.particle_mass) (he : 0 ≤ H.EPSILON) (hff : FreeFallStep H P R timestep p) :
    ∃ q, (substep H P time timestep R bbox_min bbox_max [p]).2 = [q] ∧
      q.velocity = (freeFallNext P timestep p).velocity ∧
      q.position = (freeFallNext P timestep p).position ∧ q.Fe = 1 ∧ q.Fp = 1 := by
  obtain ⟨hcol, hin, hS, hSG, hdom⟩ := hff
  obtain ⟨q, hq, hqFp, hqv, hqp, hqFe⟩ := substep_single H P time timestep R bbox_min bbox_max
    p (fun k => p.velocity k + timestep * P.GRAVITY k) p.velocity hFe hFp hsvd hc hcol
    (fun n hn hw => by
      have := free_fall_nodes H P time timestep R p hFe hFp hsvd hc hm he hcol hin n hn hw
      exact this)
  have hvel : (fun i => (p.velocity i + (p.velocity i + timestep * P.GRAVITY i - p.velocity i) *
      usedWeightSum H P R.geometry p) * P.FLIP_PERCENT +
      (0 + (p.velocity i + timestep * P.GRAVITY i) * usedWeightSum H P R.geometry p) *
        (1 - P.FLIP_PERCENT)) = fun i => p.velocity i + timestep * P.GRAVITY i := by
    funext i
    rw [hS]
    ring
  have hpos : (fun i => p.position i + timestep *
      ((p.velocity i + (p.velocity i + timestep * P.GRAVITY i - p.velocity i) *
      usedWeightSum H P R.geometry p) * P.FLIP_PERCENT +
      (0 + (p.velocity i + timestep * P.GRAVITY i) * usedWeightSum H P R.geometry p) *
        (1 - P.FLIP_PERCENT))) =
      fun i => p.position i + timestep * (p.velocity i + timestep * P.GRAVITY i) := by
    funext i
    rw [hS]
    ring
  rw [hvel, hpos, limitPosition_inside P _ _ hdom] at hqv hqp
  refine ⟨q, hq, hqv, hqp, ?_, hqFp⟩
  rw [hqFe, Matrix.mul_one]
  have : (Matrix.of fun i j => 0 + (p.velocity i + timestep * P.GRAVITY i) *
      usedGradientSum H P R.geometry p j) = (0 : Mat3) := by
    ext i j
    simp [hSG j]
  rw [this, smul_zero, zero_add]

theorem freeFallStep_congr (H : Host) (P : Params) (R : Resized) (timestep : ℚ)
    (p q : Particle) (hp : q.position = p.position) (hv : q.velocity = p.velocity) :
    FreeFallStep H P R timestep p → FreeFallStep H P R timestep q := by
  intro h
  unfold FreeFallStep at h ⊢
  unfold usedWeightSum usedGradientSum cachedWeights at h ⊢
  rw [stencilEntries_congr H P R.geometry p q hp, particleStencil_congr P R.geometry p q hp,
    hp, hv]
  exact h

theorem freeFallRun_congr (H : Host) (P : Params) (steps : List (ℚ × Resized)) :
    ∀ p q : Particle, q.position = p.position → q.velocity = p.velocity →
      FreeFallRun H P steps p → FreeFallRun H P steps q := by
  induction steps with
  | nil => intro _ _ _ _ _; trivial
  | cons st steps ih =>
    intro p q hp hv h
    obtain ⟨h1, h2⟩ := h
    refine ⟨freeFallStep_congr H P st.2 st.1 p q hp hv h1, ?_⟩
    refine ih (freeFallNext P st.1 p) (freeFallNext P st.1 q) ?_ ?_ h2
    · simp only [freeFallNext, hp, hv]
    · simp only [freeFallNext, hv]

/-- Any number of substeps of free fall: the velocity gains `GRAVITY` times the sum of the
substep lengths. -/
theorem free_fall_substeps (H : Host) (P : Params) (time : ℚ) (hsvd : IsSVD 1 (H.svd 1))
    (hc : P.CRIT_COMPRESS ≤ 1 ∧ 1 ≤ P.CRIT_STRETCH) (hm : 0 < P.particle_mass)
    (he : 0 ≤ H.EPSILON) (steps : List (ℚ × Resized)) :
    ∀ (bbox_min bbox_max : Vec3) (p : Particle), p.Fe = 1 → p.Fp = 1 →
      FreeFallRun H P steps p →
      ∃ q, runSubsteps H P time steps bbox_min bbox_max [p] = [q] ∧
        (q.velocity = fun i => p.velocity i + P.GRAVITY i * (steps.map Prod.fst).sum) ∧
        q.Fe = 1 ∧ q.Fp = 1 := by
  induction steps with
  | nil =>
    intro bbox_min bbox_max p hFe hFp _
    refine ⟨p, rfl, ?_, hFe, hFp⟩
    funext i
    simp
  | cons st steps ih =>
    intro bbox_min bbox_max p hFe hFp hrun
    obtain ⟨hstep, hrest⟩ := hrun
    obtain ⟨q, hq, hqv, hqp, hqFe, hqFp⟩ := free_fall_substep H P time st.1 st.2 bbox_min
      bbox_max p hFe hFp hsvd hc hm he hstep
    rw [runSubsteps, hq]
    obtain ⟨q2, hq2, h2v, h2Fe, h2Fp⟩ := ih _ _ q hqFe hqFp
      (freeFallRun_congr H P steps (freeFallNext P st.1 p) q hqp hqv hrest)
    refine ⟨q2, hq2, ?_, h2Fe, h2Fp⟩
    rw [h2v, hqv]
    funext i
    simp only [freeFallNext, List.map_cons, List.sum_cons]
    ring

/-! ## The B-spline of the spec with `EPSILON = 0` -/

theorem bspline_pos (x : ℚ) (h : |x| < 2) : 0 < bspline x := by
  unfold bspline
  have ha := abs_nonneg x
  split
  · rename_i h1
    have e : |x| * |x| * (|x| / 2 - 1) + 2 / 3 =
        1 / 6 + (1 - |x|) * (1 + |x| * (1 - |x|)) / 2 := by ring
    rw [e]
    have h2 : 0 ≤ 1 - |x| := by linarith
    have h3 : 0 ≤ (1 - |x|) * (1 + |x| * (1 - |x|)) :=
      mul_nonneg h2 (by have := mul_nonneg ha h2; linarith)
    linarith
  · have h3 : 0 < 2 - |x| := by linarith
    have e : |x| * (|x| * (-|x| / 6 + 1) - 2) + 4 / 3 = (2 - |x|) * (2 - |x|) * (2 - |x|) / 6 := by
      ring
    rw [e]
    exact div_pos (mul_pos (mul_pos h3 h3) h3) (by norm_num)

/-- Where the weight of the spec vanishes, so does its slope. -/
theorem bsplineSlope_of_bspline_zero (x : ℚ) (h : bspline x = 0) : bsplineSlope x = 0 := by
  have h2 : ¬ |x| < 2 := fun hlt => ne_of_gt (bspline_pos x hlt) h
  have h1 : ¬ |x| < 1 := fun hlt => h2 (by linarith)
  unfold bsplineSlope
  rw [if_neg h1, if_neg h2]

theorem bsplineSlope_of_abs_lt_one (x : ℚ) (h : |x| < 1) :
    bsplineSlope x = 3 / 2 * x * |x| - 2 * x := by
  unfold bsplineSlope
  rw [if_pos h]

theorem bsplineSlope_of_one_le (x : ℚ) (h1 : 1 ≤ |x|) (h2 : |x| ≤ 2) :
    bsplineSlope x = -x * |x| / 2 + 2 * x - 2 * x / |x| := by
  unfold bsplineSlope
  rw [if_neg (not_lt.mpr h1)]
  split
  · rfl
  · have h3 : |x| = 2 := le_antisymm h2 (not_lt.mp ‹_›)
    rw [h3]
    rcases abs_eq (by norm_num : (0 : ℚ) ≤ 2) |>.mp h3 with h | h <;> rw [h] <;> norm_num

/-- The four slopes of one axis sum to 0 at every fractional offset `0 <= f < 1`. -/
theorem bsplineSlope_axis_sum (f : ℚ) (h0 : 0 ≤ f) (h1 : f < 1) :
    bsplineSlope (f + 1) + bsplineSlope f + bsplineSlope (f - 1) + bsplineSlope (f - 2) = 0 := by
  have a1 : |f + 1| = f + 1 := abs_of_nonneg (by linarith)
  have a2 : |f| = f := abs_of_nonneg h0
  have a3 : |f - 1| = 1 - f := by rw [abs_of_nonpos (by linarith)]; ring
  have a4 : |f - 2| = 2 - f := by rw [abs_of_nonpos (by linarith)]; ring
  have p1 : f + 1 ≠ 0 := by linarith
  have p4 : 2 - f ≠ 0 := by linarith
  rw [bsplineSlope_of_one_le (f + 1) (by rw [a1]; linarith) (by rw [a1]; linarith),
    bsplineSlope_of_abs_lt_one f (by rw [a2]; exact h1),
    bsplineSlope_of_one_le (f - 2) (by rw [a4]; linarith) (by rw [a4]; linarith), a1, a2, a4]
  rcases eq_or_lt_of_le h0 with h | h
  · subst h
    rw [bsplineSlope_of_one_le (0 - 1) (by norm_num) (by norm_num)]
    norm_num
  · rw [bsplineSlope_of_abs_lt_one (f - 1) (by rw [a3]; linarith), a3]
    field_simp
    ring

theorem bsplineSlope_stencil_axis (g : ℚ) :
    bsplineSlope (g - ((⌊g⌋ - 1 : ℤ) : ℚ)) + bsplineSlope (g - ((⌊g⌋ : ℤ) : ℚ)) +
      bsplineSlope (g - ((⌊g⌋ + 1 : ℤ) : ℚ)) + bsplineSlope (g - ((⌊g⌋ + 2 : ℤ) : ℚ)) = 0 := by
  have h := bsplineSlope_axis_sum (g - ⌊g⌋) (sub_nonneg.mpr (Int.floor_le g))
    (by have := Int.lt_floor_add_one g; linarith)
  have e1 : g - ((⌊g⌋ - 1 : ℤ) : ℚ) = g - ⌊g⌋ + 1 := by push_cast; ring
  have e3 : g - ((⌊g⌋ + 1 : ℤ) : ℚ) = g - ⌊g⌋ - 1 := by push_cast; ring
  have e4 : g - ((⌊g⌋ + 2 : ℤ) : ℚ) = g - ⌊g⌋ - 2 := by push_cast; ring
  rw [e1, e3, e4]
  exact h

/-- The 64 weight gradients computed with the B-spline of the spec sum to 0. -/
theorem cachedWeightGradients_sum_bspline (H : Host) (hb : H.bspline = bspline)
    (hs : H.bsplineSlope = bsplineSlope) (P : Params) (G : Geometry) (p : Particle)
    (j : Fin 3) : ((cachedWeightGradients H P G p).map fun wg => wg j).sum = 0 := by
  have hx := bspline_stencil_axis (gridPos G.grid_origin P.division_size p.position 0)
  have hy := bspline_stencil_axis (gridPos G.grid_origin P.division_size p.position 1)
  have hz := bspline_stencil_axis (gridPos G.grid_origin P.division_size p.position 2)
  have dx := bsplineSlope_stencil_axis (gridPos G.grid_origin P.division_size p.position 0)
  have dy := bsplineSlope_stencil_axis (gridPos G.grid_origin P.division_size p.position 1)
  have dz := bsplineSlope_stencil_axis (gridPos G.grid_origin P.division_size p.position 2)
  simp only [cachedWeightGradients, particleStencil, stencil, axisRange, posToIndex,
    nodeWeightGradient, hb, hs,
    List.flatMap_cons, List.flatMap_nil, List.map_cons, List.map_nil, List.append_nil,
    List.cons_append, List.nil_append, List.sum_cons, List.sum_nil, add_zero]
  generalize gridPos G.grid_origin P.division_size p.position 0 = gx at hx dx ⊢
  generalize gridPos G.grid_origin P.division_size p.position 1 = gy at hy dy ⊢
  generalize gridPos G.grid_origin P.division_size p.position 2 = gz at hz dz ⊢
  generalize bspline (gx - ((⌊gx⌋ - 1 : ℤ) : ℚ)) = x1 at hx ⊢
  generalize bspline (gx - ((⌊gx⌋ : ℤ) : ℚ)) = x2 at hx ⊢
  generalize bspline (gx - ((⌊gx⌋ + 1 : ℤ) : ℚ)) = x3 at hx ⊢
  generalize bspline (gx - ((⌊gx⌋ + 2 : ℤ) : ℚ)) = x4 at hx ⊢
  generalize bspline (gy - ((⌊gy⌋ - 1 : ℤ) : ℚ)) = y1 at hy ⊢
  generalize bspline (gy - ((⌊gy⌋ : ℤ) : ℚ)) = y2 at hy ⊢
  generalize bspline (gy - ((⌊gy⌋ + 1 : ℤ) : ℚ)) = y3 at hy ⊢
  generalize bspline (gy - ((⌊gy⌋ + 2 : ℤ) : ℚ)) = y4 at hy ⊢
  generalize bspline (gz - ((⌊gz⌋ - 1 : ℤ) : ℚ)) = z1 at hz ⊢
  generalize bspline (gz - ((⌊gz⌋ : ℤ) : ℚ)) = z2 at hz ⊢
  generalize bspline (gz - ((⌊gz⌋ + 1 : ℤ) : ℚ)) = z3 at hz ⊢
  generalize bspline (gz - ((⌊gz⌋ + 2 : ℤ) : ℚ)) = z4 at hz ⊢
  generalize bsplineSlope (gx - ((⌊gx⌋ - 1 : ℤ) : ℚ)) = u1 at dx ⊢
  generalize bsplineSlope (gx - ((⌊gx⌋ : ℤ) : ℚ)) = u2 at dx ⊢
  generalize bsplineSlope (gx - ((⌊gx⌋ + 1 : ℤ) : ℚ)) = u3 at dx ⊢
  generalize bsplineSlope (gx - ((⌊gx⌋ + 2 : ℤ) : ℚ)) = u4 at dx ⊢
  generalize bsplineSlope (gy - ((⌊gy⌋ - 1 : ℤ) : ℚ)) = v1 at dy ⊢
  generalize bsplineSlope (gy - ((⌊gy⌋ : ℤ) : ℚ)) = v2 at dy ⊢
  generalize bsplineSlope (gy - ((⌊gy⌋ + 1 : ℤ) : ℚ)) = v3 at dy ⊢
  generalize bsplineSlope (gy - ((⌊gy⌋ + 2 : ℤ) : ℚ)) = v4 at dy ⊢
  generalize bsplineSlope (gz - ((⌊gz⌋ - 1 : ℤ) : ℚ)) = w1 at dz ⊢
  generalize bsplineSlope (gz - ((⌊gz⌋ : ℤ) : ℚ)) = w2 at dz ⊢
  generalize bsplineSlope (gz - ((⌊gz⌋ + 1 : ℤ) : ℚ)) = w3 at dz ⊢
  generalize bsplineSlope (gz - ((⌊gz⌋ + 2 : ℤ) : ℚ)) = w4 at dz ⊢
  fin_cases j
  · simp only [Fin.zero_eta, Fin.isValue, Matrix.cons_val_zero]
    have key : (u1 + u2 + u3 + u4) * (y1 + y2 + y3 + y4) * (z1 + z2 + z3 + z4) = 0 := by
      rw [dx]; ring
    rw [← key]
    ring
  · simp only [Fin.mk_one, Fin.isValue, Matrix.cons_val_one, Matrix.head_cons]
    have key : (x1 + x2 + x3 + x4) * (v1 + v2 + v3 + v4) * (z1 + z2 + z3 + z4) = 0 := by
      rw [dy]; ring
    rw [← key]
    ring
  · simp only [Fin.reduceFinMk, Fin.isValue, Matrix.cons_val_two, Matrix.tail_cons,
      Matrix.head_cons]
    have key : (x1 + x2 + x3 + x4) * (y1 + y2 + y3 + y4) * (w1 + w2 + w3 + w4) = 0 := by
      rw [dz]; ring
    rw [← key]
    ring

theorem filter_pos_sum (l : List ℚ) (hl : ∀ w ∈ l, 0 ≤ w) :
    (l.filter fun w => w > 0).sum = l.sum := by
  induction l with
  | nil => rfl
  | cons a l ih =>
    have ih' := ih (fun w hw => hl w (List.mem_cons_of_mem _ hw))
    by_cases ha : a > 0
    · simp only [List.filter_cons, ha, decide_True, if_true, List.sum_cons, ih']
    · have h0 : a = 0 := le_antisymm (not_lt.mp ha) (hl a (List.mem_cons_self _ _))
      simp only [List.filter_cons, ha, decide_False, Bool.false_eq_true, if_false,
        List.sum_cons, ih']
      rw [h0, zero_add]

/-- With `EPSILON = 0` and the B-spline of the spec the weights that pass the guard sum
to 1 at every position. -/
theorem usedWeightSum_of_eps_zero (H : Host) (hb : H.bspline = bspline) (he : H.EPSILON = 0)
    (P : Params) (G : Geometry) (p : Particle) : usedWeightSum H P G p = 1 := by
  unfold usedWeightSum
  rw [he, filter_pos_sum _ (cachedWeights_nonneg_bspline H hb P G p)]
  exact cachedWeights_sum_bspline H hb P G p

theorem nodeWeightGradient_of_weight_zero (H : Host) (hb : H.bspline = bspline)
    (hs : H.bsplineSlope = bsplineSlope) (gpos : Vec3) (n : Node)
    (h : nodeWeight H gpos n = 0) (j : Fin 3) : nodeWeightGradient H gpos n j = 0 := by
  unfold nodeWeight at h
  unfold nodeWeightGradient
  rw [hb] at h
  rw [hb, hs]
  rcases mul_eq_zero.mp h with h1 | h3
  · rcases mul_eq_zero.mp h1 with h1 | h2
    · have := bsplineSlope_of_bspline_zero _ h1
      fin_cases j <;> simp [h1, this]
    · have := bsplineSlope_of_bspline_zero _ h2
      fin_cases j <;> simp [h2, this]
  · have := bsplineSlope_of_bspline_zero _ h3
    fin_cases j <;> simp [h3, this]

theorem filter_entries_sum (e : ℚ) (W : Node → ℚ) (WG : Node → Vec3) (j : Fin 3)
    (l : List Node) (h : ∀ n ∈ l, ¬ W n > e → WG n j = 0) :
    (((l.map fun n => (n, W n, WG n)).filter fun x => x.2.1 > e).map fun x => x.2.2 j).sum =
      (l.map fun n => WG n j).sum := by
  induction l with
  | nil => rfl
  | cons n l ih =>
    have ih' := ih (fun m hm => h m (List.mem_cons_of_mem _ hm))
    by_cases hw : W n > e
    · simp only [List.map_cons, List.filter_cons, hw, decide_True, if_true, List.sum_cons, ih']
    · simp only [List.map_cons, List.filter_cons, hw, decide_False, Bool.false_eq_true,
        if_false, List.sum_cons, ih', h n (List.mem_cons_self _ _) hw, zero_add]

/-- With `EPSILON = 0` and the B-spline of the spec the weight gradients that pass the
guard sum to 0 at every position. -/
theorem usedGradientSum_of_eps_zero (H : Host) (hb : H.bspline = bspline)
    (hs : H.bsplineSlope = bsplineSlope) (he : H.EPSILON = 0) (P : Params) (G : Geometry)
    (p : Particle) (j : Fin 3) : usedGradientSum H P G p j = 0 := by
  unfold usedGradientSum
  rw [stencilEntries_eq, he, filter_entries_sum 0 _ _ j]
  · have h := cachedWeightGradients_sum_bspline H hb hs P G p j
    unfold cachedWeightGradients at h
    rw [List.map_map] at h
    exact h
  · intro n hn hw
    apply nodeWeightGradient_of_weight_zero H hb hs
    have h0 : 0 ≤ nodeWeight H (gridPos G.grid_origin P.division_size p.position) n := by
      unfold nodeWeight
      rw [hb]
      exact mul_nonneg (mul_nonneg (bspline_nonneg _) (bspline_nonneg _)) (bspline_nonneg _)
    exact le_antisymm (not_lt.mp hw) h0

/-! ## Claims on free fall -/

/-- C6, as stated, fails: `offsetParticle` has `Fe = Fp = I` and cached weights that sum
to 1, there is no collider and the free-fall position is inside the domain bounds, yet for
every `EPSILON >= 10^-29` the velocity stored by a substep of `1/24` is not
`v + dt*gravity`: the gather skips the weights that are not above `EPSILON`. -/
theorem free_fall_fails_with_skipped_weights :
    (offsetParticle.Fe = 1 ∧ offsetParticle.Fp = 1) ∧
      (∀ eps : ℚ,
        (cachedWeights (exampleHost eps) exampleParams exampleGeometry offsetParticle).sum = 1) ∧
      (∀ n, exampleResized.collider.g_col n ≤ 0) ∧
      (∀ i, exampleParams.bbox_min_limit i ≤ offsetParticle.position i +
          1 / 24 * (offsetParticle.velocity i + 1 / 24 * exampleParams.GRAVITY i) ∧
        offsetParticle.position i +
          1 / 24 * (offsetParticle.velocity i + 1 / 24 * exampleParams.GRAVITY i) ≤
            exampleParams.bbox_max_limit i) ∧
      ¬ ∃ eps : ℚ, 1 / 10 ^ 29 ≤ eps ∧ ∃ q,
        (substep (exampleHost eps) exampleParams 0 (1 / 24) exampleResized (fun _ => 0)
          (fun _ => 0) [offsetParticle]).2 = [q] ∧
        q.velocity = fun i => offsetParticle.velocity i + 1 / 24 * exampleParams.GRAVITY i := by
  refine ⟨⟨rfl, rfl⟩, fun eps => cachedWeights_sum_bspline (exampleHost eps) rfl _ _ _,
    fun n => by norm_num [exampleResized, exampleFields], ?_, ?_⟩
  · intro i
    fin_cases i <;> norm_num [exampleParams, offsetParticle]
  · rintro ⟨eps, he, q, hq, hqv⟩
    have he0 : 0 ≤ (exampleHost eps).EPSILON := le_trans (by norm_num) he
    have hcol : ∀ n, exampleResized.collider.g_col n ≤ 0 := fun n => by
      norm_num [exampleResized, exampleFields]
    have hin : ∀ n ∈ particleStencil exampleParams exampleResized.geometry offsetParticle,
        isValidIndex exampleResized.geometry.grid_divs n :=
      offsetParticle_inside offsetParticle (List.mem_singleton.mpr rfl)
    obtain ⟨q1, hq1, _, hq1v, _, _⟩ := substep_single (exampleHost eps) exampleParams 0 (1 / 24)
      exampleResized (fun _ => 0) (fun _ => 0) offsetParticle
      (fun k => offsetParticle.velocity k + 1 / 24 * exampleParams.GRAVITY k)
      offsetParticle.velocity rfl rfl (isSVD_exampleHost eps)
      (by norm_num [exampleParams]) hcol
      (free_fall_nodes (exampleHost eps) exampleParams 0 (1 / 24) exampleResized offsetParticle
        rfl rfl (isSVD_exampleHost eps) (by norm_num [exampleParams])
        (by norm_num [exampleParams]) he0 hcol hin)
    rw [hq1] at hq
    have hqq : q1 = q := by simpa using hq
    rw [hqq, hqv] at hq1v
    have hS := offsetParticle_usedWeightSum_lt eps he
    have hS' : usedWeightSum (exampleHost eps) exampleParams exampleResized.geometry
        offsetParticle < 1 := hS
    have hcase := limitPosition_snd_cases exampleParams
      (fun i => offsetParticle.position i + 1 / 24 *
        ((offsetParticle.velocity i +
          (offsetParticle.velocity i + 1 / 24 * exampleParams.GRAVITY i -
            offsetParticle.velocity i) *
          usedWeightSum (exampleHost eps) exampleParams exampleResized.geometry offsetParticle) *
            exampleParams.FLIP_PERCENT +
          (0 + (offsetParticle.velocity i + 1 / 24 * exampleParams.GRAVITY i) *
            usedWeightSum (exampleHost eps) exampleParams exampleResized.geometry
              offsetParticle) * (1 - exampleParams.FLIP_PERCENT)))
      (fun i => (offsetParticle.velocity i +
          (offsetParticle.velocity i + 1 / 24 * exampleParams.GRAVITY i -
            offsetParticle.velocity i) *
          usedWeightSum (exampleHost eps) exampleParams exampleResized.geometry offsetParticle) *
            exampleParams.FLIP_PERCENT +
          (0 + (offsetParticle.velocity i + 1 / 24 * exampleParams.GRAVITY i) *
            usedWeightSum (exampleHost eps) exampleParams exampleResized.geometry
              offsetParticle) * (1 - exampleParams.FLIP_PERCENT))
    generalize usedWeightSum (exampleHost eps) exampleParams exampleResized.geometry
      offsetParticle = S at hq1v hS' hcase
    rcases hcase with h | h
    · rw [h] at hq1v
      have h1 := congrFun hq1v 1
      simp only [offsetParticle, exampleParams, Matrix.cons_val_one, Matrix.head_cons] at h1
      linarith
    · rw [h] at hq1v
      have h1 := congrFun hq1v 1
      simp only [offsetParticle, exampleParams, Matrix.cons_val_one, Matrix.head_cons,
        Pi.zero_apply] at h1
      norm_num at h1

/-- C6, amended. Free fall: for a single particle with `Fe = Fp = I` (no clamp triggered),
`particle_mass > 0` and `EPSILON >= 0`, whose cached weights above `EPSILON` sum to 1 and
whose weight gradients above `EPSILON` sum to 0, with its stencil inside the grid, no
collider and no domain clamp, the velocity after a substep of length `dt` is
`v + dt*gravity` for every FLIP fraction and `Fe` stays `I`; so after `n` substeps on which
these conditions hold the velocity is `v0 + gravity * (sum of the n substep lengths)`. -/
theorem free_fall (H : Host) (P : Params) (time : ℚ) (p : Particle) (hFe : p.Fe = 1)
    (hFp : p.Fp = 1) (hsvd : IsSVD 1 (H.svd 1))
    (hc : P.CRIT_COMPRESS ≤ 1 ∧ 1 ≤ P.CRIT_STRETCH) (hm : 0 < P.particle_mass)
    (he : 0 ≤ H.EPSILON) :
    (∀ (timestep : ℚ) (R : Resized) (bbox_min bbox_max : Vec3),
      FreeFallStep H P R timestep p →
      ∃ q, (substep H P time timestep R bbox_min bbox_max [p]).2 = [q] ∧
        (q.velocity = fun i => p.velocity i + timestep * P.GRAVITY i) ∧
        q.Fe = 1 ∧ q.Fp = 1) ∧
    (∀ (steps : List (ℚ × Resized)) (bbox_min bbox_max : Vec3),
      FreeFallRun H P steps p →
      ∃ q, runSubsteps H P time steps bbox_min bbox_max [p] = [q] ∧
        (q.velocity = fun i => p.velocity i + P.GRAVITY i * (steps.map Prod.fst).sum) ∧
        q.Fe = 1 ∧ q.Fp = 1) := by
  constructor
  · intro timestep R bbox_min bbox_max hff
    obtain ⟨q, hq, hqv, _, hqFe, hqFp⟩ := free_fall_substep H P time timestep R bbox_min
      bbox_max p hFe hFp hsvd hc hm he hff
    exact ⟨q, hq, hqv, hqFe, hqFp⟩
  · intro steps bbox_min bbox_max hrun
    exact free_fall_substeps H P time hsvd hc hm he steps bbox_min bbox_max p hFe hFp hrun

theorem centredParticle_freeFallStep :
    FreeFallStep (exampleHost 0) exampleParams exampleResized (1 / 24) centredParticle := by
  refine ⟨fun n => by norm_num [exampleResized, exampleFields],
    centredParticle_inside centredParticle (List.mem_singleton.mpr rfl),
    usedWeightSum_of_eps_zero (exampleHost 0) rfl rfl _ _ _,
    usedGradientSum_of_eps_zero (exampleHost 0) rfl rfl rfl _ _ _, ?_⟩
  intro i
  fin_cases i <;> norm_num [exampleParams, centredParticle]

/-- Witness of the amended C6: `centredParticle` under the gravity of the example, with
`EPSILON = 0`, for one substep of `1/24`. -/
theorem free_fall_witness :
    (0 < exampleParams.particle_mass ∧ 0 ≤ (exampleHost 0).EPSILON ∧
      FreeFallStep (exampleHost 0) exampleParams exampleResized (1 / 24) centredParticle) ∧
    (∃ q, (substep (exampleHost 0) exampleParams 0 (1 / 24) exampleResized (fun _ => 0)
        (fun _ => 0) [centredParticle]).2 = [q] ∧
      (q.velocity = fun i => centredParticle.velocity i + 1 / 24 * exampleParams.GRAVITY i) ∧
      q.Fe = 1 ∧ q.Fp = 1) ∧
    (∃ q, runSubsteps (exampleHost 0) exampleParams 0 [(1 / 24, exampleResized)] (fun _ => 0)
        (fun _ => 0) [centredParticle] = [q] ∧
      (q.velocity = fun i => centredParticle.velocity i +
        exampleParams.GRAVITY i * ([((1 : ℚ) / 24, exampleResized)].map Prod.fst).sum) ∧
      q.Fe = 1 ∧ q.Fp = 1) := by
  have hm : 0 < exampleParams.particle_mass := by norm_num [exampleParams]
  have h := free_fall (exampleHost 0) exampleParams 0 centredParticle rfl rfl
    (isSVD_exampleHost 0) (by norm_num [exampleParams]) hm (le_refl _)
  exact ⟨⟨hm, le_refl _, centredParticle_freeFallStep⟩,
    h.1 (1 / 24) exampleResized _ _ centredParticle_freeFallStep,
    h.2 [(1 / 24, exampleResized)] _ _ ⟨centredParticle_freeFallStep, trivial⟩⟩

/-! ## Absent particle collection -/

/-- C13, as stated, fails: with the particle collection absent the frame-advance returns
`true`, the success value, not a failure value. -/
theorem absent_geometry_returns_success :
    (solveGasSubclass (exampleHost 0) exampleParams exampleFields 0 (1 / 24) (fun _ => 0)
        (fun _ => 0) 0 none).map Prod.fst = some true ∧
      (solveGasSubclass (exampleHost 0) exampleParams exampleFields 0 (1 / 24) (fun _ => 0)
        (fun _ => 0) 0 none).map Prod.fst ≠ some false := by
  constructor
  · rfl
  · simp [solveGasSubclass]

/-- C13, amended. When the particle collection is absent the frame-advance returns at once,
before any iteration of the substep loop and so before any particle or grid state is
written, and its result is `true`: the absence is not reported to the caller. -/
theorem absent_geometry_returns_unchanged (H : Host) (P : Params) (F : Fields)
    (time framerate : ℚ) (bbox_min bbox_max : Vec3) (fuel : ℕ) :
    solveGasSubclass H P F time framerate bbox_min bbox_max fuel none = some (true, none) :=
  rfl

/-! ## Force integration on the grid -/

theorem integrateForces_apply (P : Params) (timestep : ℚ) (grid_divs : Node) (g : Grid)
    (n : Node) :
    integrateForces P timestep grid_divs g n =
      if isValidIndex grid_divs n then integrateNode P timestep (g n) else g n := by
  unfold integrateForces
  rw [forNodes_apply]

/-- C15. Grid force integration: at every active voxel the new velocity after the pass is
`oldVelocity + dt*(gravity - force/mass)` per component, `force` being what the force
scatter had accumulated in the new-velocity array, and mass, active flag and old velocity
are kept; every inactive voxel, and every index outside the grid, keeps mass, old velocity
and new velocity exactly as they were. -/
theorem force_integration (P : Params) (timestep : ℚ) (grid_divs : Node) (g : Grid)
    (n : Node) :
    (isValidIndex grid_divs n → (g n).g_active ≠ 0 →
      (∀ k, (integrateForces P timestep grid_divs g n).g_nvel k =
        (g n).g_ovel k + timestep * (P.GRAVITY k - (g n).g_nvel k / (g n).g_mass)) ∧
      (integrateForces P timestep grid_divs g n).g_ovel = (g n).g_ovel ∧
      (integrateForces P timestep grid_divs g n).g_mass = (g n).g_mass ∧
      (integrateForces P timestep grid_divs g n).g_active = (g n).g_active) ∧
    ((g n).g_active = 0 → integrateForces P timestep grid_divs g n = g n) ∧
    (¬ isValidIndex grid_divs n → integrateForces P timestep grid_divs g n = g n) := by
  rw [integrateForces_apply]
  refine ⟨fun hv ha => ?_, fun ha => ?_, fun hv => ?_⟩
  · rw [if_pos hv]
    simp only [integrateNode, ha, ne_eq, not_false_eq_true, if_true]
    refine ⟨fun k => ?_, trivial, trivial, trivial⟩
    rw [mul_one_div]
  · split
    · simp only [integrateNode, ha, ne_eq, not_true_eq_false, if_false]
    · rfl
  · rw [if_neg hv]

/-- Witness of C15: an active voxel of mass 2 with old velocity 1 and accumulated force 4,
under the gravity of the example, for a timestep of `1/2`. -/
theorem force_integration_witness :
    (isValidIndex (7, 7, 7) (3, 3, 3) ∧ (activeGrid (3, 3, 3)).g_active ≠ 0) ∧
    ∀ k, (integrateForces exampleParams (1 / 2) (7, 7, 7) activeGrid (3, 3, 3)).g_nvel k =
      (activeGrid (3, 3, 3)).g_ovel k +
        1 / 2 * (exampleParams.GRAVITY k - (activeGrid (3, 3, 3)).g_nvel k /
          (activeGrid (3, 3, 3)).g_mass) := by
  have hv : isValidIndex (7, 7, 7) (3, 3, 3) := by decide
  have ha : (activeGrid (3, 3, 3)).g_active ≠ 0 := one_ne_zero
  exact ⟨⟨hv, ha⟩, ((force_integration exampleParams (1 / 2) (7, 7, 7) activeGrid
    (3, 3, 3)).1 hv ha).1⟩

/-! ## Division by the node mass -/

theorem estimateVolumes_mem (H : Host) (P : Params) (G : Geometry) (time : ℚ) (g : Grid)
    (ps : List Particle) (q : Particle) (hq : q ∈ estimateVolumes H P G time g ps) :
    ∃ p ∈ ps, q.position = p.position ∧ q.velocity = p.velocity ∧ q.Fe = p.Fe ∧
      q.Fp = p.Fp := by
  unfold estimateVolumes at hq
  split at hq
  · rcases List.mem_map.mp hq with ⟨p, hp, rfl⟩
    exact ⟨p, hp, rfl, rfl, rfl, rfl⟩
  · exact ⟨q, hq, rfl, rfl, rfl, rfl⟩

theorem weightEntries_congr (H : Host) (P : Params) (G : Geometry) (p q : Particle)
    (h : q.position = p.position) :
    (particleStencil P G q).zip (cachedWeights H P G q) =
      (particleStencil P G p).zip (cachedWeights H P G p) := by
  rw [weightEntries_eq, weightEntries_eq, particleStencil_congr P G p q h, h]

theorem normalizeVelocity_apply (grid_divs : Node) (g : Grid) (n : Node) :
    normalizeVelocity grid_divs g n =
      if isValidIndex grid_divs n then divideByMass (g n) else g n := by
  unfold normalizeVelocity
  rw [forNodes_apply]

theorem divideByMass_frame (d : NodeData) :
    (divideByMass d).g_mass = d.g_mass ∧ (divideByMass d).g_active = d.g_active ∧
      (divideByMass d).g_nvel = d.g_nvel := by
  unfold divideByMass
  split
  · exact ⟨rfl, rfl, rfl⟩
  · exact ⟨rfl, rfl, rfl⟩

theorem normalizeVelocity_frame (grid_divs : Node) (g : Grid) (n : Node) :
    (normalizeVelocity grid_divs g n).g_mass = (g n).g_mass ∧
      (normalizeVelocity grid_divs g n).g_active = (g n).g_active ∧
      (normalizeVelocity grid_divs g n).g_nvel = (g n).g_nvel := by
  rw [normalizeVelocity_apply]
  split
  · exact divideByMass_frame (g n)
  · exact ⟨rfl, rfl, rfl⟩

/-- The force scatter writes `g_nvel` only. -/
theorem transferForce_frame (H : Host) (P : Params) (G : Geometry) (ps : List Particle)
    (g : Grid) (n : Node) :
    (transferForce H P G g ps n).g_mass = (g n).g_mass ∧
      (transferForce H P G g ps n).g_active = (g n).g_active ∧
      (transferForce H P G g ps n).g_ovel = (g n).g_ovel := by
  unfold transferForce
  refine foldl_invariant (transferForceParticle H P G) (fun g' : Grid =>
    (g' n).g_mass = (g n).g_mass ∧ (g' n).g_active = (g n).g_active ∧
      (g' n).g_ovel = (g n).g_ovel) ps g ⟨rfl, rfl, rfl⟩ ?_
  intro g1 p _ h1
  simp only [transferForceParticle]
  refine foldl_invariant (forceStep H G.grid_divs (eigenMap (constitutive H P p).energy))
    (fun g' : Grid => (g' n).g_mass = (g n).g_mass ∧ (g' n).g_active = (g n).g_active ∧
      (g' n).g_ovel = (g n).g_ovel) (stencilEntries H P G p) g1 h1 ?_
  intro g2 nwg _ h2
  simp only [forceStep]
  split
  · simp only [modify_apply]
    split
    · exact h2
    · exact h2
  · exact h2

/-- A voxel that the velocity scatter switched on carries a weight above `EPSILON` of some
particle of the scatter. -/
theorem transferVelocity_active (H : Host) (P : Params) (G : Geometry) (ps : List Particle)
    (g0 : Grid) (n : Node) (h0 : (g0 n).g_active = 0)
    (ha : (transferVelocity H P G g0 ps n).g_active ≠ 0) :
    ∃ p ∈ ps, ∃ w, (n, w) ∈ (particleStencil P G p).zip (cachedWeights H P G p) ∧
      w > H.EPSILON ∧ isValidIndex G.grid_divs n := by
  revert ha
  unfold transferVelocity
  refine foldl_invariant (transferVelocityParticle H P G)
    (fun g : Grid => (g n).g_active ≠ 0 →
      ∃ p ∈ ps, ∃ w, (n, w) ∈ (particleStencil P G p).zip (cachedWeights H P G p) ∧
        w > H.EPSILON ∧ isValidIndex G.grid_divs n) ps g0 (fun h => absurd h0 h) ?_
  intro g1 p hp h1
  simp only [transferVelocityParticle]
  refine foldl_invariant
    (velocityStep H G.grid_divs (fun i => p.velocity i * P.particle_mass))
    (fun g : Grid => (g n).g_active ≠ 0 →
      ∃ p ∈ ps, ∃ w, (n, w) ∈ (particleStencil P G p).zip (cachedWeights H P G p) ∧
        w > H.EPSILON ∧ isValidIndex G.grid_divs n)
    ((particleStencil P G p).zip (cachedWeights H P G p)) g1 h1 ?_
  intro g2 nw hnw h2
  simp only [velocityStep]
  split
  · rename_i hw
    simp only [modify_apply]
    split
    · rename_i hn
      intro _
      refine ⟨p, hp, nw.2, ?_, hw, ?_⟩
      · rw [hn.1]
        exact hnw
      · rw [hn.1]
        exact hn.2
    · exact h2
  · exact h2

/-- C14. Division by the node mass is safe. With a positive particle mass, a non-negative
`EPSILON` and non-negative cached weights, a voxel that is active after the velocity scatter
carries a weight `w > EPSILON` of some particle and its mass is at least `particle_mass*w`,
so is positive, both when the normalisation divides by it and, the force scatter leaving
mass and flag alone, when the force integration divides by it; at an inactive voxel
neither loop divides: both bodies return the record as it was. -/
theorem division_by_mass_safe (H : Host) (P : Params) (G : Geometry) (time timestep : ℚ)
    (g : Grid) (ps : List Particle) (hm : 0 < P.particle_mass) (he : 0 ≤ H.EPSILON)
    (hw : ∀ p ∈ ps, ∀ w ∈ cachedWeights H P G p, 0 ≤ w) (n : Node)
    (hn : isValidIndex G.grid_divs n) :
    ((transferVelocity H P G (transferMass H P G (resetGrid G.grid_divs g) ps)
        (estimateVolumes H P G time (transferMass H P G (resetGrid G.grid_divs g) ps) ps)
        n).g_active ≠ 0 →
      ∃ p ∈ ps, ∃ w, (n, w) ∈ (particleStencil P G p).zip (cachedWeights H P G p) ∧
        w > H.EPSILON ∧
        P.particle_mass * w ≤ (transferVelocity H P G
          (transferMass H P G (resetGrid G.grid_divs g) ps)
          (estimateVolumes H P G time (transferMass H P G (resetGrid G.grid_divs g) ps) ps)
          n).g_mass ∧
        0 < (transferVelocity H P G (transferMass H P G (resetGrid G.grid_divs g) ps)
          (estimateVolumes H P G time (transferMass H P G (resetGrid G.grid_divs g) ps) ps)
          n).g_mass) ∧
    ((transferForce H P G (normalizeVelocity G.grid_divs
        (transferVelocity H P G (transferMass H P G (resetGrid G.grid_divs g) ps)
          (estimateVolumes H P G time (transferMass H P G (resetGrid G.grid_divs g) ps) ps)))
        (estimateVolumes H P G time (transferMass H P G (resetGrid G.grid_divs g) ps) ps)
        n).g_active ≠ 0 →
      0 < (transferForce H P G (normalizeVelocity G.grid_divs
        (transferVelocity H P G (transferMass H P G (resetGrid G.grid_divs g) ps)
          (estimateVolumes H P G time (transferMass H P G (resetGrid G.grid_divs g) ps) ps)))
        (estimateVolumes H P G time (transferMass H P G (resetGrid G.grid_divs g) ps) ps)
        n).g_mass) ∧
    ∀ d : NodeData, d.g_active = 0 → divideByMass d = d ∧ integrateNode P timestep d = d := by
  generalize hg1 : transferMass H P G (resetGrid G.grid_divs g) ps = g1
  generalize hps1 : estimateVolumes H P G time g1 ps = ps1
  have hreset : resetGrid G.grid_divs g n = zeroNode := by
    rw [resetGrid_apply, if_pos hn]
  have hact : (g1 n).g_active = 0 := by
    rw [← hg1, (transferMass_frame H P G ps _ n).1, hreset]
    rfl
  have hmass : (transferVelocity H P G g1 ps1 n).g_mass = (g1 n).g_mass := by
    unfold transferVelocity
    refine foldl_invariant (transferVelocityParticle H P G)
      (fun g' : Grid => (g' n).g_mass = (g1 n).g_mass) ps1 g1 rfl ?_
    intro g2 p _ h2
    simp only [transferVelocityParticle]
    refine foldl_invariant
      (velocityStep H G.grid_divs (fun i => p.velocity i * P.particle_mass))
      (fun g' : Grid => (g' n).g_mass = (g1 n).g_mass)
      ((particleStencil P G p).zip (cachedWeights H P G p)) g2 h2 ?_
    intro g3 nw _ h3
    simp only [velocityStep]
    split
    · simp only [modify_apply]
      split
      · exact h3
      · exact h3
    · exact h3
  have hfirst : (transferVelocity H P G g1 ps1 n).g_active ≠ 0 →
      ∃ p ∈ ps, ∃ w, (n, w) ∈ (particleStencil P G p).zip (cachedWeights H P G p) ∧
        w > H.EPSILON ∧ P.particle_mass * w ≤ (transferVelocity H P G g1 ps1 n).g_mass ∧
        0 < (transferVelocity H P G g1 ps1 n).g_mass := by
    intro ha
    obtain ⟨q, hq, w, hmem, hwe, _⟩ := transferVelocity_active H P G ps1 g1 n hact ha
    rw [← hps1] at hq
    obtain ⟨p, hp, hpos, _⟩ := estimateVolumes_mem H P G time g1 ps q hq
    rw [weightEntries_congr H P G p q hpos] at hmem
    have hge := transferMass_mass_ge H P G ps (resetGrid G.grid_divs g) (le_of_lt hm) hw p hp
      n w hmem hn
    rw [hg1, hreset] at hge
    have hz : zeroNode.g_mass = 0 := rfl
    rw [hz, zero_add] at hge
    have hpos' : 0 < w * P.particle_mass := mul_pos (lt_of_le_of_lt he hwe) hm
    rw [hmass]
    refine ⟨p, hp, w, hmem, hwe, ?_, lt_of_lt_of_le hpos' hge⟩
    rw [mul_comm]
    exact hge
  refine ⟨hfirst, ?_, ?_⟩
  · intro ha
    rw [(transferForce_frame H P G ps1 _ n).2.1, (normalizeVelocity_frame _ _ n).2.1] at ha
    rw [(transferForce_frame H P G ps1 _ n).1, (normalizeVelocity_frame _ _ n).1]
    obtain ⟨_, _, _, _, _, _, h⟩ := hfirst ha
    exact h
  · intro d hd
    constructor
    · simp only [divideByMass, hd, ne_eq, not_true_eq_false, if_false]
    · simp only [integrateNode, hd, ne_eq, not_true_eq_false, if_false]

/-- Witness of C14: `centredParticle` in the 7 x 7 x 7 grid with `EPSILON = 0`, at the
voxel `(3, 3, 3)`, in a frame with `time = 0`. -/
theorem division_by_mass_safe_witness :
    (0 < exampleParams.particle_mass ∧ 0 ≤ (exampleHost 0).EPSILON ∧
      isValidIndex exampleGeometry.grid_divs (3, 3, 3)) ∧
    ((transferForce (exampleHost 0) exampleParams exampleGeometry
        (normalizeVelocity exampleGeometry.grid_divs
          (transferVelocity (exampleHost 0) exampleParams exampleGeometry
            (transferMass (exampleHost 0) exampleParams exampleGeometry
              (resetGrid exampleGeometry.grid_divs activeGrid) [centredParticle])
            (estimateVolumes (exampleHost 0) exampleParams exampleGeometry 0
              (transferMass (exampleHost 0) exampleParams exampleGeometry
                (resetGrid exampleGeometry.grid_divs activeGrid) [centredParticle])
              [centredParticle])))
        (estimateVolumes (exampleHost 0) exampleParams exampleGeometry 0
          (transferMass (exampleHost 0) exampleParams exampleGeometry
            (resetGrid exampleGeometry.grid_divs activeGrid) [centredParticle])
          [centredParticle])
        (3, 3, 3)).g_active ≠ 0 →
      0 < (transferForce (exampleHost 0) exampleParams exampleGeometry
        (normalizeVelocity exampleGeometry.grid_divs
          (transferVelocity (exampleHost 0) exampleParams exampleGeometry
            (transferMass (exampleHost 0) exampleParams exampleGeometry
              (resetGrid exampleGeometry.grid_divs activeGrid) [centredParticle])
            (estimateVolumes (exampleHost 0) exampleParams exampleGeometry 0
              (transferMass (exampleHost 0) exampleParams exampleGeometry
                (resetGrid exampleGeometry.grid_divs activeGrid) [centredParticle])
              [centredParticle])))
        (estimateVolumes (exampleHost 0) exampleParams exampleGeometry 0
          (transferMass (exampleHost 0) exampleParams exampleGeometry
            (resetGrid exampleGeometry.grid_divs activeGrid) [centredParticle])
          [centredParticle])
        (3, 3, 3)).g_mass) :=
  ⟨⟨by norm_num [exampleParams], le_refl _, by decide⟩,
    (division_by_mass_safe (exampleHost 0) exampleParams exampleGeometry 0 (1 / 24)
      activeGrid [centredParticle] (by norm_num [exampleParams]) (le_refl _)
      (fun p _ => cachedWeights_nonneg_bspline (exampleHost 0) rfl _ _ p) (3, 3, 3)
      (by decide)).2.1⟩

/-! ## Velocity stored by the position limit -/

theorem limitAxis_snd (P : Params) (s : Vec3 × Vec3) (i : Fin 3) :
    (limitAxis P s i).2 =
      if s.1 i > P.bbox_max_limit i ∨ s.1 i < P.bbox_min_limit i then fun _ => 0 else s.2 := by
  unfold limitAxis
  by_cases h1 : s.1 i > P.bbox_max_limit i
  · rw [if_pos h1, if_pos (Or.inl h1)]
  · by_cases h2 : s.1 i < P.bbox_min_limit i
    · rw [if_neg h1, if_pos h2, if_pos (Or.inr h2)]
    · rw [if_neg h1, if_neg h2, if_neg (not_or.mpr ⟨h1, h2⟩)]

/-- The velocity stored by the position limit: the zero vector as soon as one axis of the
position is outside its interval, the given velocity otherwise. -/
theorem limitPosition_snd (P : Params) (pos vel : Vec3) :
    (limitPosition P pos vel).2 =
      if ∃ i, pos i > P.bbox_max_limit i ∨ pos i < P.bbox_min_limit i then fun _ => 0
      else vel := by
  have hfold : ∀ (l : List (Fin 3)) (s : Vec3 × Vec3), l.Nodup → (∀ i ∈ l, s.1 i = pos i) →
      (l.foldl (limitAxis P) s).2 =
        if ∃ i ∈ l, pos i > P.bbox_max_limit i ∨ pos i < P.bbox_min_limit i then fun _ => 0
        else s.2 := by
    intro l
    induction l with
    | nil =>
      intro s _ _
      simp
    | cons j l ih =>
      intro s hnd hs
      rw [List.foldl_cons]
      have hj : j ∉ l := (List.nodup_cons.mp hnd).1
      have hs1 : ∀ i ∈ l, (limitAxis P s j).1 i = pos i := by
        intro i hi
        have hij : i ≠ j := fun h => hj (h ▸ hi)
        rw [limitAxis_fst, Function.update_noteq hij]
        exact hs i (List.mem_cons_of_mem _ hi)
      rw [ih _ (List.nodup_cons.mp hnd).2 hs1, limitAxis_snd, hs j (List.mem_cons_self _ _)]
      by_cases hl : ∃ i ∈ l, pos i > P.bbox_max_limit i ∨ pos i < P.bbox_min_limit i
      · obtain ⟨i, hi, hc⟩ := hl
        rw [if_pos ⟨i, hi, hc⟩, if_pos ⟨i, List.mem_cons_of_mem _ hi, hc⟩]
      · rw [if_neg hl]
        by_cases hc : pos j > P.bbox_max_limit j ∨ pos j < P.bbox_min_limit j
        · rw [if_pos hc, if_pos ⟨j, List.mem_cons_self _ _, hc⟩]
        · rw [if_neg hc, if_neg]
          rintro ⟨i, hi, hci⟩
          rcases List.mem_cons.mp hi with h | h
          · exact hc (h ▸ hci)
          · exact hl ⟨i, h, hci⟩
  have h := hfold [0, 1, 2] (pos, vel) (by decide) (fun _ _ => rfl)
  unfold limitPosition
  rw [h]
  have hiff : (∃ i ∈ ([0, 1, 2] : List (Fin 3)),
      pos i > P.bbox_max_limit i ∨ pos i < P.bbox_min_limit i) ↔
      ∃ i, pos i > P.bbox_max_limit i ∨ pos i < P.bbox_min_limit i := by
    constructor
    · rintro ⟨i, _, hc⟩
      exact ⟨i, hc⟩
    · rintro ⟨i, hc⟩
      refine ⟨i, ?_, hc⟩
      fin_cases i <;> simp
  simp only [hiff]

theorem fastParticle_inside :
    ∀ n ∈ particleStencil exampleParams exampleResized.geometry fastParticle,
      isValidIndex exampleResized.geometry.grid_divs n := by
  intro n hn
  rw [particleStencil_congr exampleParams exampleResized.geometry centredParticle fastParticle
    rfl] at hn
  exact centredParticle_inside centredParticle (List.mem_singleton.mpr rfl) n hn

/-- C11, as stated, fails: `fastParticle` starts inside the domain `[-100, 100]^3` with
velocity `(4000, 0, 0)`; a substep of `1/24` under gravity takes its `x` coordinate beyond
100, where it is clamped, while its `y` coordinate, moved by `dt * (-49/120)`, stays inside
and is not clamped. The stored velocity has `y` component 0, not the `-49/120` that moved
the particle: the clamp of one axis zeroes the whole velocity. -/
theorem clamp_zeroes_unclamped_axis :
    ∃ q, (substep (exampleHost 0) exampleParams 0 (1 / 24) exampleResized (fun _ => 0)
        (fun _ => 0) [fastParticle]).2 = [q] ∧
      q.position 0 = exampleParams.bbox_max_limit 0 ∧
      q.position 1 = fastParticle.position 1 + 1 / 24 * (-49 / 120) ∧
      (exampleParams.bbox_min_limit 1 < q.position 1 ∧
        q.position 1 < exampleParams.bbox_max_limit 1) ∧
      q.velocity 1 = 0 ∧ q.velocity 1 ≠ -49 / 120 := by
  have hcol : ∀ n, exampleResized.collider.g_col n ≤ 0 := fun n => by
    norm_num [exampleResized, exampleFields]
  obtain ⟨q, hq, _, hqv, hqp, _⟩ := substep_single (exampleHost 0) exampleParams 0 (1 / 24)
    exampleResized (fun _ => 0) (fun _ => 0) fastParticle
    (fun k => fastParticle.velocity k + 1 / 24 * exampleParams.GRAVITY k)
    fastParticle.velocity rfl rfl (isSVD_exampleHost 0)
    (by norm_num [exampleParams]) hcol
    (free_fall_nodes (exampleHost 0) exampleParams 0 (1 / 24) exampleResized fastParticle
      rfl rfl (isSVD_exampleHost 0) (by norm_num [exampleParams])
      (by norm_num [exampleParams]) (le_refl _) hcol fastParticle_inside)
  have hS : usedWeightSum (exampleHost 0) exampleParams exampleResized.geometry fastParticle = 1 :=
    usedWeightSum_of_eps_zero (exampleHost 0) rfl rfl _ _ _
  rw [hS] at hqv hqp
  have hp0 : q.position 0 = 100 := by
    rw [hqp, limitPosition_fst]
    norm_num [limitValue, exampleParams, fastParticle, centredParticle]
  have hp1 : q.position 1 = 7 / 2 + 1 / 24 * (-49 / 120) := by
    rw [hqp, limitPosition_fst]
    norm_num [limitValue, exampleParams, fastParticle, centredParticle]
  have hv1 : q.velocity 1 = 0 := by
    rw [hqv, limitPosition_snd, if_pos]
    exact ⟨0, Or.inl (by norm_num [exampleParams, fastParticle, centredParticle])⟩
  refine ⟨q, hq, ?_, ?_, ?_, hv1, ?_⟩
  · rw [hp0]
    norm_num [exampleParams]
  · rw [hp1]
    norm_num [fastParticle, centredParticle]
  · rw [hp1]
    constructor <;> norm_num [exampleParams]
  · rw [hv1]
    norm_num

/-- C11, amended. With `vel` the velocity after the particle collision and
`pos = position + dt*vel` the integrated position, the position stored is `pos` brought
into the domain interval on every axis, and the velocity stored is the zero vector as soon
as `pos` is outside the domain interval on at least one axis, whatever the axis; if no axis
is clamped the velocity stored is `vel`. -/
theorem clamp_zeroes_velocity (H : Host) (P : Params) (G : Geometry) (C : Collider) (g : Grid)
    (timestep : ℚ) (c : Carried) (p : Particle) :
    (∀ i, (gatherParticle H P G C g timestep c p).2.position i =
      limitValue P i
        (p.position i + timestep * gatheredVelocity H P G C g c.sdf_normal p i)) ∧
    (gatherParticle H P G C g timestep c p).2.velocity =
      if ∃ i,
          p.position i + timestep * gatheredVelocity H P G C g c.sdf_normal p i >
            P.bbox_max_limit i ∨
          p.position i + timestep * gatheredVelocity H P G C g c.sdf_normal p i <
            P.bbox_min_limit i
      then fun _ => 0
      else gatheredVelocity H P G C g c.sdf_normal p := by
  refine ⟨fun i => gatherParticle_position H P G C g timestep c p i, ?_⟩
  simp only [gatherParticle, limitPosition_snd]

/-! ## Particle volume -/

theorem gatherParticles_volume (H : Host) (P : Params) (G : Geometry) (C : Collider) (g : Grid)
    (timestep : ℚ) (ps : List Particle) :
    ∀ c : Carried, (gatherParticles H P G C g timestep c ps).2.map (fun q => q.volume) =
      ps.map fun q => q.volume := by
  induction ps with
  | nil =>
    intro c
    rfl
  | cons p ps ih =>
    intro c
    rw [gatherParticles, List.map_cons, List.map_cons, ih]
    rfl

/-- The volumes after a substep are those after STEP #2: neither the plasticity update nor
the particle update writes the volume. -/
theorem substep_volume (H : Host) (P : Params) (time timestep : ℚ) (R : Resized)
    (bbox_min bbox_max : Vec3) (ps : List Particle) :
    (substep H P time timestep R bbox_min bbox_max ps).2.map (fun q => q.volume) =
      (estimateVolumes H P R.geometry time
        (transferMass H P R.geometry (resetGrid R.geometry.grid_divs R.grid) ps) ps).map
        fun q => q.volume := by
  unfold substep
  simp only []
  rw [gatherParticles_volume, List.map_map]
  rfl

/-- The loop of STEP #2 as a sum: the entries whose weight is above `EPSILON`. -/
theorem gatherMass_eq_sum (H : Host) (P : Params) (G : Geometry) (g : Grid) (p : Particle) :
    gatherMass H P G g p =
      ((((particleStencil P G p).zip (cachedWeights H P G p)).filter
        fun nw => nw.2 > H.EPSILON).map fun nw => nw.2 * (g nw.1).g_mass).sum := by
  unfold gatherMass
  generalize (particleStencil P G p).zip (cachedWeights H P G p) = l
  have h : ∀ (l : List (Node × ℚ)) (a : ℚ),
      l.foldl (fun density nw =>
        if nw.2 > H.EPSILON then density + nw.2 * (g nw.1).g_mass else density) a =
      a + ((l.filter fun nw => nw.2 > H.EPSILON).map fun nw => nw.2 * (g nw.1).g_mass).sum := by
    intro l
    induction l with
    | nil =>
      intro a
      simp
    | cons x l ih =>
      intro a
      rw [List.foldl_cons, ih]
      by_cases hx : x.2 > H.EPSILON
      · simp only [hx, if_true, List.filter_cons, decide_True, List.map_cons, List.sum_cons]
        ring
      · simp only [hx, if_false, List.filter_cons, decide_False, Bool.false_eq_true]
  rw [h l 0, zero_add]

theorem substepLoop_volume (H : Host) (P : Params) (F : Fields) (time framerate : ℚ)
    (ht : time ≠ 0) :
    ∀ (fuel k : ℕ) (s : LoopState) (log : List ℚ) (r : FrameResult),
      substepLoop H P F time framerate fuel k s log = some r →
      r.particles.map (fun q => q.volume) = s.particles.map fun q => q.volume := by
  intro fuel
  induction fuel with
  | zero =>
    intro k s log r h
    simp [substepLoop] at h
  | succ fuel ih =>
    intro k s log r h
    rw [substepLoop] at h
    split at h
    · have hr : densityExit H P F k s log = r := Option.some.inj h
      rw [← hr]
      rfl
    · rw [ih _ _ _ r h]
      have hp : (nextState H P F time
          (adaptiveTimestep H P framerate s.max_vel s.adaptive_time) k s).particles =
          (substep H P time (adaptiveTimestep H P framerate s.max_vel s.adaptive_time)
            (F.resizeGrid k (requestedSize P s) (requestedCentre s))
            s.bbox_min s.bbox_max s.particles).2 := rfl
      rw [hp, substep_volume]
      unfold estimateVolumes
      rw [if_neg ht]

/-- A weighted entry that the guard `w > e` skips is missing from the guarded sum. -/
theorem filter_map_sum_lt (l : List (Node × ℚ)) (f : Node × ℚ → ℚ) (e : ℚ)
    (hl : ∀ x ∈ l, 0 ≤ f x) (x0 : Node × ℚ) (h0 : x0 ∈ l) (hpos : 0 < f x0)
    (hle : x0.2 ≤ e) :
    ((l.filter fun x => x.2 > e).map f).sum < (l.map f).sum := by
  have hmono : ∀ l' : List (Node × ℚ), (∀ x ∈ l', 0 ≤ f x) →
      ((l'.filter fun x => x.2 > e).map f).sum ≤ (l'.map f).sum := by
    intro l' hl'
    induction l' with
    | nil => simp
    | cons b l' ih' =>
      have hb := hl' b (List.mem_cons_self _ _)
      have := ih' (fun w hw => hl' w (List.mem_cons_of_mem _ hw))
      by_cases hbe : b.2 > e
      · simp only [List.filter_cons, hbe, decide_True, if_true, List.map_cons, List.sum_cons]
        linarith
      · simp only [List.filter_cons, hbe, decide_False, List.map_cons, List.sum_cons,
          Bool.false_eq_true, if_false]
        linarith
  induction l with
  | nil => simp at h0
  | cons a l ih =>
    have hl' : ∀ x ∈ l, 0 ≤ f x := fun x hx => hl x (List.mem_cons_of_mem _ hx)
    have ha := hl a (List.mem_cons_self _ _)
    rcases List.mem_cons.mp h0 with h | h
    · subst h
      have hne : ¬ x0.2 > e := not_lt.mpr hle
      have := hmono l hl'
      simp only [List.filter_cons, hne, decide_False, List.map_cons, List.sum_cons,
        Bool.false_eq_true, if_false]
      linarith
    · have := ih hl' h
      by_cases hae : a.2 > e
      · simp only [List.filter_cons, hae, decide_True, if_true, List.map_cons, List.sum_cons]
        linarith
      · simp only [List.filter_cons, hae, decide_False, List.map_cons, List.sum_cons,
          Bool.false_eq_true, if_false]
        linarith

theorem exampleResized_reset_mass (n : Node) :
    (resetGrid exampleResized.geometry.grid_divs exampleResized.grid n).g_mass = 0 := by
  rw [resetGrid_apply]
  split
  · rfl
  · rfl

/-- C12, as stated, fails: in a frame with `time = 0`, for every `EPSILON >= 10^-29`, the
volume stored for `offsetParticle` is not `particle_mass / density` with `density` the sum
over its whole stencil of `weight * nodeMass` over the cell volume: the code leaves out of
the sum the voxels whose weight is not above `EPSILON`. -/
theorem volume_skips_small_weights :
    ¬ ∃ eps : ℚ, 1 / 10 ^ 29 ≤ eps ∧
      (substep (exampleHost eps) exampleParams 0 (1 / 24) exampleResized (fun _ => 0)
        (fun _ => 0) [offsetParticle]).2.map (fun q => q.volume) =
      [exampleParams.particle_mass /
        stencilDensity (exampleHost eps) exampleParams exampleResized.geometry
          (transferMass (exampleHost eps) exampleParams exampleResized.geometry
            (resetGrid exampleResized.geometry.grid_divs exampleResized.grid)
            [offsetParticle]) offsetParticle] := by
  rintro ⟨eps, he, h⟩
  rw [substep_volume] at h
  generalize hg1 : transferMass (exampleHost eps) exampleParams exampleResized.geometry
    (resetGrid exampleResized.geometry.grid_divs exampleResized.grid) [offsetParticle] = g1 at h
  have hw : ∀ p ∈ [offsetParticle],
      ∀ w ∈ cachedWeights (exampleHost eps) exampleParams exampleResized.geometry p, 0 ≤ w :=
    fun p _ => cachedWeights_nonneg_bspline (exampleHost eps) rfl _ _ p
  have hm : (0 : ℚ) ≤ exampleParams.particle_mass := by norm_num [exampleParams]
  have hmass : ∀ n, 0 ≤ (g1 n).g_mass := by
    intro n
    rw [← hg1]
    have := transferMass_mono (exampleHost eps) exampleParams exampleResized.geometry
      [offsetParticle] (resetGrid exampleResized.geometry.grid_divs exampleResized.grid) hm hw n
    rw [exampleResized_reset_mass] at this
    exact this
  have h0 : (1 : ℚ) / 216000000000000000000000000000 ∈
      cachedWeights (exampleHost eps) exampleParams exampleResized.geometry offsetParticle :=
    offsetParticle_small_weight eps
  have h0' := h0
  unfold cachedWeights at h0'
  obtain ⟨n, hn, hnw⟩ := List.mem_map.mp h0'
  have hmem : (n, (1 : ℚ) / 216000000000000000000000000000) ∈
      (particleStencil exampleParams exampleResized.geometry offsetParticle).zip
        (cachedWeights (exampleHost eps) exampleParams exampleResized.geometry
          offsetParticle) := by
    rw [weightEntries_eq]
    exact List.mem_map.mpr ⟨n, hn, by rw [hnw]⟩
  have hval : isValidIndex exampleResized.geometry.grid_divs n :=
    offsetParticle_inside offsetParticle (List.mem_singleton.mpr rfl) n hn
  have hge := transferMass_mass_ge (exampleHost eps) exampleParams exampleResized.geometry
    [offsetParticle] (resetGrid exampleResized.geometry.grid_divs exampleResized.grid) hm hw
    offsetParticle (List.mem_singleton.mpr rfl) n _ hmem hval
  rw [hg1, exampleResized_reset_mass] at hge
  have hone : exampleParams.particle_mass = 1 := rfl
  rw [hone] at hge
  have hlt := filter_map_sum_lt
    ((particleStencil exampleParams exampleResized.geometry offsetParticle).zip
      (cachedWeights (exampleHost eps) exampleParams exampleResized.geometry offsetParticle))
    (fun nw : Node × ℚ => nw.2 * (g1 nw.1).g_mass) eps
    (fun x hx => mul_nonneg
      (cachedWeights_nonneg_bspline (exampleHost eps) rfl _ _ offsetParticle x.2
        (List.of_mem_zip hx).2) (hmass x.1))
    (n, (1 : ℚ) / 216000000000000000000000000000) hmem
    (by
      have : (0 : ℚ) < (g1 n).g_mass := lt_of_lt_of_le (by norm_num) hge
      exact mul_pos (by norm_num) this)
    (le_trans (by norm_num) he)
  have hV : voxelArea exampleParams = 1 := by norm_num [voxelArea, exampleParams]
  have heps : (exampleHost eps).EPSILON = eps := rfl
  simp only [estimateVolumes, if_true, List.map_cons, List.map_nil, estimateVolume,
    stencilDensity, hV, hone, div_one, gatherMass_eq_sum, heps, List.cons.injEq, and_true,
    one_div, inv_inj] at h
  rw [h] at hlt
  exact lt_irrefl _ hlt

/-- C12, amended. Particle volume is assigned only in a frame whose simulation time is 0: a
substep of such a frame stores for each particle the volume `particle_mass / density`, with
`density` the sum of `weight * nodeMass` over the voxels of its stencil whose weight is
above `EPSILON`, over the cell volume, the node masses being those of the mass transfer
that precedes; for `time != 0` a substep leaves every volume as it was, and so does the
whole frame-advance, which returns once allowed `floor(frameLength/EPSILON) + 2`
iterations (`EPSILON > 0`, `frameLength >= 0`). -/
theorem volume_assignment (H : Host) (P : Params) (F : Fields) (time framerate timestep : ℚ)
    (R : Resized) (bbox_min bbox_max : Vec3) (fuel : ℕ) (ps : List Particle) :
    (time = 0 →
      (substep H P time timestep R bbox_min bbox_max ps).2.map (fun q => q.volume) =
        ps.map fun p => P.particle_mass /
          (((((particleStencil P R.geometry p).zip (cachedWeights H P R.geometry p)).filter
            fun nw => nw.2 > H.EPSILON).map fun nw => nw.2 *
              (transferMass H P R.geometry (resetGrid R.geometry.grid_divs R.grid) ps
                nw.1).g_mass).sum / voxelArea P)) ∧
    (time ≠ 0 →
      (substep H P time timestep R bbox_min bbox_max ps).2.map (fun q => q.volume) =
        ps.map fun q => q.volume) ∧
    (time ≠ 0 → 0 < H.EPSILON → 0 ≤ framerate → ⌊framerate / H.EPSILON⌋₊ + 2 ≤ fuel →
      ∃ r, solveGasSubclass H P F time framerate bbox_min bbox_max fuel (some ps) =
          some (true, some r) ∧
        r.particles.map (fun q => q.volume) = ps.map fun q => q.volume) := by
  refine ⟨fun ht => ?_, fun ht => ?_, fun ht he hf hfuel => ?_⟩
  · rw [substep_volume]
    unfold estimateVolumes
    rw [if_pos ht, List.map_map]
    refine List.map_congr_left (fun p _ => ?_)
    simp only [Function.comp, estimateVolume, gatherMass_eq_sum]
  · rw [substep_volume]
    unfold estimateVolumes
    rw [if_neg ht]
  · have hleft : framerate - (0 : ℚ) <
        ((⌊framerate / H.EPSILON⌋₊ + 1 : ℕ) : ℚ) * H.EPSILON := by
      have := Nat.lt_floor_add_one (framerate / H.EPSILON)
      rw [div_lt_iff₀ he] at this
      push_cast
      linarith
    obtain ⟨r, _, hr, _⟩ :=
      substepLoop_exits H P F time framerate (⌊framerate / H.EPSILON⌋₊ + 1) fuel 0
        { particles := ps
          max_vel := (initialBounds bbox_min bbox_max ps).max_vel
          adaptive_time := 0
          bbox_min := (initialBounds bbox_min bbox_max ps).bbox_min
          bbox_max := (initialBounds bbox_min bbox_max ps).bbox_max } [] (by omega) hleft
    refine ⟨r, ?_, ?_⟩
    · simp only [solveGasSubclass, hr, Option.map_some']
    · exact substepLoop_volume H P F time framerate ht _ _ _ _ r hr

/-- Witness of C12: the example particle, with `EPSILON = 1/10000`, in a substep of a frame
with `time = 0` and in a frame of `1/24` with `time = 1`. -/
theorem volume_assignment_witness :
    ((0 : ℚ) = 0 ∧
      (substep (exampleHost (1 / 10000)) exampleParams 0 (1 / 24) exampleResized (fun _ => 0)
          (fun _ => 0) [centredParticle]).2.map (fun q => q.volume) =
        [centredParticle].map fun p => exampleParams.particle_mass /
          (((((particleStencil exampleParams exampleResized.geometry p).zip
              (cachedWeights (exampleHost (1 / 10000)) exampleParams exampleResized.geometry
                p)).filter
            fun nw => nw.2 > (exampleHost (1 / 10000)).EPSILON).map fun nw => nw.2 *
              (transferMass (exampleHost (1 / 10000)) exampleParams exampleResized.geometry
                (resetGrid exampleResized.geometry.grid_divs exampleResized.grid)
                [centredParticle] nw.1).g_mass).sum / voxelArea exampleParams)) ∧
    ((1 : ℚ) ≠ 0 ∧ 0 < (exampleHost (1 / 10000)).EPSILON ∧ (0 : ℚ) ≤ 1 / 24 ∧
      ⌊(1 / 24 : ℚ) / (exampleHost (1 / 10000)).EPSILON⌋₊ + 2 ≤ 1000) ∧
    ∃ r, solveGasSubclass (exampleHost (1 / 10000)) exampleParams exampleFields 1 (1 / 24)
          (fun _ => 0) (fun _ => 0) 1000 (some [centredParticle]) = some (true, some r) ∧
      r.particles.map (fun q => q.volume) = [centredParticle].map fun q => q.volume := by
  have h1 : 0 < (exampleHost (1 / 10000)).EPSILON := by norm_num [exampleHost]
  have h3 : ⌊(1 / 24 : ℚ) / (exampleHost (1 / 10000)).EPSILON⌋₊ + 2 ≤ 1000 := by
    have : ⌊(1 / 24 : ℚ) / (exampleHost (1 / 10000)).EPSILON⌋₊ ≤ 998 :=
      Nat.floor_le_of_le (by norm_num [exampleHost])
    omega
  exact ⟨⟨rfl, (volume_assignment (exampleHost (1 / 10000)) exampleParams exampleFields 0
      (1 / 24) (1 / 24) exampleResized (fun _ => 0) (fun _ => 0) 1000 [centredParticle]).1 rfl⟩,
    ⟨one_ne_zero, h1, by norm_num, h3⟩,
    (volume_assignment (exampleHost (1 / 10000)) exampleParams exampleFields 1 (1 / 24)
      (1 / 24) exampleResized (fun _ => 0) (fun _ => 0) 1000 [centredParticle]).2.2
      one_ne_zero h1 (by norm_num) h3⟩

/-! ## The contact rule at its two sites -/

theorem computeSDFNormal_of_nonpos (H : Host) (g_col : Node → ℚ) (n : Node) (norm : Vec3)
    (h : g_col n ≤ 0) : computeSDFNormal H g_col n norm = (false, norm) := by
  unfold computeSDFNormal
  rw [if_pos h]

theorem computeSDFNormal_of_pos (H : Host) (g_col : Node → ℚ) (n : Node) (norm : Vec3)
    (h : g_col n > 0) :
    computeSDFNormal H g_col n norm = (true, (computeSDFNormal H g_col n fun _ => 0).2) := by
  unfold computeSDFNormal
  rw [if_neg (not_le.mpr h), if_neg (not_le.mpr h)]

/-- C19. The particle-level contact rule is the grid-level one. For every velocity `v`,
collider velocity `c`, normal `n` and friction coefficient: when `dot(v - c, n) < 0`, the
velocity the particle-level correction produces for an interpolated SDF `> 0` is the
velocity the grid-level correction writes; when `dot(v - c, n) >= 0` the grid-level rule
writes nothing (`none`) and the particle-level rule returns `v`; when the SDF is `<= 0` the
particle-level rule returns `v` and an iteration of the grid loop at a voxel with SDF `<= 0`
leaves the grid as it was. -/
theorem particle_contact_is_grid_contact (H : Host) (P : Params) (v c n : Vec3) (sdf : ℚ)
    (C : Collider) (grid_divs : Node) (s : Grid × Vec3) (m : Node) :
    (Matrix.dotProduct (v - c) n < 0 → sdf > 0 →
      gridContact H P v c n = some (particleContact H P v c n sdf)) ∧
    (Matrix.dotProduct (v - c) n ≥ 0 →
      gridContact H P v c n = none ∧ particleContact H P v c n sdf = v) ∧
    (sdf ≤ 0 → particleContact H P v c n sdf = v) ∧
    (C.g_col m ≤ 0 → (gridCollisionStep H P C grid_divs s m).1 = s.1) := by
  refine ⟨fun hvn hsdf => ?_, fun hvn => ⟨?_, ?_⟩, fun hsdf => ?_, fun hcol => ?_⟩
  · unfold gridContact particleContact
    simp only [ge_iff_le, not_le.mpr hvn, if_false, hsdf, if_true, hvn]
    split
    · rfl
    · rfl
  · unfold gridContact
    simp only [hvn, if_true]
  · unfold particleContact
    simp only [not_lt.mpr hvn, if_false, ite_self]
  · unfold particleContact
    rw [if_neg (not_lt.mpr hsdf)]
  · unfold gridCollisionStep
    rw [computeSDFNormal_of_nonpos H C.g_col m s.2 hcol]
    split
    · simp
    · rfl

/-- Witness of C19: velocity `(3, 4, -1)` against a collider at rest with normal
`(0, 0, 1)`, friction coefficient `1/2` and interpolated SDF 1. -/
theorem particle_contact_is_grid_contact_witness :
    (Matrix.dotProduct ((![3, 4, -1] : Vec3) - ![0, 0, 0]) ![0, 0, 1] < 0 ∧ (1 : ℚ) > 0) ∧
    gridContact (exampleHost 0) exampleParams ![3, 4, -1] ![0, 0, 0] ![0, 0, 1] =
      some (particleContact (exampleHost 0) exampleParams ![3, 4, -1] ![0, 0, 0] ![0, 0, 1] 1) := by
  have h1 : Matrix.dotProduct ((![3, 4, -1] : Vec3) - ![0, 0, 0]) ![0, 0, 1] < 0 := by
    simp [Matrix.dotProduct, Fin.sum_univ_three]
  exact ⟨⟨h1, one_pos⟩,
    (particle_contact_is_grid_contact (exampleHost 0) exampleParams ![3, 4, -1] ![0, 0, 0]
      ![0, 0, 1] 1 exampleResized.collider (7, 7, 7) (exampleResized.grid, fun _ => 0)
      (3, 3, 3)).1 h1 one_pos⟩

/-! ## Grid collision, voxel by voxel -/

theorem mem_interiorRange (d i : Int) : i ∈ interiorRange d ↔ 1 ≤ i ∧ i ≤ d - 2 := by
  unfold interiorRange
  simp only [List.mem_map, mem_loopRange]
  constructor
  · rintro ⟨k, ⟨h0, h1⟩, rfl⟩
    omega
  · rintro ⟨h0, h1⟩
    exact ⟨i - 1, ⟨by omega, by omega⟩, by omega⟩

theorem nodup_interiorRange (d : Int) : (interiorRange d).Nodup := by
  unfold interiorRange
  exact (nodup_loopRange _).map (fun a b h => by simpa using h)

theorem mem_interiorNodes (grid_divs n : Node) :
    n ∈ interiorNodes grid_divs ↔
      (1 ≤ n.1 ∧ n.1 ≤ grid_divs.1 - 2) ∧ (1 ≤ n.2.1 ∧ n.2.1 ≤ grid_divs.2.1 - 2) ∧
        (1 ≤ n.2.2 ∧ n.2.2 ≤ grid_divs.2.2 - 2) := by
  obtain ⟨x, y, z⟩ := n
  unfold interiorNodes
  simp only [List.mem_flatMap, List.mem_map, mem_interiorRange, Prod.mk.injEq]
  constructor
  · rintro ⟨a, ha, b, hb, c, hc, rfl, rfl, rfl⟩
    exact ⟨ha, hb, hc⟩
  · rintro ⟨ha, hb, hc⟩
    exact ⟨x, ha, y, hb, z, hc, rfl, rfl, rfl⟩

theorem nodup_interiorNodes (grid_divs : Node) : (interiorNodes grid_divs).Nodup := by
  unfold interiorNodes
  refine List.nodup_flatMap.mpr ⟨fun iX _ => ?_, ?_⟩
  · refine List.nodup_flatMap.mpr ⟨fun iY _ => ?_, ?_⟩
    · exact (nodup_interiorRange _).map (fun a b h => by simpa using h)
    · refine List.Pairwise.imp ?_ (nodup_interiorRange grid_divs.2.1)
      intro a b hab
      simp only [Function.onFun, List.disjoint_left, List.mem_map]
      rintro n ⟨c, _, rfl⟩ ⟨c2, _, h2⟩
      simp only [Prod.mk.injEq] at h2
      exact hab h2.2.1.symm
  · refine List.Pairwise.imp ?_ (nodup_interiorRange grid_divs.1)
    intro a b hab
    simp only [Function.onFun, List.disjoint_left, List.mem_flatMap, List.mem_map]
    rintro n ⟨b1, _, c1, _, rfl⟩ ⟨b2, _, c2, _, h2⟩
    simp only [Prod.mk.injEq] at h2
    exact hab h2.1.symm

theorem interior_valid (grid_divs n : Node) (h : n ∈ interiorNodes grid_divs) :
    isValidIndex grid_divs n := by
  rw [mem_interiorNodes] at h
  unfold isValidIndex
  omega

/-- One iteration of the grid collision loop is a write to the voxel it visits, whatever
`sdf_normal` held on entry. -/
theorem gridCollisionStep_fst (H : Host) (P : Params) (C : Collider) (grid_divs : Node)
    (s : Grid × Vec3) (n : Node) :
    (gridCollisionStep H P C grid_divs s n).1 =
      Grid.modify grid_divs s.1 n (collideNode H P C n) := by
  funext m
  rw [modify_apply]
  unfold gridCollisionStep collideNode sdfNormalAt
  by_cases ha : (s.1 n).g_active ≠ 0
  · by_cases hc : C.g_col n > 0
    · rw [computeSDFNormal_of_pos H C.g_col n s.2 hc]
      simp only [ha, ne_eq, not_false_eq_true, if_true]
      by_cases hm : m = n ∧ isValidIndex grid_divs n
      · rw [if_pos hm]
        obtain ⟨rfl, hv⟩ := hm
        simp only [ha, hc, and_self, not_false_eq_true, if_true]
        cases gridContact H P (s.1 m).g_nvel (C.g_colVel m)
          (computeSDFNormal H C.g_col m fun _ => 0).2 with
        | none => rfl
        | some vt =>
          simp only [modify_apply, hv, and_self, if_true]
      · rw [if_neg hm]
        cases gridContact H P (s.1 n).g_nvel (C.g_colVel n)
          (computeSDFNormal H C.g_col n fun _ => 0).2 with
        | none => rfl
        | some vt =>
          simp only [modify_apply, hm, if_false]
    · rw [computeSDFNormal_of_nonpos H C.g_col n s.2 (not_lt.mp hc)]
      simp only [ha, ne_eq, not_false_eq_true, if_true, Bool.false_eq_true, if_false]
      split
      · rename_i hm
        obtain ⟨rfl, _⟩ := hm
        simp only [hc, and_false, if_false]
      · rfl
  · simp only [ha, if_false]
    split
    · rename_i hm
      obtain ⟨rfl, _⟩ := hm
      have ha' : (s.1 m).g_active = 0 := not_not.mp ha
      simp only [ha', ne_eq, not_true_eq_false, false_and, if_false]
    · rfl

theorem gridCollision_fst (H : Host) (P : Params) (C : Collider) (grid_divs : Node)
    (l : List Node) :
    ∀ s : Grid × Vec3, (l.foldl (gridCollisionStep H P C grid_divs) s).1 =
      l.foldl (fun g n => Grid.modify grid_divs g n (collideNode H P C n)) s.1 := by
  induction l with
  | nil =>
    intro s
    rfl
  | cons n l ih =>
    intro s
    rw [List.foldl_cons, List.foldl_cons, ih, gridCollisionStep_fst]

/-- The grid after the collision loop, read at one voxel: an interior voxel holds its
record after the contact rule, any other index is untouched. -/
theorem gridCollision_apply (H : Host) (P : Params) (C : Collider) (grid_divs : Node)
    (s : Grid × Vec3) (n : Node) :
    (gridCollision H P C grid_divs s).1 n =
      if n ∈ interiorNodes grid_divs then collideNode H P C n (s.1 n) else s.1 n := by
  unfold gridCollision
  rw [gridCollision_fst, foldl_modify_apply _ _ _ (nodup_interiorNodes _)]
  by_cases h : n ∈ interiorNodes grid_divs
  · rw [if_pos ⟨h, interior_valid grid_divs n h⟩, if_pos h]
  · rw [if_neg (fun hh => h hh.1), if_neg h]

/-! ## Claims on the grid collision -/

theorem collideNode_frame (H : Host) (P : Params) (C : Collider) (n : Node) (d : NodeData) :
    (collideNode H P C n d).g_mass = d.g_mass ∧ (collideNode H P C n d).g_active = d.g_active ∧
      (collideNode H P C n d).g_ovel = d.g_ovel := by
  unfold collideNode
  split
  · split
    · exact ⟨rfl, rfl, rfl⟩
    · exact ⟨rfl, rfl, rfl⟩
  · exact ⟨rfl, rfl, rfl⟩

/-- The new velocity of an interior, active voxel with positive collision SDF after the
collision loop: what the contact rule writes, or the old value when it writes nothing. -/
theorem gridCollision_nvel (H : Host) (P : Params) (C : Collider) (grid_divs : Node)
    (s : Grid × Vec3) (n : Node) (hint : n ∈ interiorNodes grid_divs)
    (ha : (s.1 n).g_active ≠ 0) (hsdf : C.g_col n > 0) :
    ((gridCollision H P C grid_divs s).1 n).g_nvel =
      (gridContact H P (s.1 n).g_nvel (C.g_colVel n) (sdfNormalAt H C.g_col n)).getD
        (s.1 n).g_nvel := by
  rw [gridCollision_apply, if_pos hint]
  unfold collideNode
  rw [if_pos ⟨ha, hsdf⟩]
  cases gridContact H P (s.1 n).g_nvel (C.g_colVel n) (sdfNormalAt H C.g_col n) with
  | none => rfl
  | some vt => rfl

/-- C18. Grid collision changes the new velocity of a voxel only if the voxel is interior
(`1 <= index <= dimension-2` on every axis), active, has collision SDF `> 0` and approaches
the collider (`dot(v - colliderVel, normal) < 0`, `normal` being what `computeSDFNormal`
writes there): at every other index the new velocity is left as it was; mass, active flag
and old velocity are left as they were everywhere; and `computeSDFNormal` returns false
exactly when the SDF at the voxel is `<= 0`. -/
theorem grid_collision_frame (H : Host) (P : Params) (C : Collider) (grid_divs : Node)
    (s : Grid × Vec3) (n : Node) :
    (¬ (((1 ≤ n.1 ∧ n.1 ≤ grid_divs.1 - 2) ∧ (1 ≤ n.2.1 ∧ n.2.1 ≤ grid_divs.2.1 - 2) ∧
          (1 ≤ n.2.2 ∧ n.2.2 ≤ grid_divs.2.2 - 2)) ∧
        (s.1 n).g_active ≠ 0 ∧ C.g_col n > 0 ∧
        Matrix.dotProduct ((s.1 n).g_nvel - C.g_colVel n) (sdfNormalAt H C.g_col n) < 0) →
      ((gridCollision H P C grid_divs s).1 n).g_nvel = (s.1 n).g_nvel) ∧
    (((gridCollision H P C grid_divs s).1 n).g_mass = (s.1 n).g_mass ∧
      ((gridCollision H P C grid_divs s).1 n).g_active = (s.1 n).g_active ∧
      ((gridCollision H P C grid_divs s).1 n).g_ovel = (s.1 n).g_ovel) ∧
    (∀ norm : Vec3, (computeSDFNormal H C.g_col n norm).1 = false ↔ C.g_col n ≤ 0) := by
  refine ⟨fun hnot => ?_, ?_, fun norm => ?_⟩
  · rw [gridCollision_apply]
    by_cases hint : n ∈ interiorNodes grid_divs
    · rw [if_pos hint]
      unfold collideNode
      by_cases hac : (s.1 n).g_active ≠ 0 ∧ C.g_col n > 0
      · rw [if_pos hac]
        have hvn : ¬ Matrix.dotProduct ((s.1 n).g_nvel - C.g_colVel n)
            (sdfNormalAt H C.g_col n) < 0 :=
          fun h => hnot ⟨(mem_interiorNodes grid_divs n).mp hint, hac.1, hac.2, h⟩
        have hnone : gridContact H P (s.1 n).g_nvel (C.g_colVel n)
            (sdfNormalAt H C.g_col n) = none := by
          unfold gridContact
          simp only [ge_iff_le, not_lt.mp hvn, if_true]
        rw [hnone]
      · rw [if_neg hac]
    · rw [if_neg hint]
  · rw [gridCollision_apply]
    split
    · exact collideNode_frame H P C n (s.1 n)
    · exact ⟨rfl, rfl, rfl⟩
  · constructor
    · intro h
      by_contra hc
      rw [computeSDFNormal_of_pos H C.g_col n norm (not_le.mp hc)] at h
      exact Bool.noConfusion h
    · intro h
      rw [computeSDFNormal_of_nonpos H C.g_col n norm h]

/-- Witness of C18: an active interior voxel of a grid without collider (SDF -1). -/
theorem grid_collision_frame_witness :
    ¬ (((1 ≤ ((3, 3, 3) : Node).1 ∧ ((3, 3, 3) : Node).1 ≤ ((7, 7, 7) : Node).1 - 2) ∧
          (1 ≤ ((3, 3, 3) : Node).2.1 ∧ ((3, 3, 3) : Node).2.1 ≤ ((7, 7, 7) : Node).2.1 - 2) ∧
          (1 ≤ ((3, 3, 3) : Node).2.2 ∧ ((3, 3, 3) : Node).2.2 ≤ ((7, 7, 7) : Node).2.2 - 2)) ∧
        (activeGrid (3, 3, 3)).g_active ≠ 0 ∧ exampleResized.collider.g_col (3, 3, 3) > 0 ∧
        Matrix.dotProduct ((activeGrid (3, 3, 3)).g_nvel -
            exampleResized.collider.g_colVel (3, 3, 3))
          (sdfNormalAt (exampleHost 0) exampleResized.collider.g_col (3, 3, 3)) < 0) ∧
    ((gridCollision (exampleHost 0) exampleParams exampleResized.collider (7, 7, 7)
        (activeGrid, fun _ => 0)).1 (3, 3, 3)).g_nvel = (activeGrid (3, 3, 3)).g_nvel := by
  have h : ¬ (((1 ≤ ((3, 3, 3) : Node).1 ∧ ((3, 3, 3) : Node).1 ≤ ((7, 7, 7) : Node).1 - 2) ∧
          (1 ≤ ((3, 3, 3) : Node).2.1 ∧ ((3, 3, 3) : Node).2.1 ≤ ((7, 7, 7) : Node).2.1 - 2) ∧
          (1 ≤ ((3, 3, 3) : Node).2.2 ∧ ((3, 3, 3) : Node).2.2 ≤ ((7, 7, 7) : Node).2.2 - 2)) ∧
        (activeGrid (3, 3, 3)).g_active ≠ 0 ∧ exampleResized.collider.g_col (3, 3, 3) > 0 ∧
        Matrix.dotProduct ((activeGrid (3, 3, 3)).g_nvel -
            exampleResized.collider.g_colVel (3, 3, 3))
          (sdfNormalAt (exampleHost 0) exampleResized.collider.g_col (3, 3, 3)) < 0) := by
    rintro ⟨_, _, hc, _⟩
    norm_num [exampleResized, exampleFields] at hc
  exact ⟨h, (grid_collision_frame (exampleHost 0) exampleParams exampleResized.collider
    (7, 7, 7) (activeGrid, fun _ => 0) (3, 3, 3)).1 h⟩

/-- C16. Sticking contact: at an interior, active voxel with positive collision SDF, with
`n` the normal `computeSDFNormal` writes there, `vrel = v - colliderVel`,
`vn = dot(vrel, n) < 0` and the tangential part `vt = vrel - vn*n` such that
`|vt| <= -vn*COF`, the new velocity after the collision loop is the collider velocity, so
the velocity relative to the collider is 0, and so is its tangential part. -/
theorem sticking_contact (H : Host) (P : Params) (C : Collider) (grid_divs : Node)
    (s : Grid × Vec3) (n : Node)
    (hint : (1 ≤ n.1 ∧ n.1 ≤ grid_divs.1 - 2) ∧ (1 ≤ n.2.1 ∧ n.2.1 ≤ grid_divs.2.1 - 2) ∧
      (1 ≤ n.2.2 ∧ n.2.2 ≤ grid_divs.2.2 - 2))
    (ha : (s.1 n).g_active ≠ 0) (hsdf : C.g_col n > 0)
    (hvn : Matrix.dotProduct ((s.1 n).g_nvel - C.g_colVel n) (sdfNormalAt H C.g_col n) < 0)
    (hstick : length H ((s.1 n).g_nvel - C.g_colVel n -
        Matrix.dotProduct ((s.1 n).g_nvel - C.g_colVel n) (sdfNormalAt H C.g_col n) •
          sdfNormalAt H C.g_col n) ≤
      -(Matrix.dotProduct ((s.1 n).g_nvel - C.g_colVel n) (sdfNormalAt H C.g_col n) *
        P.COF)) :
    ((gridCollision H P C grid_divs s).1 n).g_nvel = C.g_colVel n ∧
      ((gridCollision H P C grid_divs s).1 n).g_nvel - C.g_colVel n = 0 ∧
      (((gridCollision H P C grid_divs s).1 n).g_nvel - C.g_colVel n) -
        Matrix.dotProduct (((gridCollision H P C grid_divs s).1 n).g_nvel - C.g_colVel n)
          (sdfNormalAt H C.g_col n) • sdfNormalAt H C.g_col n = 0 := by
  have h : ((gridCollision H P C grid_divs s).1 n).g_nvel = C.g_colVel n := by
    rw [gridCollision_nvel H P C grid_divs s n ((mem_interiorNodes grid_divs n).mpr hint) ha
      hsdf]
    unfold gridContact
    simp only [ge_iff_le, not_le.mpr hvn, if_false, hstick, if_true, Option.getD_some]
  refine ⟨h, ?_, ?_⟩
  · rw [h, sub_self]
  · rw [h, sub_self, Matrix.zero_dotProduct, zero_smul, sub_self]

theorem exampleHost_sqrt_zero (eps : ℚ) : (exampleHost eps).sqrt 0 = 0 := by
  simp [exampleHost]

theorem exampleHost_sqrt_four (eps : ℚ) : (exampleHost eps).sqrt 4 = 2 := by
  have h : Nat.sqrt 4 = 2 := Nat.sqrt_eq 2
  have hn : ((4 : ℚ).num).toNat = 4 := rfl
  have hd : (4 : ℚ).den = 1 := rfl
  simp only [exampleHost, hn, hd, h, Nat.sqrt_one]
  norm_num

theorem sdfNormalAt_slopeCollider (eps : ℚ) (n : Node) (hn : (n.2.2 : ℚ) > 0) :
    sdfNormalAt (exampleHost eps) slopeCollider.g_col n = ![0, 0, -1] := by
  unfold sdfNormalAt computeSDFNormal
  have hc : ¬ slopeCollider.g_col n ≤ 0 := not_le.mpr hn
  rw [if_neg hc]
  have hv : (![slopeCollider.g_col (n.1 - 1, n.2.1, n.2.2) -
        slopeCollider.g_col (n.1 + 1, n.2.1, n.2.2),
      slopeCollider.g_col (n.1, n.2.1 - 1, n.2.2) - slopeCollider.g_col (n.1, n.2.1 + 1, n.2.2),
      slopeCollider.g_col (n.1, n.2.1, n.2.2 - 1) -
        slopeCollider.g_col (n.1, n.2.1, n.2.2 + 1)] : Vec3) = ![0, 0, -2] := by
    funext i
    fin_cases i <;> simp [slopeCollider]
    ring
  simp only [hv]
  have hl : length (exampleHost eps) ![0, 0, -2] = 2 := by
    have h2 : length2 ![0, 0, -2] = 4 := by
      simp [length2, Matrix.dotProduct, Fin.sum_univ_three]
      norm_num
    unfold length
    rw [h2]
    exact exampleHost_sqrt_four eps
  rw [hl]
  norm_num
  funext i
  fin_cases i <;> simp

/-- Witness of C16: the voxel `(3, 3, 3)` of a 7 x 7 x 7 grid whose active voxels move
with velocity `(0, 0, 1)` against `slopeCollider`, whose normal there is `(0, 0, -1)`. -/
theorem sticking_contact_witness :
    (((1 ≤ ((3, 3, 3) : Node).1 ∧ ((3, 3, 3) : Node).1 ≤ ((7, 7, 7) : Node).1 - 2) ∧
        (1 ≤ ((3, 3, 3) : Node).2.1 ∧ ((3, 3, 3) : Node).2.1 ≤ ((7, 7, 7) : Node).2.1 - 2) ∧
        (1 ≤ ((3, 3, 3) : Node).2.2 ∧ ((3, 3, 3) : Node).2.2 ≤ ((7, 7, 7) : Node).2.2 - 2)) ∧
      (contactGrid ![0, 0, 1] (3, 3, 3)).g_active ≠ 0 ∧ slopeCollider.g_col (3, 3, 3) > 0 ∧
      Matrix.dotProduct ((contactGrid ![0, 0, 1] (3, 3, 3)).g_nvel -
          slopeCollider.g_colVel (3, 3, 3))
        (sdfNormalAt (exampleHost 0) slopeCollider.g_col (3, 3, 3)) < 0) ∧
    ((gridCollision (exampleHost 0) exampleParams slopeCollider (7, 7, 7)
        (contactGrid ![0, 0, 1], fun _ => 0)).1 (3, 3, 3)).g_nvel =
      slopeCollider.g_colVel (3, 3, 3) := by
  have hN : sdfNormalAt (exampleHost 0) slopeCollider.g_col (3, 3, 3) = ![0, 0, -1] :=
    sdfNormalAt_slopeCollider 0 (3, 3, 3) (by norm_num)
  have hint : (1 ≤ ((3, 3, 3) : Node).1 ∧ ((3, 3, 3) : Node).1 ≤ ((7, 7, 7) : Node).1 - 2) ∧
      (1 ≤ ((3, 3, 3) : Node).2.1 ∧ ((3, 3, 3) : Node).2.1 ≤ ((7, 7, 7) : Node).2.1 - 2) ∧
      (1 ≤ ((3, 3, 3) : Node).2.2 ∧ ((3, 3, 3) : Node).2.2 ≤ ((7, 7, 7) : Node).2.2 - 2) := by
    decide
  have ha : (contactGrid ![0, 0, 1] (3, 3, 3)).g_active ≠ 0 := one_ne_zero
  have hsdf : slopeCollider.g_col (3, 3, 3) > 0 := by norm_num [slopeCollider]
  have hrel : (contactGrid ![0, 0, 1] (3, 3, 3)).g_nvel - slopeCollider.g_colVel (3, 3, 3) =
      ![0, 0, 1] := by
    funext i
    simp [contactGrid, slopeCollider]
  have hdot : Matrix.dotProduct ((contactGrid ![0, 0, 1] (3, 3, 3)).g_nvel -
      slopeCollider.g_colVel (3, 3, 3))
      (sdfNormalAt (exampleHost 0) slopeCollider.g_col (3, 3, 3)) = -1 := by
    rw [hrel, hN]
    simp [Matrix.dotProduct, Fin.sum_univ_three]
  have hvn : Matrix.dotProduct ((contactGrid ![0, 0, 1] (3, 3, 3)).g_nvel -
      slopeCollider.g_colVel (3, 3, 3))
      (sdfNormalAt (exampleHost 0) slopeCollider.g_col (3, 3, 3)) < 0 := by
    rw [hdot]
    norm_num
  refine ⟨⟨hint, ha, hsdf, hvn⟩,
    (sticking_contact (exampleHost 0) exampleParams slopeCollider (7, 7, 7)
      (contactGrid ![0, 0, 1], fun _ => 0) (3, 3, 3) hint ha hsdf hvn ?_).1⟩
  have hvt : (contactGrid ![0, 0, 1] (3, 3, 3)).g_nvel - slopeCollider.g_colVel (3, 3, 3) -
      Matrix.dotProduct ((contactGrid ![0, 0, 1] (3, 3, 3)).g_nvel -
        slopeCollider.g_colVel (3, 3, 3))
        (sdfNormalAt (exampleHost 0) slopeCollider.g_col (3, 3, 3)) •
        sdfNormalAt (exampleHost 0) slopeCollider.g_col (3, 3, 3) = 0 := by
    rw [hdot, hrel, hN]
    funext i
    fin_cases i <;> simp
  show length (exampleHost 0) _ ≤ _
  rw [hvt, hdot]
  have hl : length (exampleHost 0) 0 = 0 := by
    have h2 : length2 (0 : Vec3) = 0 := by
      simp [length2]
    unfold length
    rw [h2]
    exact exampleHost_sqrt_zero 0
  rw [hl]
  norm_num [exampleParams]
theorem exampleHost_sqrt_25 (eps : ℚ) : (exampleHost eps).sqrt 25 = 5 := by
  have h : Nat.sqrt 25 = 5 := Nat.sqrt_eq 5
  have hn : ((25 : ℚ).num).toNat = 25 := rfl
  have hd : (25 : ℚ).den = 1 := rfl
  simp only [exampleHost, hn, hd, h, Nat.sqrt_one]
  norm_num

theorem exampleHost_sqrt_81_4 (eps : ℚ) : (exampleHost eps).sqrt (81 / 4) = 9 / 2 := by
  have h : Nat.sqrt 81 = 9 := Nat.sqrt_eq 9
  have h4 : Nat.sqrt 4 = 2 := Nat.sqrt_eq 2
  have hn : ((81 / 4 : ℚ).num).toNat = 81 := by
    have : (81 / 4 : ℚ).num = 81 := by norm_num
    rw [this]
    rfl
  have hd : (81 / 4 : ℚ).den = 4 := by norm_num
  simp only [exampleHost, hn, hd, h, h4]
  norm_num

/-- C17. Dynamic friction: for a grid-level contact with unit normal `n`, `COF >= 0`,
`vn = dot(vrel, n) < 0` and `|vt| > -vn*COF`, where `vrel = v - colliderVel` and
`vt = vrel - vn*n`, the divisor `|vt|` is positive and the rule writes a velocity `v'` such
that `v' - colliderVel` is `k*vt` for the factor `k = (|vt| + vn*COF)/|vt| > 0`, has zero
component along `n`, and,
where the host square root is exact at `|vt|^2` and at `|v' - colliderVel|^2`, has
magnitude `|vt| - COF*|vn|`. -/
theorem dynamic_friction (H : Host) (P : Params) (v vco N : Vec3)
    (hunit : Matrix.dotProduct N N = 1) (hcof : 0 ≤ P.COF)
    (hvn : Matrix.dotProduct (v - vco) N < 0)
    (hdyn : length H (v - vco - Matrix.dotProduct (v - vco) N • N) >
      -(Matrix.dotProduct (v - vco) N * P.COF)) :
    0 < length H (v - vco - Matrix.dotProduct (v - vco) N • N) ∧
    ∃ v' : Vec3, gridContact H P v vco N = some v' ∧
      0 < (length H (v - vco - Matrix.dotProduct (v - vco) N • N) +
        Matrix.dotProduct (v - vco) N * P.COF) /
          length H (v - vco - Matrix.dotProduct (v - vco) N • N) ∧
      v' - vco =
        ((length H (v - vco - Matrix.dotProduct (v - vco) N • N) +
          Matrix.dotProduct (v - vco) N * P.COF) /
            length H (v - vco - Matrix.dotProduct (v - vco) N • N)) •
          (v - vco - Matrix.dotProduct (v - vco) N • N) ∧
      Matrix.dotProduct (v' - vco) N = 0 ∧
      (length H (v - vco - Matrix.dotProduct (v - vco) N • N) *
          length H (v - vco - Matrix.dotProduct (v - vco) N • N) =
          length2 (v - vco - Matrix.dotProduct (v - vco) N • N) →
        0 ≤ length H (v' - vco) →
        length H (v' - vco) * length H (v' - vco) = length2 (v' - vco) →
        length H (v' - vco) =
          length H (v - vco - Matrix.dotProduct (v - vco) N • N) -
            P.COF * |Matrix.dotProduct (v - vco) N|) := by
  obtain ⟨vn, hvndef⟩ : ∃ vn : ℚ, vn = Matrix.dotProduct (v - vco) N := ⟨_, rfl⟩
  obtain ⟨vt, hvtdef⟩ : ∃ vt : Vec3, vt = v - vco - vn • N := ⟨_, rfl⟩
  rw [← hvndef] at hvn hdyn ⊢
  rw [← hvtdef] at hdyn ⊢
  obtain ⟨L, hLdef⟩ : ∃ L : ℚ, L = length H vt := ⟨_, rfl⟩
  rw [← hLdef] at hdyn ⊢
  have hstick : vn * P.COF ≤ 0 := mul_nonpos_of_nonpos_of_nonneg (le_of_lt hvn) hcof
  have hL : 0 < L := by linarith
  have hk : 0 < (L + vn * P.COF) / L := div_pos (by linarith) hL
  have hres : gridContact H P v vco N =
      some (vt + ((fun i => vn * P.COF * vt i / L) + vco)) := by
    unfold gridContact
    simp only [← hvndef, ← hvtdef, ← hLdef, ge_iff_le, not_le.mpr hvn, if_false,
      not_le.mpr hdyn]
  have hrel : vt + ((fun i => vn * P.COF * vt i / L) + vco) - vco =
      ((L + vn * P.COF) / L) • vt := by
    funext i
    simp only [Pi.add_apply, Pi.sub_apply, Pi.smul_apply, smul_eq_mul]
    field_simp
    ring
  have hvtN : Matrix.dotProduct vt N = 0 := by
    rw [hvtdef, Matrix.sub_dotProduct, Matrix.smul_dotProduct, hunit, ← hvndef, smul_eq_mul,
      mul_one, sub_self]
  refine ⟨hL, vt + ((fun i => vn * P.COF * vt i / L) + vco), hres, hk, hrel, ?_, ?_⟩
  · rw [hrel, Matrix.smul_dotProduct, hvtN, smul_zero]
  · intro hsq hR0 hRsq
    rw [hrel] at hR0 hRsq ⊢
    obtain ⟨R, hRdef⟩ : ∃ R : ℚ, R = length H (((L + vn * P.COF) / L) • vt) := ⟨_, rfl⟩
    rw [← hRdef] at hR0 hRsq ⊢
    have h2 : length2 (((L + vn * P.COF) / L) • vt) =
        (L + vn * P.COF) * (L + vn * P.COF) := by
      unfold length2 at hsq ⊢
      rw [Matrix.smul_dotProduct, Matrix.dotProduct_smul, ← hsq, smul_eq_mul, smul_eq_mul]
      field_simp
      ring
    rw [h2] at hRsq
    rw [abs_of_neg hvn]
    have hpos : 0 < L + vn * P.COF := by linarith
    rcases mul_self_eq_mul_self_iff.mp hRsq with h | h
    · rw [h]
      ring
    · linarith

/-- Witness of C17: velocity `(3, 4, -1)` against a collider at rest with normal
`(0, 0, 1)` and friction coefficient `1/2`: `vt = (3, 4, 0)`, `|vt| = 5`, and the velocity
written has magnitude `9/2`. -/
theorem dynamic_friction_witness :
    (Matrix.dotProduct (![0, 0, 1] : Vec3) ![0, 0, 1] = 1 ∧ 0 ≤ exampleParams.COF ∧
      Matrix.dotProduct ((![3, 4, -1] : Vec3) - ![0, 0, 0]) ![0, 0, 1] < 0 ∧
      length (exampleHost 0) ((![3, 4, -1] : Vec3) - ![0, 0, 0] -
          Matrix.dotProduct ((![3, 4, -1] : Vec3) - ![0, 0, 0]) ![0, 0, 1] • ![0, 0, 1]) >
        -(Matrix.dotProduct ((![3, 4, -1] : Vec3) - ![0, 0, 0]) ![0, 0, 1] *
          exampleParams.COF)) ∧
    ∃ v' : Vec3, gridContact (exampleHost 0) exampleParams ![3, 4, -1] ![0, 0, 0] ![0, 0, 1] =
        some v' ∧
      Matrix.dotProduct (v' - ![0, 0, 0]) ![0, 0, 1] = 0 ∧
      length (exampleHost 0) (v' - ![0, 0, 0]) = 9 / 2 := by
  have hunit : Matrix.dotProduct (![0, 0, 1] : Vec3) ![0, 0, 1] = 1 := by
    simp [Matrix.dotProduct, Fin.sum_univ_three]
  have hcof : (0 : ℚ) ≤ exampleParams.COF := by norm_num [exampleParams]
  have hdot : Matrix.dotProduct ((![3, 4, -1] : Vec3) - ![0, 0, 0]) ![0, 0, 1] = -1 := by
    simp [Matrix.dotProduct, Fin.sum_univ_three]
  have hvt : (![3, 4, -1] : Vec3) - ![0, 0, 0] - (-1 : ℚ) • ![0, 0, 1] = ![3, 4, 0] := by
    funext i
    fin_cases i <;> simp
  have hL : length (exampleHost 0) ![3, 4, 0] = 5 := by
    have h2 : length2 ![3, 4, 0] = 25 := by
      simp [length2, Matrix.dotProduct, Fin.sum_univ_three]
      norm_num
    unfold length
    rw [h2]
    exact exampleHost_sqrt_25 0
  have hL2 : length2 ![3, 4, 0] = 25 := by
    simp [length2, Matrix.dotProduct, Fin.sum_univ_three]
    norm_num
  have hvn : Matrix.dotProduct ((![3, 4, -1] : Vec3) - ![0, 0, 0]) ![0, 0, 1] < 0 := by
    rw [hdot]
    norm_num
  have hdyn : length (exampleHost 0) ((![3, 4, -1] : Vec3) - ![0, 0, 0] -
      Matrix.dotProduct ((![3, 4, -1] : Vec3) - ![0, 0, 0]) ![0, 0, 1] • ![0, 0, 1]) >
      -(Matrix.dotProduct ((![3, 4, -1] : Vec3) - ![0, 0, 0]) ![0, 0, 1] *
        exampleParams.COF) := by
    rw [hdot, hvt, hL]
    norm_num [exampleParams]
  obtain ⟨_, v', hv', _, hrel, hzero, hmag⟩ := dynamic_friction (exampleHost 0)
    exampleParams ![3, 4, -1] ![0, 0, 0] ![0, 0, 1] hunit hcof hvn hdyn
  rw [hdot, hvt, hL, hL2] at hmag
  rw [hdot, hvt, hL] at hrel
  have hval : v' - ![0, 0, 0] = ![27 / 10, 18 / 5, 0] := by
    rw [hrel]
    funext i
    fin_cases i <;> norm_num [exampleParams]
  have hR2 : length2 ![27 / 10, 18 / 5, 0] = 81 / 4 := by
    simp [length2, Matrix.dotProduct, Fin.sum_univ_three]
    norm_num
  have hR : length (exampleHost 0) ![27 / 10, 18 / 5, 0] = 9 / 2 := by
    unfold length
    rw [hR2]
    exact exampleHost_sqrt_81_4 0
  refine ⟨⟨hunit, hcof, hvn, hdyn⟩, v', hv', hzero, ?_⟩
  rw [hval] at hmag ⊢
  rw [hmag (by norm_num) (by rw [hR]; norm_num) (by rw [hR, hR2]; norm_num)]
  norm_num [exampleParams]

/-! ## The collider sampled at a particle -/

theorem sampleFold_col_sdf (H : Host) (C : Collider) (gpos : Vec3) (l : List Node) :
    ∀ a : Sampled, (l.foldl (sampleStep H C gpos) a).col_sdf =
      a.col_sdf + (l.map fun n => C.g_col n * sampleWeight gpos n).sum := by
  induction l with
  | nil =>
    intro a
    simp
  | cons n l ih =>
    intro a
    rw [List.foldl_cons, ih, List.map_cons, List.sum_cons]
    simp only [sampleStep, sampleWeight]
    ring

theorem sampleFold_col_vel (H : Host) (C : Collider) (gpos : Vec3) (k : Fin 3)
    (l : List Node) :
    ∀ a : Sampled, (l.foldl (sampleStep H C gpos) a).col_vel k =
      a.col_vel k + (l.map fun n => C.g_colVel n k * sampleWeight gpos n).sum := by
  induction l with
  | nil =>
    intro a
    simp
  | cons n l ih =>
    intro a
    rw [List.foldl_cons, ih, List.map_cons, List.sum_cons]
    simp only [sampleStep, sampleWeight]
    ring

/-- The SDF and the collider velocity sampled at a particle are the sums over the 8 voxels
of its cell of the voxel's value times `sampleWeight`. -/
theorem sampleCollider_sums (H : Host) (P : Params) (G : Geometry) (C : Collider)
    (sdf_normal : Vec3) (p : Particle) :
    (sampleCollider H P G C sdf_normal p).col_sdf =
        ((cellNodes (posToIndex G.grid_origin P.division_size p.position)).map fun n =>
          C.g_col n *
            sampleWeight (gridPos G.grid_origin P.division_size p.position) n).sum ∧
      ∀ k, (sampleCollider H P G C sdf_normal p).col_vel k =
        ((cellNodes (posToIndex G.grid_origin P.division_size p.position)).map fun n =>
          C.g_colVel n k *
            sampleWeight (gridPos G.grid_origin P.division_size p.position) n).sum := by
  unfold sampleCollider
  refine ⟨?_, fun k => ?_⟩
  · rw [sampleFold_col_sdf, zero_add]
  · rw [sampleFold_col_vel, zero_add]

/-- The weight of the code at a voxel of the cell, by axis: the factor is `f` at `lower`
and `1 - f` at `lower + 1`, the mirror image of the trilinear factor. -/
theorem sampleWeight_cell (gpos : Vec3) (n : Node)
    (hn : n ∈ cellNodes (⌊gpos 0⌋, ⌊gpos 1⌋, ⌊gpos 2⌋)) :
    sampleWeight gpos n =
      (if n.2.2 = ⌊gpos 2⌋ then gpos 2 - ⌊gpos 2⌋ else 1 - (gpos 2 - ⌊gpos 2⌋)) *
        (if n.2.1 = ⌊gpos 1⌋ then gpos 1 - ⌊gpos 1⌋ else 1 - (gpos 1 - ⌊gpos 1⌋)) *
        (if n.1 = ⌊gpos 0⌋ then gpos 0 - ⌊gpos 0⌋ else 1 - (gpos 0 - ⌊gpos 0⌋)) := by
  have haxis : ∀ (x : ℚ) (i : Int), i ∈ cellRange ⌊x⌋ →
      |x - i| = if i = ⌊x⌋ then x - ⌊x⌋ else 1 - (x - ⌊x⌋) := by
    intro x i hi
    have h0 := Int.floor_le x
    have h1 := Int.lt_floor_add_one x
    unfold cellRange at hi
    rcases List.mem_cons.mp hi with h | h
    · rw [if_pos h, h, abs_of_nonneg (by linarith)]
    · have h' : i = ⌊x⌋ + 1 := by simpa using h
      have hne : i ≠ ⌊x⌋ := by omega
      rw [if_neg hne, h', abs_of_neg (by push_cast; linarith)]
      push_cast
      ring
  obtain ⟨x, y, z⟩ := n
  unfold cellNodes at hn
  simp only [List.mem_flatMap, List.mem_map, Prod.mk.injEq] at hn
  obtain ⟨c, hc, b, hb, a, ha, rfl, rfl, rfl⟩ := hn
  unfold sampleWeight
  simp only [abs_mul]
  rw [haxis _ _ hc, haxis _ _ hb, haxis _ _ ha]

theorem cellNodes_sum (c : Node) (F : Node → ℚ) :
    ((cellNodes c).map F).sum =
      F (c.1, c.2.1, c.2.2) + F (c.1 + 1, c.2.1, c.2.2) + F (c.1, c.2.1 + 1, c.2.2) +
        F (c.1 + 1, c.2.1 + 1, c.2.2) + F (c.1, c.2.1, c.2.2 + 1) +
        F (c.1 + 1, c.2.1, c.2.2 + 1) + F (c.1, c.2.1 + 1, c.2.2 + 1) +
        F (c.1 + 1, c.2.1 + 1, c.2.2 + 1) := by
  simp only [cellNodes, cellRange, List.flatMap_cons, List.flatMap_nil, List.map_cons,
    List.map_nil, List.append_nil, List.cons_append, List.nil_append, List.sum_cons,
    List.sum_nil]
  ring

/-- The 8 weights of the code are not negative and sum to 1. -/
theorem sampleWeight_sum (gpos : Vec3) :
    (∀ n, 0 ≤ sampleWeight gpos n) ∧
      ((cellNodes (⌊gpos 0⌋, ⌊gpos 1⌋, ⌊gpos 2⌋)).map (sampleWeight gpos)).sum = 1 := by
  refine ⟨fun n => abs_nonneg _, ?_⟩
  have hmem : ∀ n ∈ cellNodes (⌊gpos 0⌋, ⌊gpos 1⌋, ⌊gpos 2⌋),
      sampleWeight gpos n =
        (if n.2.2 = ⌊gpos 2⌋ then gpos 2 - ⌊gpos 2⌋ else 1 - (gpos 2 - ⌊gpos 2⌋)) *
          (if n.2.1 = ⌊gpos 1⌋ then gpos 1 - ⌊gpos 1⌋ else 1 - (gpos 1 - ⌊gpos 1⌋)) *
          (if n.1 = ⌊gpos 0⌋ then gpos 0 - ⌊gpos 0⌋ else 1 - (gpos 0 - ⌊gpos 0⌋)) :=
    fun n hn => sampleWeight_cell gpos n hn
  rw [List.map_congr_left hmem, cellNodes_sum]
  simp only [if_true, add_right_eq_self, one_ne_zero, if_false]
  ring

/-- C20, the divergence. The loops of lines 729-745 are run for a particle that sits
exactly on the voxel `lower` of its cell (`gpos = lower`, so `f = 0` on every axis). A
trilinear interpolation, with factor `1 - f` at `lower` and `f` at `lower + 1`, gives the
SDF of `lower`. The code gives the SDF and the collider velocity of the diagonally opposite
voxel `lower + (1, 1, 1)`: its factor `abs(gpos - x)` is `f` at `lower` and `1 - f` at
`lower + 1`. So `centredParticle`, on the voxel `(3, 3, 3)`, samples from `slopeCollider`
the SDF 4 of the voxel `(4, 4, 4)`, not the SDF 3 of its own voxel. -/
theorem collision_sample_mirrored (H : Host) (C : Collider) (sdf_normal : Vec3)
    (lower : Node) :
    (((cellNodes lower).foldl
        (sampleStep H C fun k => ((![lower.1, lower.2.1, lower.2.2] : Fin 3 → Int) k : ℚ))
        { col_sdf := 0, col_normal := fun _ => 0, col_vel := fun _ => 0,
          sdf_normal := sdf_normal }).col_sdf =
      C.g_col (lower.1 + 1, lower.2.1 + 1, lower.2.2 + 1)) ∧
    (((cellNodes lower).foldl
        (sampleStep H C fun k => ((![lower.1, lower.2.1, lower.2.2] : Fin 3 → Int) k : ℚ))
        { col_sdf := 0, col_normal := fun _ => 0, col_vel := fun _ => 0,
          sdf_normal := sdf_normal }).col_vel =
      C.g_colVel (lower.1 + 1, lower.2.1 + 1, lower.2.2 + 1)) ∧
    (((cellNodes lower).map fun n => C.g_col n *
        trilinearWeight (fun k => ((![lower.1, lower.2.1, lower.2.2] : Fin 3 → Int) k : ℚ))
          lower n).sum = C.g_col lower) ∧
    (gridPos exampleGeometry.grid_origin exampleParams.division_size
        centredParticle.position = fun _ => 3) ∧
    (sampleCollider H exampleParams exampleGeometry slopeCollider sdf_normal
        centredParticle).col_sdf = 4 ∧
    slopeCollider.g_col (3, 3, 3) = 3 := by
  have hw : ∀ F : Node → ℚ,
      ((cellNodes lower).map fun n => F n *
        sampleWeight (fun k => ((![lower.1, lower.2.1, lower.2.2] : Fin 3 → Int) k : ℚ))
          n).sum = F (lower.1 + 1, lower.2.1 + 1, lower.2.2 + 1) := by
    intro F
    rw [cellNodes_sum]
    simp [sampleWeight]
  have hgpos : gridPos exampleGeometry.grid_origin exampleParams.division_size
      centredParticle.position = fun _ => 3 := by
    funext i
    norm_num [gridPos, exampleGeometry, exampleParams, centredParticle]
  refine ⟨?_, ?_, ?_, hgpos, ?_, ?_⟩
  · rw [sampleFold_col_sdf, zero_add]
    exact hw C.g_col
  · funext k
    rw [sampleFold_col_vel, zero_add]
    exact hw fun n => C.g_colVel n k
  · rw [cellNodes_sum]
    simp [trilinearWeight]
  · rw [(sampleCollider_sums H exampleParams exampleGeometry slopeCollider sdf_normal
      centredParticle).1, posToIndex_centredParticle, hgpos, cellNodes_sum]
    simp [sampleWeight, slopeCollider]
    norm_num
  · simp [slopeCollider]

/-! ## Plasticity: the total deformation gradient -/

theorem clampSingular_ne_zero (P : Params) (e : ℚ) (hc : 0 < P.CRIT_COMPRESS)
    (hs : P.CRIT_STRETCH ≠ 0) : clampSingular P e ≠ 0 := by
  unfold clampSingular
  split
  · exact ne_of_gt hc
  · split
    · exact hs
    · rename_i h1 _
      exact ne_of_gt (lt_of_lt_of_le hc (not_lt.mp h1))

theorem diagonal_mul_inv (d : Vec3) (hd : ∀ i, d i ≠ 0) :
    Matrix.diagonal d * Matrix.diagonal (fun i => (d i)⁻¹) = (1 : Mat3) := by
  rw [Matrix.diagonal_mul_diagonal]
  have : (fun i => d i * (d i)⁻¹) = fun _ : Fin 3 => (1 : ℚ) :=
    funext fun i => mul_inv_cancel₀ (hd i)
  rw [this, Matrix.diagonal_one]

/-- The product `U diag(d) V^T * (V diag(d)^-1 U^T A B)` is `A B` for orthogonal `U`, `V`
and `d` without zero entry. -/
theorem recompose_product (U V A B : Mat3) (d : Vec3) (hU : U.transpose * U = 1)
    (hV : V.transpose * V = 1) (hd : ∀ i, d i ≠ 0) :
    U * Matrix.diagonal d * V.transpose *
      (V * Matrix.diagonal (fun i => (d i)⁻¹) * U.transpose * A * B) = A * B := by
  have hU2 : U * U.transpose = 1 := Matrix.mul_eq_one_comm.mp hU
  calc U * Matrix.diagonal d * V.transpose *
        (V * Matrix.diagonal (fun i => (d i)⁻¹) * U.transpose * A * B)
      = U * (Matrix.diagonal d * ((V.transpose * V) *
          Matrix.diagonal (fun i => (d i)⁻¹))) * U.transpose * (A * B) := by
        simp only [Matrix.mul_assoc]
    _ = A * B := by
        rw [hV, Matrix.one_mul, diagonal_mul_inv d hd, Matrix.mul_one, hU2, Matrix.one_mul]

/-- C23, as stated, fails for `criticalStretch = 0`: with `criticalCompression = 1/10 > 0`
and `Fe = Fp = I`, decomposed by `U = V = I` with singular values 1, each singular value is
clamped to 0, the updated `Fe` is 0 and the product of the updated pair is 0, not
`Fe * Fp = I`. -/
theorem plasticity_loses_gradient_at_zero_stretch :
    0 < zeroStretchParams.CRIT_COMPRESS ∧
      IsSVD (eigenMap centredParticle.Fe) ((exampleHost 0).svd (eigenMap centredParticle.Fe)) ∧
      (constitutive (exampleHost 0) zeroStretchParams centredParticle).def_elastic = 0 ∧
      (constitutive (exampleHost 0) zeroStretchParams centredParticle).def_elastic *
          (constitutive (exampleHost 0) zeroStretchParams centredParticle).def_plastic ≠
        eigenMap centredParticle.Fe * eigenMap centredParticle.Fp := by
  have hE : (constitutive (exampleHost 0) zeroStretchParams centredParticle).def_elastic = 0 := by
    have hd : (fun i : Fin 3 => clampSingular zeroStretchParams
        (((exampleHost 0).svd (eigenMap centredParticle.Fe)).2.1 i)) = fun _ => 0 := by
      funext i
      simp [clampSingular, zeroStretchParams, exampleParams, exampleHost, eigenMap,
        centredParticle]
      norm_num
    show ((exampleHost 0).svd (eigenMap centredParticle.Fe)).1 *
      Matrix.diagonal (fun i : Fin 3 => clampSingular zeroStretchParams
        (((exampleHost 0).svd (eigenMap centredParticle.Fe)).2.1 i)) *
      ((exampleHost 0).svd (eigenMap centredParticle.Fe)).2.2.transpose = 0
    rw [hd]
    have h0 : Matrix.diagonal (fun _ : Fin 3 => (0 : ℚ)) = 0 := Matrix.diagonal_zero
    rw [h0, Matrix.mul_zero, Matrix.zero_mul]
  refine ⟨by norm_num [zeroStretchParams], isSVD_exampleHost_one 0, hE, ?_⟩
  rw [hE, Matrix.zero_mul]
  have h1 : eigenMap centredParticle.Fe * eigenMap centredParticle.Fp = (1 : Mat3) := by
    simp [eigenMap, centredParticle]
  rw [h1]
  exact zero_ne_one

/-- C23, amended. The plasticity projection preserves the total deformation gradient when
no clamped singular value is 0: for `criticalCompression > 0` and `criticalStretch != 0`
(so for `criticalStretch >= criticalCompression > 0`) and factors `U`, `V` of the
decomposition that are orthogonal, the updated pair `Fe_new = U diag(clamp s) V^T`,
`Fp_new = V diag(clamp s)^-1 U^T Fe Fp` satisfies `Fe_new * Fp_new = Fe * Fp`; and when
`(U, s, V)` decomposes `Fe` and no singular value is clamped, `Fe_new = Fe` and
`Fp_new = Fp`, so the particle is stored with the `Fe` and `Fp` it had. -/
theorem plasticity_preserves_gradient (H : Host) (P : Params) (p : Particle)
    (hc : 0 < P.CRIT_COMPRESS) (hs : P.CRIT_STRETCH ≠ 0)
    (hU : (H.svd (eigenMap p.Fe)).1.transpose * (H.svd (eigenMap p.Fe)).1 = 1)
    (hV : (H.svd (eigenMap p.Fe)).2.2.transpose * (H.svd (eigenMap p.Fe)).2.2 = 1) :
    (constitutive H P p).def_elastic =
        (H.svd (eigenMap p.Fe)).1 *
          Matrix.diagonal (fun i => clampSingular P ((H.svd (eigenMap p.Fe)).2.1 i)) *
          (H.svd (eigenMap p.Fe)).2.2.transpose ∧
      (constitutive H P p).def_plastic =
        (H.svd (eigenMap p.Fe)).2.2 *
          Matrix.diagonal (fun i => (clampSingular P ((H.svd (eigenMap p.Fe)).2.1 i))⁻¹) *
          (H.svd (eigenMap p.Fe)).1.transpose * eigenMap p.Fe * eigenMap p.Fp ∧
      (constitutive H P p).def_elastic * (constitutive H P p).def_plastic =
        eigenMap p.Fe * eigenMap p.Fp ∧
      (eigenMap p.Fe = (H.svd (eigenMap p.Fe)).1 *
          Matrix.diagonal (H.svd (eigenMap p.Fe)).2.1 * (H.svd (eigenMap p.Fe)).2.2.transpose →
        (∀ i, clampSingular P ((H.svd (eigenMap p.Fe)).2.1 i) =
          (H.svd (eigenMap p.Fe)).2.1 i) →
        (constitutive H P p).def_elastic = eigenMap p.Fe ∧
          (constitutive H P p).def_plastic = eigenMap p.Fp ∧
          (applyPlasticity H P p).Fe = p.Fe ∧ (applyPlasticity H P p).Fp = p.Fp) := by
  have hd : ∀ i, clampSingular P ((H.svd (eigenMap p.Fe)).2.1 i) ≠ 0 :=
    fun i => clampSingular_ne_zero P _ hc hs
  have hprod := recompose_product (H.svd (eigenMap p.Fe)).1 (H.svd (eigenMap p.Fe)).2.2
    (eigenMap p.Fe) (eigenMap p.Fp)
    (fun i => clampSingular P ((H.svd (eigenMap p.Fe)).2.1 i)) hU hV hd
  refine ⟨rfl, rfl, hprod, ?_⟩
  intro hA hun
  have hfun : (fun i => clampSingular P ((H.svd (eigenMap p.Fe)).2.1 i)) =
      (H.svd (eigenMap p.Fe)).2.1 := funext hun
  have hE : (constitutive H P p).def_elastic = eigenMap p.Fe := by
    show (H.svd (eigenMap p.Fe)).1 *
      Matrix.diagonal (fun i => clampSingular P ((H.svd (eigenMap p.Fe)).2.1 i)) *
      (H.svd (eigenMap p.Fe)).2.2.transpose = eigenMap p.Fe
    rw [hfun]
    exact hA.symm
  have hP : (constitutive H P p).def_plastic = eigenMap p.Fp := by
    have h1 : (constitutive H P p).def_elastic * (constitutive H P p).def_plastic =
        eigenMap p.Fe * eigenMap p.Fp := hprod
    have hV2 : (H.svd (eigenMap p.Fe)).2.2 * (H.svd (eigenMap p.Fe)).2.2.transpose = 1 :=
      Matrix.mul_eq_one_comm.mp hV
    have hinv : (H.svd (eigenMap p.Fe)).2.2 *
        Matrix.diagonal (fun i => (clampSingular P ((H.svd (eigenMap p.Fe)).2.1 i))⁻¹) *
        (H.svd (eigenMap p.Fe)).1.transpose * eigenMap p.Fe = 1 := by
      have hdi : Matrix.diagonal (fun i => (clampSingular P ((H.svd (eigenMap p.Fe)).2.1 i))⁻¹) *
          Matrix.diagonal (fun i => clampSingular P ((H.svd (eigenMap p.Fe)).2.1 i)) =
          (1 : Mat3) := by
        rw [Matrix.diagonal_mul_diagonal]
        have : (fun i => (clampSingular P ((H.svd (eigenMap p.Fe)).2.1 i))⁻¹ *
            clampSingular P ((H.svd (eigenMap p.Fe)).2.1 i)) = fun _ : Fin 3 => (1 : ℚ) :=
          funext fun i => inv_mul_cancel₀ (hd i)
        rw [this, Matrix.diagonal_one]
      have hA' : eigenMap p.Fe = (H.svd (eigenMap p.Fe)).1 *
          Matrix.diagonal (fun i => clampSingular P ((H.svd (eigenMap p.Fe)).2.1 i)) *
          (H.svd (eigenMap p.Fe)).2.2.transpose := by
        rw [hfun]
        exact hA
      generalize (H.svd (eigenMap p.Fe)).1 = U at hU hdi hA' ⊢
      generalize (H.svd (eigenMap p.Fe)).2.2 = V at hV2 hdi hA' ⊢
      generalize Matrix.diagonal
        (fun i => (clampSingular P ((H.svd (eigenMap p.Fe)).2.1 i))⁻¹) = Di at hdi ⊢
      generalize Matrix.diagonal
        (fun i => clampSingular P ((H.svd (eigenMap p.Fe)).2.1 i)) = D at hdi hA' ⊢
      generalize eigenMap p.Fe = A at hA' ⊢
      rw [hA']
      calc V * Di * U.transpose * (U * D * V.transpose)
          = V * (Di * ((U.transpose * U) * D)) * V.transpose := by
            simp only [Matrix.mul_assoc]
        _ = 1 := by rw [hU, Matrix.one_mul, hdi, Matrix.mul_one, hV2]
    show (H.svd (eigenMap p.Fe)).2.2 *
      Matrix.diagonal (fun i => (clampSingular P ((H.svd (eigenMap p.Fe)).2.1 i))⁻¹) *
      (H.svd (eigenMap p.Fe)).1.transpose * eigenMap p.Fe * eigenMap p.Fp = eigenMap p.Fp
    rw [hinv, Matrix.one_mul]
  refine ⟨hE, hP, ?_, ?_⟩
  · show eigenMap (constitutive H P p).def_elastic = p.Fe
    rw [hE]
    exact Matrix.transpose_transpose _
  · show eigenMap (constitutive H P p).def_plastic = p.Fp
    rw [hP]
    exact Matrix.transpose_transpose _

/-- Witness of C23: the example particle, `Fe = Fp = I`, with the interval `[1/10, 10]`. -/
theorem plasticity_preserves_gradient_witness :
    (0 < exampleParams.CRIT_COMPRESS ∧ exampleParams.CRIT_STRETCH ≠ 0 ∧
      ((exampleHost 0).svd (eigenMap centredParticle.Fe)).1.transpose *
        ((exampleHost 0).svd (eigenMap centredParticle.Fe)).1 = 1 ∧
      ((exampleHost 0).svd (eigenMap centredParticle.Fe)).2.2.transpose *
        ((exampleHost 0).svd (eigenMap centredParticle.Fe)).2.2 = 1) ∧
    (constitutive (exampleHost 0) exampleParams centredParticle).def_elastic *
        (constitutive (exampleHost 0) exampleParams centredParticle).def_plastic =
      eigenMap centredParticle.Fe * eigenMap centredParticle.Fp := by
  have hc : 0 < exampleParams.CRIT_COMPRESS := by norm_num [exampleParams]
  have hs : exampleParams.CRIT_STRETCH ≠ 0 := by norm_num [exampleParams]
  have hsvd := isSVD_exampleHost_one 0
  exact ⟨⟨hc, hs, hsvd.2.1, hsvd.2.2.1⟩,
    (plasticity_preserves_gradient (exampleHost 0) exampleParams centredParticle hc hs
      hsvd.2.1 hsvd.2.2.1).2.2.1⟩

/-! ## The energy derivative -/

theorem energy_core (U V : Mat3) (d : Vec3) (hV : V.transpose * V = 1) :
    (U * Matrix.diagonal d * V.transpose - U * V.transpose) *
        (U * Matrix.diagonal d * V.transpose).transpose =
      U * Matrix.diagonal (fun i => d i * d i - d i) * U.transpose := by
  have hdd : Matrix.diagonal (fun i => d i * d i - d i) =
      Matrix.diagonal d * Matrix.diagonal d - (Matrix.diagonal d : Mat3) := by
    rw [Matrix.diagonal_mul_diagonal, ← Matrix.diagonal_sub]
  rw [Matrix.transpose_mul, Matrix.transpose_mul, Matrix.transpose_transpose,
    Matrix.diagonal_transpose, hdd]
  calc (U * Matrix.diagonal d * V.transpose - U * V.transpose) *
        (V * (Matrix.diagonal d * U.transpose))
      = U * (Matrix.diagonal d * ((V.transpose * V) * Matrix.diagonal d)) * U.transpose -
          U * ((V.transpose * V) * Matrix.diagonal d) * U.transpose := by
        simp only [Matrix.sub_mul, Matrix.mul_assoc]
    _ = U * (Matrix.diagonal d * Matrix.diagonal d - Matrix.diagonal d) * U.transpose := by
        rw [hV, Matrix.one_mul, Matrix.mul_sub, Matrix.sub_mul]

theorem conj_diagonal_const (U : Mat3) (c : ℚ) (hU : U.transpose * U = 1) :
    U * Matrix.diagonal (fun _ => c) * U.transpose = Matrix.diagonal fun _ => c := by
  have hU2 : U * U.transpose = 1 := Matrix.mul_eq_one_comm.mp hU
  have hc : (Matrix.diagonal fun _ : Fin 3 => c) = c • (1 : Mat3) := by
    ext i j
    by_cases h : i = j
    · simp [h]
    · simp [h]
  rw [hc, Matrix.mul_smul, Matrix.mul_one, Matrix.smul_mul, hU2]

theorem conj_diagonal_combine (U : Mat3) (a b : Vec3) (c : ℚ) :
    c • (U * Matrix.diagonal a * U.transpose) + U * Matrix.diagonal b * U.transpose =
      U * Matrix.diagonal (fun i => c * a i + b i) * U.transpose := by
  have hd : Matrix.diagonal (fun i => c * a i + b i) =
      c • (Matrix.diagonal a : Mat3) + Matrix.diagonal b := by
    ext i j
    by_cases h : i = j
    · simp [h]
    · simp [h]
  rw [hd, Matrix.mul_add, Matrix.add_mul, Matrix.mul_smul, Matrix.smul_mul]

theorem conj_diagonal_transpose (U : Mat3) (d : Vec3) :
    (U * Matrix.diagonal d * U.transpose).transpose = U * Matrix.diagonal d * U.transpose := by
  rw [Matrix.transpose_mul, Matrix.transpose_mul, Matrix.transpose_transpose,
    Matrix.diagonal_transpose, Matrix.mul_assoc]

/-- C24. The energy derivative scattered as force is symmetric: for factors `U`, `V` of the
decomposition that are orthogonal, whatever the clamped singular values `s`, the Lame
parameters, the volume and the hardening factor, `energy` is
`scale * U diag(2*mu*(s_i^2 - s_i) + lambda*Je*(Je-1)) U^T`, equals its transpose, and so
is the same matrix in the Eigen and in the HDK layout: the force scatter reads the same
numbers from its rows as from its columns. -/
theorem energy_symmetric (H : Host) (P : Params) (p : Particle)
    (hU : (H.svd (eigenMap p.Fe)).1.transpose * (H.svd (eigenMap p.Fe)).1 = 1)
    (hV : (H.svd (eigenMap p.Fe)).2.2.transpose * (H.svd (eigenMap p.Fe)).2.2 = 1) :
    (constitutive H P p).energy =
        (p.volume * H.exp (P.HARDENING * (1 - (constitutive H P p).def_plastic.det))) •
          ((constitutive H P p).svd_u *
            Matrix.diagonal (fun i => 2 * lameMu P *
                ((constitutive H P p).svd_e i * (constitutive H P p).svd_e i -
                  (constitutive H P p).svd_e i) +
              lameLambda P *
                ((constitutive H P p).svd_e 0 * (constitutive H P p).svd_e 1 *
                  (constitutive H P p).svd_e 2) *
                ((constitutive H P p).svd_e 0 * (constitutive H P p).svd_e 1 *
                  (constitutive H P p).svd_e 2 - 1)) *
            (constitutive H P p).svd_u.transpose) ∧
      (constitutive H P p).energy.transpose = (constitutive H P p).energy ∧
      eigenMap (constitutive H P p).energy = (constitutive H P p).energy ∧
      ∀ (ngrad : Vec3) (k : Fin 3),
        Matrix.dotProduct ngrad (eigenMap (constitutive H P p).energy k) =
          Matrix.dotProduct ngrad fun j => eigenMap (constitutive H P p).energy j k := by
  have hform : (constitutive H P p).energy =
      (p.volume * H.exp (P.HARDENING * (1 - (constitutive H P p).def_plastic.det))) •
        ((constitutive H P p).svd_u *
          Matrix.diagonal (fun i => 2 * lameMu P *
              ((constitutive H P p).svd_e i * (constitutive H P p).svd_e i -
                (constitutive H P p).svd_e i) +
            lameLambda P *
              ((constitutive H P p).svd_e 0 * (constitutive H P p).svd_e 1 *
                (constitutive H P p).svd_e 2) *
              ((constitutive H P p).svd_e 0 * (constitutive H P p).svd_e 1 *
                (constitutive H P p).svd_e 2 - 1)) *
          (constitutive H P p).svd_u.transpose) := by
    have hdef : (constitutive H P p).energy =
        (p.volume * H.exp (P.HARDENING * (1 - (constitutive H P p).def_plastic.det))) •
          ((2 * lameMu P) •
            (((constitutive H P p).svd_u * Matrix.diagonal (constitutive H P p).svd_e *
                (constitutive H P p).svd_v.transpose -
              (constitutive H P p).svd_u * (constitutive H P p).svd_v.transpose) *
              ((constitutive H P p).svd_u * Matrix.diagonal (constitutive H P p).svd_e *
                (constitutive H P p).svd_v.transpose).transpose) +
            Matrix.diagonal fun _ => lameLambda P *
              ((constitutive H P p).svd_e 0 * (constitutive H P p).svd_e 1 *
                (constitutive H P p).svd_e 2) *
              ((constitutive H P p).svd_e 0 * (constitutive H P p).svd_e 1 *
                (constitutive H P p).svd_e 2 - 1)) := rfl
    have hU' : (constitutive H P p).svd_u.transpose * (constitutive H P p).svd_u = 1 := hU
    have hV' : (constitutive H P p).svd_v.transpose * (constitutive H P p).svd_v = 1 := hV
    rw [hdef]
    congr 1
    rw [energy_core (constitutive H P p).svd_u (constitutive H P p).svd_v
        (constitutive H P p).svd_e hV',
      ← conj_diagonal_const (constitutive H P p).svd_u _ hU', conj_diagonal_combine]
  have hsym : (constitutive H P p).energy.transpose = (constitutive H P p).energy := by
    rw [hform, Matrix.transpose_smul, conj_diagonal_transpose]
  refine ⟨hform, hsym, hsym, fun ngrad k => ?_⟩
  have hk : eigenMap (constitutive H P p).energy k =
      fun j => eigenMap (constitutive H P p).energy j k := by
    funext j
    have := congrFun (congrFun hsym k) j
    simp only [eigenMap, Matrix.transpose_apply] at this ⊢
    exact this
  rw [hk]

/-- Witness of C24: the example particle, `Fe = Fp = I`. -/
theorem energy_symmetric_witness :
    (((exampleHost 0).svd (eigenMap centredParticle.Fe)).1.transpose *
        ((exampleHost 0).svd (eigenMap centredParticle.Fe)).1 = 1 ∧
      ((exampleHost 0).svd (eigenMap centredParticle.Fe)).2.2.transpose *
        ((exampleHost 0).svd (eigenMap centredParticle.Fe)).2.2 = 1) ∧
    (constitutive (exampleHost 0) exampleParams centredParticle).energy.transpose =
      (constitutive (exampleHost 0) exampleParams centredParticle).energy := by
  have hsvd := isSVD_exampleHost_one 0
  exact ⟨⟨hsvd.2.1, hsvd.2.2.1⟩,
    (energy_symmetric (exampleHost 0) exampleParams centredParticle hsvd.2.1 hsvd.2.2.1).2.1⟩

/-! ## Simulated time per frame -/

/-- The loop variables at the exit of the substep loop: the accumulated time is the time on
entry plus the lengths of the substeps run, it does not pass the frame if a substep ran,
and one of the two exit conditions holds. -/
theorem substepLoop_time (H : Host) (P : Params) (F : Fields) (time framerate : ℚ) :
    ∀ (fuel k : ℕ) (s : LoopState) (log : List ℚ) (r : FrameResult),
      substepLoop H P F time framerate fuel k s log = some r →
      ∃ (s' : LoopState) (new : List ℚ), r.substeps = log ++ new ∧
        r.particles = s'.particles ∧ s'.adaptive_time = s.adaptive_time + new.sum ∧
        (new ≠ [] → s'.adaptive_time ≤ framerate) ∧ (new = [] → s' = s) ∧
        (s'.adaptive_time ≥ framerate ∨
          adaptiveTimestep H P framerate s'.max_vel s'.adaptive_time < H.EPSILON) := by
  intro fuel
  induction fuel with
  | zero =>
    intro k s log r h
    simp [substepLoop] at h
  | succ fuel ih =>
    intro k s log r h
    rw [substepLoop] at h
    split at h
    · rename_i hexit
      have hr : densityExit H P F k s log = r := Option.some.inj h
      refine ⟨s, [], ?_, ?_, ?_, fun hne => absurd rfl hne, fun _ => rfl, hexit⟩
      · rw [← hr, List.append_nil]
        rfl
      · rw [← hr]
        rfl
      · rw [List.sum_nil, add_zero]
    · obtain ⟨s', new1, hlog, hpart, htime, hle, hnil, hexit⟩ := ih _ _ _ r h
      refine ⟨s', adaptiveTimestep H P framerate s.max_vel s.adaptive_time :: new1, ?_, hpart,
        ?_, fun _ => ?_, fun hne => absurd hne (List.cons_ne_nil _ _), hexit⟩
      · rw [hlog, List.append_assoc, List.singleton_append]
      · rw [htime, nextState_adaptive_time, List.sum_cons, add_assoc]
      · by_cases hn : new1 = []
        · rw [hnil hn, nextState_adaptive_time]
          exact adaptiveTimestep_le_frame H P framerate s.max_vel s.adaptive_time
        · exact hle hn

/-- C25, as stated, fails for a negative frame length: with `frameLength = -1` the loop
goes to the density pass at once, no velocity substep is run, and the empty sum 0 of the
substep lengths is above the frame length. -/
theorem frame_time_exceeds_negative_frame :
    ∃ r, solveGasSubclass (exampleHost (1 / 10000)) exampleParams exampleFields 0 (-1)
          (fun _ => 0) (fun _ => 0) 1 (some [centredParticle]) = some (true, some r) ∧
      r.substeps = [] ∧ ¬ r.substeps.sum ≤ -1 := by
  refine ⟨densityExit (exampleHost (1 / 10000)) exampleParams exampleFields 0
    { particles := [centredParticle]
      max_vel := (initialBounds (fun _ => 0) (fun _ => 0) [centredParticle]).max_vel
      adaptive_time := 0
      bbox_min := (initialBounds (fun _ => 0) (fun _ => 0) [centredParticle]).bbox_min
      bbox_max := (initialBounds (fun _ => 0) (fun _ => 0) [centredParticle]).bbox_max } [],
    ?_, rfl, ?_⟩
  · unfold solveGasSubclass
    simp only []
    rw [substepLoop, if_pos (Or.inl (by norm_num))]
    rfl
  · show ¬ ([] : List ℚ).sum ≤ -1
    norm_num

/-- C25, amended. Simulated time per frame, for a frame length `>= 0`: when the
frame-advance returns, the lengths of the velocity substeps it ran sum to at most the frame
length; the accumulated time at the exit of the loop is that sum, one of the two exit
conditions holds there, and if the exit is by the accumulated time having reached the frame
length the sum is the frame length exactly. For `EPSILON > 0` the frame-advance returns once
allowed `floor(frameLength/EPSILON) + 2` iterations. -/
theorem frame_time (H : Host) (P : Params) (F : Fields) (time framerate : ℚ)
    (bbox_min bbox_max : Vec3) (ps : List Particle) (fuel : ℕ) (hf : 0 ≤ framerate) :
    (∀ r, solveGasSubclass H P F time framerate bbox_min bbox_max fuel (some ps) =
        some (true, some r) →
      r.substeps.sum ≤ framerate ∧
      ∃ s' : LoopState, r.particles = s'.particles ∧ s'.adaptive_time = r.substeps.sum ∧
        (s'.adaptive_time ≥ framerate ∨
          adaptiveTimestep H P framerate s'.max_vel s'.adaptive_time < H.EPSILON) ∧
        (s'.adaptive_time ≥ framerate → r.substeps.sum = framerate)) ∧
    (0 < H.EPSILON → ⌊framerate / H.EPSILON⌋₊ + 2 ≤ fuel →
      ∃ r, solveGasSubclass H P F time framerate bbox_min bbox_max fuel (some ps) =
        some (true, some r)) := by
  constructor
  · intro r hr
    unfold solveGasSubclass at hr
    simp only [Option.map_eq_some', Prod.mk.injEq, true_and, Option.some.injEq] at hr
    obtain ⟨r', hr', rfl⟩ := hr
    obtain ⟨s', new, hlog, hpart, htime, hle, hnil, hexit⟩ :=
      substepLoop_time H P F time framerate fuel 0 _ [] r' hr'
    rw [List.nil_append] at hlog
    rw [zero_add] at htime
    have hsum : r'.substeps.sum ≤ framerate := by
      rw [hlog]
      by_cases hn : new = []
      · rw [hn, List.sum_nil]
        exact hf
      · rw [← htime]
        exact hle hn
    refine ⟨hsum, s', hpart, ?_, hexit, fun hge => ?_⟩
    · rw [hlog]
      exact htime
    · rw [hlog, ← htime]
      rw [hlog, ← htime] at hsum
      exact le_antisymm hsum hge
  · intro he hfuel
    have hleft : framerate - (0 : ℚ) <
        ((⌊framerate / H.EPSILON⌋₊ + 1 : ℕ) : ℚ) * H.EPSILON := by
      have := Nat.lt_floor_add_one (framerate / H.EPSILON)
      rw [div_lt_iff₀ he] at this
      push_cast
      linarith
    obtain ⟨r, _, hr, _⟩ :=
      substepLoop_exits H P F time framerate (⌊framerate / H.EPSILON⌋₊ + 1) fuel 0
        { particles := ps
          max_vel := (initialBounds bbox_min bbox_max ps).max_vel
          adaptive_time := 0
          bbox_min := (initialBounds bbox_min bbox_max ps).bbox_min
          bbox_max := (initialBounds bbox_min bbox_max ps).bbox_max } [] (by omega) hleft
    exact ⟨r, by simp only [solveGasSubclass, hr, Option.map_some']⟩

/-- Witness of C25: the example particle, a frame of `1/24` and `EPSILON = 1/10000`. -/
theorem frame_time_witness :
    ((0 : ℚ) ≤ 1 / 24 ∧ 0 < (exampleHost (1 / 10000)).EPSILON ∧
      ⌊(1 / 24 : ℚ) / (exampleHost (1 / 10000)).EPSILON⌋₊ + 2 ≤ 1000) ∧
    ∃ r, solveGasSubclass (exampleHost (1 / 10000)) exampleParams exampleFields 0 (1 / 24)
          (fun _ => 0) (fun _ => 0) 1000 (some [centredParticle]) = some (true, some r) ∧
      r.substeps.sum ≤ 1 / 24 := by
  have h0 : (0 : ℚ) ≤ 1 / 24 := by norm_num
  have h1 : 0 < (exampleHost (1 / 10000)).EPSILON := by norm_num [exampleHost]
  have h3 : ⌊(1 / 24 : ℚ) / (exampleHost (1 / 10000)).EPSILON⌋₊ + 2 ≤ 1000 := by
    have : ⌊(1 / 24 : ℚ) / (exampleHost (1 / 10000)).EPSILON⌋₊ ≤ 998 :=
      Nat.floor_le_of_le (by norm_num [exampleHost])
    omega
  obtain ⟨r, hr⟩ := (frame_time (exampleHost (1 / 10000)) exampleParams exampleFields 0
    (1 / 24) (fun _ => 0) (fun _ => 0) [centredParticle] 1000 h0).2 h1 h3
  exact ⟨⟨h0, h1, h3⟩, r, hr,
    ((frame_time (exampleHost (1 / 10000)) exampleParams exampleFields 0 (1 / 24)
      (fun _ => 0) (fun _ => 0) [centredParticle] 1000 h0).1 r hr).1⟩

/-! ## Padding of the requested grid -/

/-- One axis of the padding: with the origin 3.5 cells below the lower end of the box, the
lower corner of the stencil of a position in the box is at least 3 and at most 5 below the
number of whole cells in the requested size. -/
theorem padding_axis (h lo hi x : ℚ) (hh : 0 < h) (hlo : lo ≤ x) (hhi : x ≤ hi) :
    3 ≤ ⌊(x - ((hi + lo) / 2 - (hi - lo + h * 7) / 2)) / h - 1 / 2⌋ ∧
      ⌊(x - ((hi + lo) / 2 - (hi - lo + h * 7) / 2)) / h - 1 / 2⌋ + 4 ≤
        ⌊(hi - lo + h * 7) / h⌋ := by
  have hne : h ≠ 0 := ne_of_gt hh
  have hg : (x - ((hi + lo) / 2 - (hi - lo + h * 7) / 2)) / h - 1 / 2 = (x - lo) / h + 3 := by
    field_simp
    ring
  have hs : (hi - lo + h * 7) / h = (hi - lo) / h + 7 := by
    field_simp
    ring
  rw [hg, hs]
  have h3 : ⌊(x - lo) / h + 3⌋ = ⌊(x - lo) / h⌋ + 3 := Int.floor_add_int _ 3
  have h7 : ⌊(hi - lo) / h + 7⌋ = ⌊(hi - lo) / h⌋ + 7 := Int.floor_add_int _ 7
  have h0 : 0 ≤ ⌊(x - lo) / h⌋ := Int.floor_nonneg.mpr (div_nonneg (by linarith) (le_of_lt hh))
  have hmono : ⌊(x - lo) / h⌋ ≤ ⌊(hi - lo) / h⌋ :=
    Int.floor_mono (div_le_div_of_nonneg_right (by linarith) (le_of_lt hh))
  rw [h3, h7]
  constructor
  · omega
  · omega

/-- C22. Padding suffices: when the resized grid has its origin at `centre - size/2`, with
`centre = (bbox_max+bbox_min)/2` and `size = (bbox_max-bbox_min) + 7*division_size` as
requested, and at least as many voxels per axis as whole cells fit in `size`, then for
every position inside the bounding box every voxel read or written for it is in the grid:
the 64 voxels of the B-spline stencil, and the 8 voxels of the collision cell with their 6
face neighbours each. -/
theorem padding_suffices (P : Params) (s : LoopState) (G : Geometry) (pos : Vec3)
    (hh : 0 < P.division_size)
    (horigin : ∀ k, G.grid_origin k = requestedCentre s k - requestedSize P s k / 2)
    (hdivs : ⌊requestedSize P s 0 / P.division_size⌋ ≤ G.grid_divs.1 ∧
      ⌊requestedSize P s 1 / P.division_size⌋ ≤ G.grid_divs.2.1 ∧
      ⌊requestedSize P s 2 / P.division_size⌋ ≤ G.grid_divs.2.2)
    (hpos : ∀ k, s.bbox_min k ≤ pos k ∧ pos k ≤ s.bbox_max k) :
    (∀ n ∈ stencil (posToIndex G.grid_origin P.division_size pos),
      isValidIndex G.grid_divs n) ∧
    ∀ n ∈ cellNodes (posToIndex G.grid_origin P.division_size pos),
      isValidIndex G.grid_divs n ∧
        isValidIndex G.grid_divs (n.1 - 1, n.2.1, n.2.2) ∧
        isValidIndex G.grid_divs (n.1 + 1, n.2.1, n.2.2) ∧
        isValidIndex G.grid_divs (n.1, n.2.1 - 1, n.2.2) ∧
        isValidIndex G.grid_divs (n.1, n.2.1 + 1, n.2.2) ∧
        isValidIndex G.grid_divs (n.1, n.2.1, n.2.2 - 1) ∧
        isValidIndex G.grid_divs (n.1, n.2.1, n.2.2 + 1) := by
  have hax : ∀ k, 3 ≤ ⌊gridPos G.grid_origin P.division_size pos k⌋ ∧
      ⌊gridPos G.grid_origin P.division_size pos k⌋ + 4 ≤
        ⌊requestedSize P s k / P.division_size⌋ := by
    intro k
    have := padding_axis P.division_size (s.bbox_min k) (s.bbox_max k) (pos k) hh
      (hpos k).1 (hpos k).2
    simp only [gridPos, horigin k, requestedCentre, requestedSize]
    exact this
  have h0 := hax 0
  have h1 := hax 1
  have h2 := hax 2
  obtain ⟨d0, d1, d2⟩ := hdivs
  constructor
  · intro n hn
    rw [mem_stencil] at hn
    unfold isValidIndex
    simp only [posToIndex] at hn
    omega
  · intro n hn
    obtain ⟨x, y, z⟩ := n
    unfold cellNodes cellRange at hn
    simp only [posToIndex, List.mem_flatMap, List.mem_map, List.mem_cons, List.mem_singleton,
      List.not_mem_nil, or_false, Prod.mk.injEq] at hn
    obtain ⟨c, hc, b, hb, a, ha, rfl, rfl, rfl⟩ := hn
    unfold isValidIndex
    simp only
    omega

/-- Witness of C22: the example particle in its own bounding box, the 7 x 7 x 7 grid with
origin 0 and unit spacing. -/
theorem padding_suffices_witness :
    (0 < exampleParams.division_size ∧
      (∀ k, exampleGeometry.grid_origin k =
        requestedCentre exampleLoopState k - requestedSize exampleParams exampleLoopState k / 2) ∧
      (⌊requestedSize exampleParams exampleLoopState 0 / exampleParams.division_size⌋ ≤
          exampleGeometry.grid_divs.1 ∧
        ⌊requestedSize exampleParams exampleLoopState 1 / exampleParams.division_size⌋ ≤
          exampleGeometry.grid_divs.2.1 ∧
        ⌊requestedSize exampleParams exampleLoopState 2 / exampleParams.division_size⌋ ≤
          exampleGeometry.grid_divs.2.2) ∧
      ∀ k, exampleLoopState.bbox_min k ≤ centredParticle.position k ∧
        centredParticle.position k ≤ exampleLoopState.bbox_max k) ∧
    ∀ n ∈ stencil (posToIndex exampleGeometry.grid_origin exampleParams.division_size
        centredParticle.position), isValidIndex exampleGeometry.grid_divs n := by
  have hh : 0 < exampleParams.division_size := by norm_num [exampleParams]
  have horigin : ∀ k, exampleGeometry.grid_origin k =
      requestedCentre exampleLoopState k -
        requestedSize exampleParams exampleLoopState k / 2 := by
    intro k
    norm_num [exampleGeometry, requestedCentre, requestedSize, exampleParams, centredParticle,
      exampleLoopState]
  have hfl : ∀ k, ⌊requestedSize exampleParams exampleLoopState k /
      exampleParams.division_size⌋ = 7 := by
    intro k
    rw [Int.floor_eq_iff]
    norm_num [requestedSize, exampleParams, centredParticle, exampleLoopState]
  have hdivs : ⌊requestedSize exampleParams exampleLoopState 0 / exampleParams.division_size⌋ ≤
        exampleGeometry.grid_divs.1 ∧
      ⌊requestedSize exampleParams exampleLoopState 1 / exampleParams.division_size⌋ ≤
        exampleGeometry.grid_divs.2.1 ∧
      ⌊requestedSize exampleParams exampleLoopState 2 / exampleParams.division_size⌋ ≤
        exampleGeometry.grid_divs.2.2 :=
    ⟨by rw [hfl 0]; decide, by rw [hfl 1]; decide, by rw [hfl 2]; decide⟩
  have hpos : ∀ k, exampleLoopState.bbox_min k ≤ centredParticle.position k ∧
      centredParticle.position k ≤ exampleLoopState.bbox_max k :=
    fun _ => ⟨le_refl _, le_refl _⟩
  exact ⟨⟨hh, horigin, hdivs, hpos⟩,
    (padding_suffices exampleParams exampleLoopState exampleGeometry centredParticle.position
      hh horigin hdivs hpos).1⟩

/-! ## The normal sampled at a particle -/

theorem sampleStep_of_nonpos (H : Host) (C : Collider) (gpos : Vec3) (a : Sampled) (n : Node)
    (h : C.g_col n ≤ 0) :
    (sampleStep H C gpos a n).col_normal =
        (fun k => a.col_normal k + a.sdf_normal k * sampleWeight gpos n) ∧
      (sampleStep H C gpos a n).sdf_normal = a.sdf_normal := by
  unfold sampleStep
  simp only [computeSDFNormal_of_nonpos H C.g_col n a.sdf_normal h, sampleWeight]
  exact ⟨trivial, trivial⟩

theorem sampleStep_of_pos (H : Host) (C : Collider) (gpos : Vec3) (a : Sampled) (n : Node)
    (h : C.g_col n > 0) :
    (sampleStep H C gpos a n).col_normal =
        (fun k => a.col_normal k + sdfNormalAt H C.g_col n k * sampleWeight gpos n) ∧
      (sampleStep H C gpos a n).sdf_normal = sdfNormalAt H C.g_col n := by
  unfold sampleStep
  simp only [computeSDFNormal_of_pos H C.g_col n a.sdf_normal h, sampleWeight, sdfNormalAt]
  exact ⟨trivial, trivial⟩

/-- Over voxels whose SDF is not positive the loop adds to the normal the vector it found
in `sdf_normal` on entry, and leaves that vector in place. -/
theorem sampleFold_normal_of_nonpos (H : Host) (C : Collider) (gpos : Vec3) (l : List Node)
    (hl : ∀ n ∈ l, C.g_col n ≤ 0) :
    ∀ a : Sampled,
      (∀ k, (l.foldl (sampleStep H C gpos) a).col_normal k =
        a.col_normal k + a.sdf_normal k * (l.map (sampleWeight gpos)).sum) ∧
      (l.foldl (sampleStep H C gpos) a).sdf_normal = a.sdf_normal := by
  induction l with
  | nil =>
    intro a
    simp
  | cons n l ih =>
    intro a
    have hn := sampleStep_of_nonpos H C gpos a n (hl n (List.mem_cons_self _ _))
    have h := ih (fun m hm => hl m (List.mem_cons_of_mem _ hm)) (sampleStep H C gpos a n)
    rw [List.foldl_cons]
    refine ⟨fun k => ?_, ?_⟩
    · rw [h.1 k, hn.1, hn.2, List.map_cons, List.sum_cons]
      ring
    · rw [h.2, hn.2]

/-- Over voxels whose SDF is positive the loop adds to the normal each voxel's own
normal, whatever `sdf_normal` held on entry. -/
theorem sampleFold_normal_of_pos (H : Host) (C : Collider) (gpos : Vec3) (l : List Node)
    (hl : ∀ n ∈ l, C.g_col n > 0) :
    ∀ (a : Sampled) (k : Fin 3),
      (l.foldl (sampleStep H C gpos) a).col_normal k =
        a.col_normal k +
          (l.map fun n => sdfNormalAt H C.g_col n k * sampleWeight gpos n).sum := by
  induction l with
  | nil =>
    intro a k
    simp
  | cons n l ih =>
    intro a k
    have hn := sampleStep_of_pos H C gpos a n (hl n (List.mem_cons_self _ _))
    rw [List.foldl_cons, ih (fun m hm => hl m (List.mem_cons_of_mem _ hm)), hn.1,
      List.map_cons, List.sum_cons]
    ring

theorem posToIndex_quarterParticle :
    posToIndex exampleGeometry.grid_origin exampleParams.division_size
      quarterParticle.position = (3, 3, 3) := by
  have h : ⌊(7 : ℚ) / 2 - 2⁻¹⌋ = 3 := by
    rw [Int.floor_eq_iff]; norm_num
  have h2 : ⌊(15 : ℚ) / 4 - 2⁻¹⌋ = 3 := by
    rw [Int.floor_eq_iff]; norm_num
  simp [posToIndex, gridPos, exampleGeometry, exampleParams, quarterParticle, h, h2]

theorem gridPos_quarterParticle :
    gridPos exampleGeometry.grid_origin exampleParams.division_size
      quarterParticle.position = ![3, 3, 13 / 4] := by
  funext i
  fin_cases i <;> norm_num [gridPos, exampleGeometry, exampleParams, quarterParticle]

theorem cellNodes_three :
    cellNodes (3, 3, 3) =
      [(3, 3, 3), (4, 3, 3), (3, 4, 3), (4, 4, 3)] ++
        [(3, 3, 4), (4, 3, 4), (3, 4, 4), (4, 4, 4)] := rfl

theorem sampleWeight_quarter_low :
    ([(3, 3, 3), (4, 3, 3), (3, 4, 3), (4, 4, 3)].map
      (sampleWeight ![3, 3, 13 / 4])).sum = 1 / 4 := by
  simp [sampleWeight]
  norm_num [abs_of_pos]

theorem sdfNormalAt_shelfCollider (eps : ℚ) (n : Node) (hn : (n.2.2 : ℚ) - 3 > 0) :
    sdfNormalAt (exampleHost eps) shelfCollider.g_col n = ![0, 0, -1] := by
  unfold sdfNormalAt computeSDFNormal
  have hc : ¬ shelfCollider.g_col n ≤ 0 := not_le.mpr hn
  rw [if_neg hc]
  have hv : (![shelfCollider.g_col (n.1 - 1, n.2.1, n.2.2) -
        shelfCollider.g_col (n.1 + 1, n.2.1, n.2.2),
      shelfCollider.g_col (n.1, n.2.1 - 1, n.2.2) - shelfCollider.g_col (n.1, n.2.1 + 1, n.2.2),
      shelfCollider.g_col (n.1, n.2.1, n.2.2 - 1) -
        shelfCollider.g_col (n.1, n.2.1, n.2.2 + 1)] : Vec3) = ![0, 0, -2] := by
    funext i
    fin_cases i <;> simp [shelfCollider]
    ring
  simp only [hv]
  have hl : length (exampleHost eps) ![0, 0, -2] = 2 := by
    have h2 : length2 ![0, 0, -2] = 4 := by
      simp [length2, Matrix.dotProduct, Fin.sum_univ_three]
      norm_num
    unfold length
    rw [h2]
    exact exampleHost_sqrt_four eps
  rw [hl]
  norm_num
  funext i
  fin_cases i <;> simp

/-- The normal that the loop of lines 729-745 computes for `quarterParticle` against
`shelfCollider`: a quarter of what `sdf_normal` held on entry, plus three quarters of the
normal `(0, 0, -1)` of the voxels above the shelf. -/
theorem sampleCollider_shelf (sn : Vec3) :
    (sampleCollider (exampleHost 0) exampleParams exampleGeometry shelfCollider sn
        quarterParticle).col_normal =
      fun k => sn k * (1 / 4) + (![0, 0, -1] : Vec3) k * (3 / 4) := by
  funext k
  unfold sampleCollider
  rw [posToIndex_quarterParticle, gridPos_quarterParticle, cellNodes_three, List.foldl_append]
  have hlow : ∀ n ∈ ([(3, 3, 3), (4, 3, 3), (3, 4, 3), (4, 4, 3)] : List Node),
      shelfCollider.g_col n ≤ 0 := by
    intro n hn
    simp only [List.mem_cons, List.mem_singleton, List.not_mem_nil, or_false] at hn
    rcases hn with rfl | rfl | rfl | rfl <;> simp [shelfCollider]
  have hhigh : ∀ n ∈ ([(3, 3, 4), (4, 3, 4), (3, 4, 4), (4, 4, 4)] : List Node),
      shelfCollider.g_col n > 0 := by
    intro n hn
    simp only [List.mem_cons, List.mem_singleton, List.not_mem_nil, or_false] at hn
    rcases hn with rfl | rfl | rfl | rfl <;> norm_num [shelfCollider]
  rw [sampleFold_normal_of_pos _ _ _ _ hhigh,
    (sampleFold_normal_of_nonpos _ _ _ _ hlow _).1 k, sampleWeight_quarter_low]
  have hN : ∀ n ∈ ([(3, 3, 4), (4, 3, 4), (3, 4, 4), (4, 4, 4)] : List Node),
      sdfNormalAt (exampleHost 0) shelfCollider.g_col n k *
          sampleWeight ![3, 3, 13 / 4] n =
        (![0, 0, -1] : Vec3) k * sampleWeight ![3, 3, 13 / 4] n := by
    intro n hn
    rw [sdfNormalAt_shelfCollider 0 n (hhigh n hn)]
  rw [List.map_congr_left hN]
  have hw : (([(3, 3, 4), (4, 3, 4), (3, 4, 4), (4, 4, 4)] : List Node).map fun n =>
      (![0, 0, -1] : Vec3) k * sampleWeight ![3, 3, 13 / 4] n).sum =
      (![0, 0, -1] : Vec3) k * (3 / 4) := by
    simp [sampleWeight]
    left
    rw [abs_of_neg (by norm_num)]
    norm_num
  rw [hw, zero_add]

theorem ownNormal_shelfCollider (eps : ℚ) (n : Node) :
    ownNormal (exampleHost eps) shelfCollider.g_col n = ![0, 0, -1] := by
  unfold ownNormal
  have hv : (![shelfCollider.g_col (n.1 - 1, n.2.1, n.2.2) -
        shelfCollider.g_col (n.1 + 1, n.2.1, n.2.2),
      shelfCollider.g_col (n.1, n.2.1 - 1, n.2.2) - shelfCollider.g_col (n.1, n.2.1 + 1, n.2.2),
      shelfCollider.g_col (n.1, n.2.1, n.2.2 - 1) -
        shelfCollider.g_col (n.1, n.2.1, n.2.2 + 1)] : Vec3) = ![0, 0, -2] := by
    funext i
    fin_cases i <;> simp [shelfCollider]
    ring
  simp only [hv]
  have hl : length (exampleHost eps) ![0, 0, -2] = 2 := by
    have h2 : length2 ![0, 0, -2] = 4 := by
      simp [length2, Matrix.dotProduct, Fin.sum_univ_three]
      norm_num
    unfold length
    rw [h2]
    exact exampleHost_sqrt_four eps
  rw [hl]
  norm_num
  funext i
  fin_cases i <;> simp

/-- C21, the divergence. `quarterParticle` sits between the voxels `(4, 4, 3)`, where the
SDF of `shelfCollider` is 0, and `(4, 4, 4)`, where it is 1; the sampled SDF is `3/4 > 0`.
The weighted sum of the 8 voxels' own SDF-gradient normals is `(0, 0, -1)`. The code leaves
`sdf_normal` untouched at a voxel with SDF `<= 0` and adds what the variable held before:
with `(0, 0, 0)` on entry the sampled normal is `(0, 0, -3/4)`, with `(0, 0, 1)` it is
`(0, 0, -1/2)`, for the same SDF and the same position. What the variable holds on entry
is what the particle before left in it, and this particle leaves `(0, 0, -1)`. -/
theorem sampled_normal_depends_on_history :
    (∀ sn, (sampleCollider (exampleHost 0) exampleParams exampleGeometry shelfCollider sn
        quarterParticle).col_sdf = 3 / 4) ∧
    ((cellNodes (posToIndex exampleGeometry.grid_origin exampleParams.division_size
        quarterParticle.position)).map fun n =>
      ownNormal (exampleHost 0) shelfCollider.g_col n 2 *
        sampleWeight (gridPos exampleGeometry.grid_origin exampleParams.division_size
          quarterParticle.position) n).sum = -1 ∧
    (sampleCollider (exampleHost 0) exampleParams exampleGeometry shelfCollider (fun _ => 0)
        quarterParticle).col_normal 2 = -3 / 4 ∧
    (sampleCollider (exampleHost 0) exampleParams exampleGeometry shelfCollider ![0, 0, 1]
        quarterParticle).col_normal 2 = -1 / 2 ∧
    (∀ sn, (sampleCollider (exampleHost 0) exampleParams exampleGeometry shelfCollider sn
        quarterParticle).sdf_normal = ![0, 0, -1]) ∧
    ∀ (H : Host) (P : Params) (G : Geometry) (C : Collider) (g : Grid) (timestep : ℚ)
      (c : Carried) (p : Particle),
      (gatherParticle H P G C g timestep c p).1.sdf_normal =
        (sampleCollider H P G C c.sdf_normal p).sdf_normal := by
  refine ⟨fun sn => ?_, ?_, ?_, ?_, fun sn => ?_, fun H P G C g timestep c p => rfl⟩
  · rw [(sampleCollider_sums _ _ _ _ _ _).1, posToIndex_quarterParticle,
      gridPos_quarterParticle, cellNodes_sum]
    simp [sampleWeight, shelfCollider]
    rw [abs_of_neg (by norm_num)]
    norm_num
  · rw [posToIndex_quarterParticle, gridPos_quarterParticle, cellNodes_sum]
    simp only [ownNormal_shelfCollider, sampleWeight]
    norm_num
    rw [abs_of_pos (by norm_num : (0 : ℚ) < 1 / 4), abs_of_pos (by norm_num : (0 : ℚ) < 3 / 4)]
    norm_num
  · rw [sampleCollider_shelf]
    norm_num
  · rw [sampleCollider_shelf]
    norm_num
  · unfold sampleCollider
    rw [posToIndex_quarterParticle, gridPos_quarterParticle]
    have h444 : shelfCollider.g_col (4, 4, 4) > 0 := by norm_num [shelfCollider]
    have hsplit : cellNodes (3, 3, 3) =
        [(3, 3, 3), (4, 3, 3), (3, 4, 3), (4, 4, 3), (3, 3, 4), (4, 3, 4), (3, 4, 4)] ++
          [(4, 4, 4)] := rfl
    rw [hsplit, List.foldl_append, List.foldl_cons, List.foldl_nil,
      (sampleStep_of_pos _ _ _ _ _ h444).2]
    exact sdfNormalAt_shelfCollider 0 (4, 4, 4) (by norm_num)

/-! ## The particle contact and the interpolated normal -/

theorem exampleHost_sqrt_one (eps : ℚ) : (exampleHost eps).sqrt 1 = 1 := by
  simp [exampleHost]

theorem exampleHost_sqrt_nine (eps : ℚ) : (exampleHost eps).sqrt 9 = 3 := by
  have h : Nat.sqrt 9 = 3 := Nat.sqrt_eq 3
  have hn : ((9 : ℚ).num).toNat = 9 := rfl
  have hd : (9 : ℚ).den = 1 := rfl
  simp only [exampleHost, hn, hd, h, Nat.sqrt_one]
  norm_num

theorem sdfNormalAt_ridge_low (eps : ℚ) (x y : Int) :
    sdfNormalAt (exampleHost eps) ridgeCollider.g_col (x, y, 3) = ![0, 0, -1] := by
  unfold sdfNormalAt computeSDFNormal
  have hc : ¬ ridgeCollider.g_col (x, y, 3) ≤ 0 := by norm_num [ridgeCollider]
  rw [if_neg hc]
  have hv : (![ridgeCollider.g_col (x - 1, y, 3) - ridgeCollider.g_col (x + 1, y, 3),
      ridgeCollider.g_col (x, y - 1, 3) - ridgeCollider.g_col (x, y + 1, 3),
      ridgeCollider.g_col (x, y, 3 - 1) - ridgeCollider.g_col (x, y, 3 + 1)] : Vec3) =
      ![0, 0, -1] := by
    funext i
    fin_cases i <;> norm_num [ridgeCollider]
  simp only [hv]
  have hl : length (exampleHost eps) ![0, 0, -1] = 1 := by
    have h2 : length2 ![0, 0, -1] = 1 := by
      simp [length2, Matrix.dotProduct, Fin.sum_univ_three]
    unfold length
    rw [h2]
    exact exampleHost_sqrt_one eps
  rw [hl]
  norm_num

theorem sdfNormalAt_ridge_high (eps : ℚ) (x y : Int) :
    sdfNormalAt (exampleHost eps) ridgeCollider.g_col (x, y, 4) = ![0, 0, 1] := by
  unfold sdfNormalAt computeSDFNormal
  have hc : ¬ ridgeCollider.g_col (x, y, 4) ≤ 0 := by norm_num [ridgeCollider]
  rw [if_neg hc]
  have hv : (![ridgeCollider.g_col (x - 1, y, 4) - ridgeCollider.g_col (x + 1, y, 4),
      ridgeCollider.g_col (x, y - 1, 4) - ridgeCollider.g_col (x, y + 1, 4),
      ridgeCollider.g_col (x, y, 4 - 1) - ridgeCollider.g_col (x, y, 4 + 1)] : Vec3) =
      ![0, 0, 1] := by
    funext i
    fin_cases i <;> norm_num [ridgeCollider]
  simp only [hv]
  have hl : length (exampleHost eps) ![0, 0, 1] = 1 := by
    have h2 : length2 ![0, 0, 1] = 1 := by
      simp [length2, Matrix.dotProduct, Fin.sum_univ_three]
    unfold length
    rw [h2]
    exact exampleHost_sqrt_one eps
  rw [hl]
  norm_num

theorem ridgeCollider_pos_cell : ∀ n ∈ cellNodes (3, 3, 3), ridgeCollider.g_col n > 0 := by
  intro n hn
  rw [cellNodes_three] at hn
  simp only [List.cons_append, List.nil_append, List.mem_cons, List.mem_singleton,
    List.not_mem_nil, or_false] at hn
  rcases hn with rfl | rfl | rfl | rfl | rfl | rfl | rfl | rfl <;> norm_num [ridgeCollider]

/-- What the loop of lines 729-745 computes for `quarterParticle` against `ridgeCollider`:
SDF 3, collider velocity 0 and the normal `(0, 0, 1/2)`, of length `1/2`. -/
theorem sampleCollider_ridge (sn : Vec3) :
    (sampleCollider (exampleHost 0) exampleParams exampleGeometry ridgeCollider sn
        quarterParticle).col_sdf = 3 ∧
      (sampleCollider (exampleHost 0) exampleParams exampleGeometry ridgeCollider sn
        quarterParticle).col_vel = ![0, 0, 0] ∧
      (sampleCollider (exampleHost 0) exampleParams exampleGeometry ridgeCollider sn
        quarterParticle).col_normal = ![0, 0, 1 / 2] := by
  have h14 : |(1 : ℚ) / 4| = 1 / 4 := abs_of_pos (by norm_num)
  have h34 : |(3 : ℚ) / 4| = 3 / 4 := abs_of_pos (by norm_num)
  refine ⟨?_, ?_, ?_⟩
  · rw [(sampleCollider_sums _ _ _ _ _ _).1, posToIndex_quarterParticle,
      gridPos_quarterParticle, cellNodes_sum]
    simp only [sampleWeight, ridgeCollider]
    norm_num [h14, h34]
  · funext k
    rw [(sampleCollider_sums _ _ _ _ _ _).2 k, posToIndex_quarterParticle,
      gridPos_quarterParticle, cellNodes_sum]
    simp only [ridgeCollider]
    fin_cases k <;> simp
  · funext k
    unfold sampleCollider
    rw [posToIndex_quarterParticle, gridPos_quarterParticle,
      sampleFold_normal_of_pos _ _ _ _ ridgeCollider_pos_cell, cellNodes_sum]
    have e4 : ((3 : Int) + 1) = 4 := rfl
    simp only [e4, sdfNormalAt_ridge_low, sdfNormalAt_ridge_high, sampleWeight]
    fin_cases k <;> norm_num [h14, h34]

/-- The velocity the particle contact rule returns for an approaching particle with sampled
SDF `> 0`, relative to the collider: 0 when the contact sticks, `k * vt` with
`k = (|vt| + vn*COF)/|vt|` under dynamic friction. -/
theorem particleContact_relative (H : Host) (P : Params) (vel c n : Vec3) (sdf : ℚ)
    (hsdf : sdf > 0) (hvn : Matrix.dotProduct (vel - c) n < 0) (hcof : 0 ≤ P.COF) :
    (length H (vel - c - Matrix.dotProduct (vel - c) n • n) ≤
        -(Matrix.dotProduct (vel - c) n * P.COF) →
      particleContact H P vel c n sdf - c = 0) ∧
    (length H (vel - c - Matrix.dotProduct (vel - c) n • n) >
        -(Matrix.dotProduct (vel - c) n * P.COF) →
      0 < (length H (vel - c - Matrix.dotProduct (vel - c) n • n) +
          Matrix.dotProduct (vel - c) n * P.COF) /
        length H (vel - c - Matrix.dotProduct (vel - c) n • n) ∧
      particleContact H P vel c n sdf - c =
        ((length H (vel - c - Matrix.dotProduct (vel - c) n • n) +
            Matrix.dotProduct (vel - c) n * P.COF) /
          length H (vel - c - Matrix.dotProduct (vel - c) n • n)) •
          (vel - c - Matrix.dotProduct (vel - c) n • n)) := by
  obtain ⟨vn, hvndef⟩ : ∃ vn : ℚ, vn = Matrix.dotProduct (vel - c) n := ⟨_, rfl⟩
  obtain ⟨vt, hvtdef⟩ : ∃ vt : Vec3, vt = vel - c - vn • n := ⟨_, rfl⟩
  rw [← hvndef] at hvn ⊢
  rw [← hvtdef]
  obtain ⟨L, hLdef⟩ : ∃ L : ℚ, L = length H vt := ⟨_, rfl⟩
  rw [← hLdef]
  have hstick : vn * P.COF ≤ 0 := mul_nonpos_of_nonpos_of_nonneg (le_of_lt hvn) hcof
  constructor
  · intro hle
    have hres : particleContact H P vel c n sdf = c := by
      unfold particleContact
      simp only [hsdf, if_true, ← hvndef, hvn, ← hvtdef, ← hLdef, hle]
    rw [hres, sub_self]
  · intro hgt
    have hL : 0 < L := by linarith
    have hres : particleContact H P vel c n sdf =
        vt + ((fun i => vn * P.COF * vt i / L) + c) := by
      unfold particleContact
      simp only [hsdf, if_true, ← hvndef, hvn, ← hvtdef, ← hLdef, not_le.mpr hgt, if_false]
    refine ⟨div_pos (by linarith) hL, ?_⟩
    rw [hres]
    funext i
    simp only [Pi.add_apply, Pi.sub_apply, Pi.smul_apply, smul_eq_mul]
    field_simp
    ring

/-- C26, the divergence. For `quarterParticle` against `ridgeCollider`, whose SDF is
positive at the 8 voxels of the cell, the sampled SDF is 3 and the interpolated normal is
`(0, 0, 1/2)`: the weighted sum of the unit normals `(0, 0, -1)` and `(0, 0, 1)` is not
brought back to length 1, as `computeSDFNormal` does for the normal of the grid contact.
A particle velocity `(0, 0, -4)` approaches (`vn = -2 < 0`) and is corrected to
`(0, 0, -2)`, whose component along the normal is `-1 < 0`: the particle still moves into
the collider. With the normal brought to length 1, `(0, 0, 1)`, the same rule leaves the
component 0. -/
theorem particle_contact_leaves_inward_velocity :
    (∀ n ∈ cellNodes (posToIndex exampleGeometry.grid_origin exampleParams.division_size
        quarterParticle.position), ridgeCollider.g_col n > 0) ∧
    (sampleCollider (exampleHost 0) exampleParams exampleGeometry ridgeCollider (fun _ => 0)
        quarterParticle).col_sdf > 0 ∧
    Matrix.dotProduct (![0, 0, -4] -
        (sampleCollider (exampleHost 0) exampleParams exampleGeometry ridgeCollider
          (fun _ => 0) quarterParticle).col_vel)
      (sampleCollider (exampleHost 0) exampleParams exampleGeometry ridgeCollider (fun _ => 0)
        quarterParticle).col_normal < 0 ∧
    Matrix.dotProduct
      (particleContact (exampleHost 0) exampleParams ![0, 0, -4]
          (sampleCollider (exampleHost 0) exampleParams exampleGeometry ridgeCollider
            (fun _ => 0) quarterParticle).col_vel
          (sampleCollider (exampleHost 0) exampleParams exampleGeometry ridgeCollider
            (fun _ => 0) quarterParticle).col_normal
          (sampleCollider (exampleHost 0) exampleParams exampleGeometry ridgeCollider
            (fun _ => 0) quarterParticle).col_sdf -
        (sampleCollider (exampleHost 0) exampleParams exampleGeometry ridgeCollider
          (fun _ => 0) quarterParticle).col_vel)
      (sampleCollider (exampleHost 0) exampleParams exampleGeometry ridgeCollider (fun _ => 0)
        quarterParticle).col_normal = -1 ∧
    Matrix.dotProduct
      (particleContact (exampleHost 0) exampleParams ![0, 0, -4]
          (sampleCollider (exampleHost 0) exampleParams exampleGeometry ridgeCollider
            (fun _ => 0) quarterParticle).col_vel ![0, 0, 1]
          (sampleCollider (exampleHost 0) exampleParams exampleGeometry ridgeCollider
            (fun _ => 0) quarterParticle).col_sdf -
        (sampleCollider (exampleHost 0) exampleParams exampleGeometry ridgeCollider
          (fun _ => 0) quarterParticle).col_vel) ![0, 0, 1] = 0 := by
  obtain ⟨h1, h2, h3⟩ := sampleCollider_ridge fun _ => 0
  rw [h1, h2, h3, posToIndex_quarterParticle]
  have hdot : Matrix.dotProduct ((![0, 0, -4] : Vec3) - ![0, 0, 0]) ![0, 0, 1 / 2] = -2 := by
    simp [Matrix.dotProduct, Fin.sum_univ_three]
    norm_num
  have hvt : (![0, 0, -4] : Vec3) - ![0, 0, 0] - (-2 : ℚ) • ![0, 0, 1 / 2] = ![0, 0, -3] := by
    funext i
    fin_cases i <;> simp
    norm_num
  have hL : length (exampleHost 0) ![0, 0, -3] = 3 := by
    have h2 : length2 ![0, 0, -3] = 9 := by
      simp [length2, Matrix.dotProduct, Fin.sum_univ_three]
      norm_num
    unfold length
    rw [h2]
    exact exampleHost_sqrt_nine 0
  have hvn : Matrix.dotProduct ((![0, 0, -4] : Vec3) - ![0, 0, 0]) ![0, 0, 1 / 2] < 0 := by
    rw [hdot]
    norm_num
  have hgt : length (exampleHost 0) ((![0, 0, -4] : Vec3) - ![0, 0, 0] -
      Matrix.dotProduct ((![0, 0, -4] : Vec3) - ![0, 0, 0]) ![0, 0, 1 / 2] •
        ![0, 0, 1 / 2]) >
      -(Matrix.dotProduct ((![0, 0, -4] : Vec3) - ![0, 0, 0]) ![0, 0, 1 / 2] *
        exampleParams.COF) := by
    rw [hdot, hvt, hL]
    norm_num [exampleParams]
  have hrel := ((particleContact_relative (exampleHost 0) exampleParams ![0, 0, -4]
    ![0, 0, 0] ![0, 0, 1 / 2] 3 (by norm_num) hvn (by norm_num [exampleParams])).2 hgt).2
  rw [hdot, hvt, hL] at hrel
  have hdot1 : Matrix.dotProduct ((![0, 0, -4] : Vec3) - ![0, 0, 0]) ![0, 0, 1] = -4 := by
    simp [Matrix.dotProduct, Fin.sum_univ_three]
  have hvt1 : (![0, 0, -4] : Vec3) - ![0, 0, 0] - (-4 : ℚ) • ![0, 0, 1] = 0 := by
    funext i
    fin_cases i <;> simp
  have hL1 : length (exampleHost 0) (0 : Vec3) = 0 := by
    have h2 : length2 (0 : Vec3) = 0 := by
      simp [length2]
    unfold length
    rw [h2]
    exact exampleHost_sqrt_zero 0
  have hvn1 : Matrix.dotProduct ((![0, 0, -4] : Vec3) - ![0, 0, 0]) ![0, 0, 1] < 0 := by
    rw [hdot1]
    norm_num
  have hle : length (exampleHost 0) ((![0, 0, -4] : Vec3) - ![0, 0, 0] -
      Matrix.dotProduct ((![0, 0, -4] : Vec3) - ![0, 0, 0]) ![0, 0, 1] • ![0, 0, 1]) ≤
      -(Matrix.dotProduct ((![0, 0, -4] : Vec3) - ![0, 0, 0]) ![0, 0, 1] *
        exampleParams.COF) := by
    rw [hdot1, hvt1, hL1]
    norm_num [exampleParams]
  refine ⟨ridgeCollider_pos_cell, by norm_num, hvn, ?_, ?_⟩
  · rw [hrel]
    simp [Matrix.dotProduct, Fin.sum_univ_three, exampleParams]
    norm_num
  · rw [(particleContact_relative (exampleHost 0) exampleParams ![0, 0, -4] ![0, 0, 0]
      ![0, 0, 1] 3 (by norm_num) hvn1 (by norm_num [exampleParams])).1 hle,
      Matrix.zero_dotProduct]

/-- The component along the normal that the particle contact rule leaves, for any vector
`n` handed to it as normal: with sampled SDF `> 0`, `vn = dot(vel - colliderVel, n) < 0` and
`COF >= 0`, it is 0 when the contact sticks and `k * vn * (1 - dot(n, n))` with
`k = (|vt| + vn*COF)/|vt| > 0` under dynamic friction. The rule does what it is written
for, cancelling the normal component, exactly when `n` has length 1. -/
theorem particle_contact_normal_component (H : Host) (P : Params) (vel c n : Vec3) (sdf : ℚ)
    (hsdf : sdf > 0) (hvn : Matrix.dotProduct (vel - c) n < 0) (hcof : 0 ≤ P.COF) :
    (length H (vel - c - Matrix.dotProduct (vel - c) n • n) ≤
        -(Matrix.dotProduct (vel - c) n * P.COF) →
      Matrix.dotProduct (particleContact H P vel c n sdf - c) n = 0) ∧
    (length H (vel - c - Matrix.dotProduct (vel - c) n • n) >
        -(Matrix.dotProduct (vel - c) n * P.COF) →
      Matrix.dotProduct (particleContact H P vel c n sdf - c) n =
        (length H (vel - c - Matrix.dotProduct (vel - c) n • n) +
            Matrix.dotProduct (vel - c) n * P.COF) /
          length H (vel - c - Matrix.dotProduct (vel - c) n • n) *
          (Matrix.dotProduct (vel - c) n * (1 - Matrix.dotProduct n n))) ∧
    (Matrix.dotProduct n n = 1 →
      Matrix.dotProduct (particleContact H P vel c n sdf - c) n = 0) ∧
    (1 ≤ Matrix.dotProduct n n →
      0 ≤ Matrix.dotProduct (particleContact H P vel c n sdf - c) n) ∧
    (Matrix.dotProduct n n < 1 →
      length H (vel - c - Matrix.dotProduct (vel - c) n • n) >
        -(Matrix.dotProduct (vel - c) n * P.COF) →
      Matrix.dotProduct (particleContact H P vel c n sdf - c) n < 0) := by
  obtain ⟨hst, hdy⟩ := particleContact_relative H P vel c n sdf hsdf hvn hcof
  have hvtn : Matrix.dotProduct (vel - c - Matrix.dotProduct (vel - c) n • n) n =
      Matrix.dotProduct (vel - c) n * (1 - Matrix.dotProduct n n) := by
    rw [Matrix.sub_dotProduct, Matrix.smul_dotProduct, smul_eq_mul]
    ring
  have hstick0 : length H (vel - c - Matrix.dotProduct (vel - c) n • n) ≤
      -(Matrix.dotProduct (vel - c) n * P.COF) →
      Matrix.dotProduct (particleContact H P vel c n sdf - c) n = 0 := by
    intro hle
    rw [hst hle, Matrix.zero_dotProduct]
  have hdyn : length H (vel - c - Matrix.dotProduct (vel - c) n • n) >
      -(Matrix.dotProduct (vel - c) n * P.COF) →
      Matrix.dotProduct (particleContact H P vel c n sdf - c) n =
        (length H (vel - c - Matrix.dotProduct (vel - c) n • n) +
            Matrix.dotProduct (vel - c) n * P.COF) /
          length H (vel - c - Matrix.dotProduct (vel - c) n • n) *
          (Matrix.dotProduct (vel - c) n * (1 - Matrix.dotProduct n n)) := by
    intro hgt
    rw [(hdy hgt).2, Matrix.smul_dotProduct, hvtn, smul_eq_mul]
  refine ⟨hstick0, hdyn, fun hunit => ?_, fun hge => ?_, fun hlt hgt => ?_⟩
  · by_cases hle : length H (vel - c - Matrix.dotProduct (vel - c) n • n) ≤
        -(Matrix.dotProduct (vel - c) n * P.COF)
    · exact hstick0 hle
    · rw [hdyn (not_le.mp hle), hunit, sub_self, mul_zero, mul_zero]
  · by_cases hle : length H (vel - c - Matrix.dotProduct (vel - c) n • n) ≤
        -(Matrix.dotProduct (vel - c) n * P.COF)
    · rw [hstick0 hle]
    · rw [hdyn (not_le.mp hle)]
      exact mul_nonneg (le_of_lt (hdy (not_le.mp hle)).1)
        (mul_nonneg_of_nonpos_of_nonpos (le_of_lt hvn) (by linarith))
  · rw [hdyn hgt]
    exact mul_neg_of_pos_of_neg (hdy hgt).1 (mul_neg_of_neg_of_pos hvn (by linarith))

/-- The contact rule at a unit normal: velocity `(3, 4, -1)` against a collider at rest with
the normal `(0, 0, 1)`, friction coefficient `1/2` and sampled SDF 1. -/
theorem particle_contact_normal_component_witness :
    ((1 : ℚ) > 0 ∧
      Matrix.dotProduct ((![3, 4, -1] : Vec3) - ![0, 0, 0]) ![0, 0, 1] < 0 ∧
      0 ≤ exampleParams.COF ∧ 1 ≤ Matrix.dotProduct (![0, 0, 1] : Vec3) ![0, 0, 1]) ∧
    0 ≤ Matrix.dotProduct
      (particleContact (exampleHost 0) exampleParams ![3, 4, -1] ![0, 0, 0] ![0, 0, 1] 1 -
        ![0, 0, 0]) ![0, 0, 1] := by
  have hvn : Matrix.dotProduct ((![3, 4, -1] : Vec3) - ![0, 0, 0]) ![0, 0, 1] < 0 := by
    simp [Matrix.dotProduct, Fin.sum_univ_three]
  have hcof : (0 : ℚ) ≤ exampleParams.COF := by norm_num [exampleParams]
  have hunit : 1 ≤ Matrix.dotProduct (![0, 0, 1] : Vec3) ![0, 0, 1] := by
    simp [Matrix.dotProduct, Fin.sum_univ_three]
  exact ⟨⟨one_pos, hvn, hcof, hunit⟩,
    (particle_contact_normal_component (exampleHost 0) exampleParams ![3, 4, -1] ![0, 0, 0]
      ![0, 0, 1] 1 one_pos hvn hcof).2.2.2.1 hunit⟩

end SnowSolver
